import Mathlib

/-!
# ChessGame: a shallow embedding of the rules engine in `chess.cpp`

The C++ classes `Piece`, `ChessBoard` and `Game` are translated to Lean
structures; member functions become functions that take the object and return
the result together with the updated object.

Conventions of the embedding.

* Coordinates are `Int`, as in the source (`int`); `board[y][x]` is
  `s.board y x`.  The 8x8 `vector<vector<Square>>` is a total function on
  coordinates; for in-board arguments the code reads and writes only squares
  with both coordinates in `0..7`.
* `Piece::type` is a one-character string in the source (`"P"`, `"R"`, `"N"`,
  `"B"`, `"Q"`, `"K"`, and `" "` for an empty square); it is a `Char` here.
* `isKingInCheck`, `isValidMove` and `isValidKingMove` are mutually recursive in
  the source (a king validator simulates the move and asks `isKingInCheck`).
  Each nested call happens on a board on which a king has just been captured,
  so the nesting depth is bounded by the number of pieces.  The embedding uses a
  fuel counter for this nesting, started at 65.
* The reference parameters `putsOpponentInCheck` and `resultsInCheckmate` of
  `isValidMove` are never written by the source and are left out.
-/

namespace Chess

/-! ## Constants -/

def SIZE : Int := 8

def TILE_SIZE : Int := 64

def MAX_VISIBLE_MOVES : Nat := 24

/-- The eight indices `0, 1, ..., SIZE - 1` in the order of a
`for (i = 0; i < SIZE; i++)` loop. -/
def coords : List Int := [0, 1, 2, 3, 4, 5, 6, 7]

/-! ## Piece and board -/

structure Piece where
  type : Char
  isWhite : Bool
  deriving DecidableEq

/-- The default-constructed piece `Piece()`: type `" "`, black. -/
def Piece.none : Piece := ⟨' ', false⟩

def Piece.isEmpty (p : Piece) : Bool := p.type == ' '

/-- The grid `board[y][x]`. -/
abbrev Grid := Int → Int → Piece

/-- The assignment `board[y][x].piece = p`. -/
def Grid.set (b : Grid) (y x : Int) (p : Piece) : Grid :=
  fun j i => if j = y ∧ i = x then p else b j i

/-- The grid after `board.resize(SIZE, vector<Square>(SIZE, Square()))` on a
fresh vector: every square is default-constructed. -/
def Grid.blank : Grid := fun _ _ => Piece.none

structure ChessBoard where
  hasWhiteKingMoved : Bool
  hasBlackKingMoved : Bool
  /-- The array `hasWhiteRookMoved[2]`: `.1` is index 0 (queenside), `.2` is index 1. -/
  hasWhiteRookMoved : Bool × Bool
  hasBlackRookMoved : Bool × Bool
  board : Grid
  didWEnPassant : Bool
  didBEnPassant : Bool
  lastMove : String
  backupLastMove : String
  backupBoard : Grid

/-- The string `"RNBQKBNR"` indexed by file. -/
def order : List Char := ['R', 'N', 'B', 'Q', 'K', 'B', 'N', 'R']

/-- The body of `ChessBoard::initializeBoard`: two loops over the files. -/
def initializeBoard (b : Grid) : Grid :=
  let b1 := coords.foldl
    (fun g x => (g.set 1 x ⟨'P', false⟩).set 6 x ⟨'P', true⟩) b
  coords.foldl
    (fun g x => (g.set 0 x ⟨order.getD x.toNat ' ', false⟩).set 7 x
      ⟨order.getD x.toNat ' ', true⟩) b1

/-- The constructor `ChessBoard::ChessBoard()`, with the default member
initialisers. -/
def ChessBoard.new : ChessBoard where
  hasWhiteKingMoved := false
  hasBlackKingMoved := false
  hasWhiteRookMoved := (false, false)
  hasBlackRookMoved := (false, false)
  board := initializeBoard Grid.blank
  didWEnPassant := false
  didBEnPassant := false
  lastMove := ""
  backupLastMove := ""
  backupBoard := Grid.blank

/-- The member `ChessBoard::resetBoard`.  The `resize` call leaves an 8x8 grid
as it is, so only `initializeBoard` touches the squares. -/
def resetBoard (s : ChessBoard) : ChessBoard :=
  { s with
    board := initializeBoard s.board
    hasWhiteKingMoved := false
    hasBlackKingMoved := false
    hasWhiteRookMoved := (false, false)
    hasBlackRookMoved := (false, false)
    didWEnPassant := false
    didBEnPassant := false
    lastMove := ""
    backupLastMove := "" }

def isValidTile (x y : Int) : Bool :=
  decide (x ≥ 0) && decide (x < SIZE) && decide (y ≥ 0) && decide (y < SIZE)

def isSameColor (piece1 piece2 : Piece) : Bool :=
  if piece2.isEmpty then false else piece1.isWhite == piece2.isWhite

/-- The function `toAlgebraic`: `string(1, char(97 + x)) + to_string(8 - y)`. -/
def toAlgebraic (x y : Int) : String :=
  String.singleton (Char.ofNat (97 + x).toNat) ++ toString (8 - y)

/-- The string `string(1, char(fromX + 97))`. -/
def fileLetter (fromX : Int) : String :=
  String.singleton (Char.ofNat (fromX + 97).toNat)

/-! ## Path test and disambiguation -/

/-- The loop of `isPathClear`, started at `(x, y)`, stepping by `(dx, dy)` until
`(toX, toY)` is reached.  The first argument bounds the number of iterations;
`none` means the bound was hit before the loop ended. -/
def isPathClearLoop (b : Grid) (toX toY dx dy : Int) : Nat → Int → Int → Option Bool
  | 0, _, _ => Option.none
  | fuel + 1, x, y =>
    if x ≠ toX ∨ y ≠ toY then
      if !(b y x).isEmpty then some false
      else isPathClearLoop b toX toY dx dy fuel (x + dx) (y + dy)
    else some true

/-- The member `isPathClear`.  Its callers pass two in-board squares on a
common rank, file or diagonal, for which the loop ends within `SIZE` tests. -/
def isPathClear (b : Grid) (fromX fromY toX toY : Int) : Bool :=
  let dx : Int := (if toX > fromX then 1 else 0) - (if toX < fromX then 1 else 0)
  let dy : Int := (if toY > fromY then 1 else 0) - (if toY < fromY then 1 else 0)
  (isPathClearLoop b toX toY dx dy 8 (fromX + dx) (fromY + dy)).getD false

/-- The loop variables of `detectAmbiguity`. -/
structure Ambiguity where
  requiresFile : Bool
  requiresRank : Bool
  ambiguityCount : Nat

/-- One iteration of the double loop of `detectAmbiguity`, at square `(x, y)`. -/
def detectAmbiguityStep (b : Grid) (fromX fromY toX toY : Int) (type : Char)
    (isWhite : Bool) (y x : Int) (a : Ambiguity) : Ambiguity :=
  if x = fromX ∧ y = fromY then a
  else if (b y x).isEmpty then a
  else
    let p := b y x
    if p.type = type ∧ p.isWhite = isWhite then
      let isValidMove : Bool :=
        if type = 'R' then
          (decide (x = toX) || decide (y = toY)) && isPathClear b x y toX toY
        else if type = 'B' then
          decide ((x - toX).natAbs = (y - toY).natAbs) && isPathClear b x y toX toY
        else if type = 'Q' then
          (decide (x = toX) || decide (y = toY)
            || decide ((x - toX).natAbs = (y - toY).natAbs))
            && isPathClear b x y toX toY
        else if type = 'N' then
          (decide ((x - toX).natAbs = 2) && decide ((y - toY).natAbs = 1))
            || (decide ((x - toX).natAbs = 1) && decide ((y - toY).natAbs = 2))
        else false
      if isValidMove then
        let a1 : Ambiguity := { a with ambiguityCount := a.ambiguityCount + 1 }
        let a2 : Ambiguity := if x = fromX then { a1 with requiresRank := true } else a1
        let a3 : Ambiguity := if y = fromY then { a2 with requiresFile := true } else a2
        if x ≠ fromX ∧ y ≠ fromY then
          { a3 with requiresFile := true, requiresRank := true }
        else a3
      else a
    else a

/-- The member `detectAmbiguity`; the result is `(requiresFile, requiresRank)`. -/
def detectAmbiguity (b : Grid) (fromX fromY toX toY : Int) (type : Char)
    (isWhite : Bool) : Bool × Bool :=
  let a := coords.foldl
    (fun acc y => coords.foldl
      (fun acc2 x => detectAmbiguityStep b fromX fromY toX toY type isWhite y x acc2) acc)
    (⟨false, false, 0⟩ : Ambiguity)
  let a1 : Ambiguity :=
    if a.ambiguityCount ≤ 0 then { a with requiresFile := false, requiresRank := false }
    else a
  let a2 : Ambiguity :=
    if a1.ambiguityCount = 1 ∧ a1.requiresRank = true ∧ a1.requiresFile = true then
      { a1 with requiresRank := false }
    else a1
  (a2.requiresFile, a2.requiresRank)

/-- The text built by the rook, knight, bishop and queen validators after they
accept: piece letter, disambiguation, capture mark, destination. -/
def pieceMoveText (b : Grid) (letter : Char) (fromX fromY toX toY : Int)
    (isWhite : Bool) : String :=
  let r := detectAmbiguity b fromX fromY toX toY letter isWhite
  let disambiguation : String :=
    if r.1 && r.2 then toAlgebraic toX toY
    else if r.1 then fileLetter fromX
    else if r.2 then toString (8 - fromY)
    else ""
  let capture : String := if (b toY toX).isEmpty then "" else "x"
  String.singleton letter ++ disambiguation ++ capture ++ toAlgebraic toX toY

/-! ## Validators of pawn, rook, knight, bishop and queen -/

def isValidPawnMove (s : ChessBoard) (fromX fromY toX toY : Int) (isWhite : Bool)
    (isDrawingMoves : Bool) : Bool × ChessBoard :=
  let direction : Int := if isWhite then -1 else 1
  let startRow : Int := if isWhite then 6 else 1
  -- Single square move
  if toX = fromX ∧ toY = fromY + direction ∧ (s.board toY toX).isEmpty = true then
    (true, if !isDrawingMoves then { s with lastMove := toAlgebraic toX toY } else s)
  -- Double square move from starting position
  else if toX = fromX ∧ toY = fromY + 2 * direction ∧ fromY = startRow ∧
      (s.board toY toX).isEmpty = true ∧ (s.board (fromY + direction) toX).isEmpty = true then
    (true, if !isDrawingMoves then { s with lastMove := toAlgebraic toX toY } else s)
  -- Capture
  else if (toX - fromX).natAbs = 1 ∧ toY = fromY + direction ∧
      (s.board toY toX).isEmpty = false ∧
      isSameColor (s.board fromY fromX) (s.board toY toX) = false then
    (true,
      if !isDrawingMoves then
        { s with lastMove := fileLetter fromX ++ "x" ++ toAlgebraic toX toY }
      else s)
  -- En passant
  else if (toX - fromX).natAbs = 1 ∧ toY = fromY + direction ∧
      (s.board toY toX).isEmpty = true then
    let expectedLastMove := toAlgebraic toX fromY
    if s.lastMove = expectedLastMove ∧ (s.board fromY toX).type = 'P' ∧
        (s.board fromY toX).isWhite ≠ isWhite ∧
        (if isWhite then expectedLastMove.get ⟨1⟩ = '5'
          else expectedLastMove.get ⟨1⟩ = '4') then
      (true,
        if !isDrawingMoves then
          { s with
            didWEnPassant := if isWhite then true else s.didWEnPassant
            didBEnPassant := if isWhite then s.didBEnPassant else true
            lastMove := fileLetter fromX ++ "x" ++ toAlgebraic toX toY
            board := s.board.set fromY toX Piece.none }
        else s)
    else (false, s)
  else (false, s)

def isValidRookMove (s : ChessBoard) (fromX fromY toX toY : Int) (isWhite : Bool) :
    Bool × ChessBoard :=
  if fromX ≠ toX ∧ fromY ≠ toY then (false, s)
  else if !isPathClear s.board fromX fromY toX toY then (false, s)
  else if isSameColor (s.board fromY fromX) (s.board toY toX) then (false, s)
  else (true, { s with lastMove := pieceMoveText s.board 'R' fromX fromY toX toY isWhite })

/-- The member `isValidKnightMove`.  The product `abs(fromX - toX) * abs(fromY - toY)`
is taken on exact integers here; the source takes it on 32-bit `int`s, which is
the same for in-board squares and differs where the product wraps
(`knightProductInt32`). -/
def isValidKnightMove (s : ChessBoard) (fromX fromY toX toY : Int) (isWhite : Bool) :
    Bool × ChessBoard :=
  if (fromX - toX).natAbs * (fromY - toY).natAbs ≠ 2 then (false, s)
  else if isSameColor (s.board fromY fromX) (s.board toY toX) then (false, s)
  else (true, { s with lastMove := pieceMoveText s.board 'N' fromX fromY toX toY isWhite })

def isValidBishopMove (s : ChessBoard) (fromX fromY toX toY : Int) (isWhite : Bool) :
    Bool × ChessBoard :=
  if (fromX - toX).natAbs ≠ (fromY - toY).natAbs then (false, s)
  else if !isPathClear s.board fromX fromY toX toY then (false, s)
  else if isSameColor (s.board fromY fromX) (s.board toY toX) then (false, s)
  else (true, { s with lastMove := pieceMoveText s.board 'B' fromX fromY toX toY isWhite })

def isValidQueenMove (s : ChessBoard) (fromX fromY toX toY : Int) (isWhite : Bool) :
    Bool × ChessBoard :=
  if fromX ≠ toX ∧ fromY ≠ toY ∧ (fromX - toX).natAbs ≠ (fromY - toY).natAbs then (false, s)
  else if !isPathClear s.board fromX fromY toX toY then (false, s)
  else if isSameColor (s.board fromY fromX) (s.board toY toX) then (false, s)
  else (true, { s with lastMove := pieceMoveText s.board 'Q' fromX fromY toX toY isWhite })

/-! ## King validator, legality check and check detection

The three functions below take the check test `chk` of the next nesting level
as an argument; `isKingInCheckFuel` ties the knot. -/

/-- The result of `isValidKingMove`: the returned `bool` and the three
reference parameters, which every caller initialises to `false`, `-1`, `-1`. -/
structure KingMove where
  valid : Bool
  isCastling : Bool
  rookFromX : Int
  rookToX : Int

/-- The loop `for (x = fromX + step; x != rookFromX; x += step)` of the castling
branch, started at `x`: `some false` when a square is occupied, `some true` when
`rookFromX` is reached, `none` when the iteration bound is hit first. -/
def castlingPathLoop (b : Grid) (fromY rookFromX step : Int) : Nat → Int → Option Bool
  | 0, _ => Option.none
  | fuel + 1, x =>
    if x ≠ rookFromX then
      if !(b fromY x).isEmpty then some false
      else castlingPathLoop b fromY rookFromX step fuel (x + step)
    else some true

/-- The block `// Normal king move` of `isValidKingMove`, entered when
`dx <= 1 && dy <= 1`. -/
def kingStep (chk : ChessBoard → Bool → Bool × ChessBoard) (s : ChessBoard)
    (fromX fromY toX toY : Int) (isWhite : Bool) : KingMove × ChessBoard :=
  if isSameColor (s.board fromY fromX) (s.board toY toX) = false then
    -- Simulate the move
    let capturedPiece := s.board toY toX
    let s1 : ChessBoard :=
      { s with board := (s.board.set toY toX (s.board fromY fromX)).set fromY fromX Piece.none }
    let r := chk s1 isWhite
    let inCheck := r.1
    -- Revert the move
    let s2 : ChessBoard :=
      { r.2 with
        board := (r.2.board.set fromY fromX (r.2.board toY toX)).set toY toX capturedPiece }
    if inCheck then (⟨false, false, -1, -1⟩, s2)
    else
      (⟨true, false, -1, -1⟩,
        { s2 with
          lastMove :=
            if !(s2.board toY toX).isEmpty then "Kx" ++ toAlgebraic toX toY
            else "K" ++ toAlgebraic toX toY })
  else (⟨false, false, -1, -1⟩, s)

/-- The block `// Castling logic` of `isValidKingMove`, entered when
`dy == 0 && dx == 2`. -/
def kingCastle (s : ChessBoard) (fromX fromY toX : Int) (isWhite : Bool) :
    KingMove × ChessBoard :=
  let isShortCastle : Bool := decide (toX > fromX)
  let rookFromX : Int := if isShortCastle then 7 else 0
  let rookToX : Int := if isShortCastle then 5 else 3
  if (isWhite && s.hasWhiteKingMoved) || (!isWhite && s.hasBlackKingMoved) then
    (⟨false, false, rookFromX, rookToX⟩, s)
  else if isWhite && isShortCastle && s.hasWhiteRookMoved.2 then
    (⟨false, false, rookFromX, rookToX⟩, s)
  else if isWhite && !isShortCastle && s.hasWhiteRookMoved.1 then
    (⟨false, false, rookFromX, rookToX⟩, s)
  else if !isWhite && isShortCastle && s.hasBlackRookMoved.2 then
    (⟨false, false, rookFromX, rookToX⟩, s)
  else if !isWhite && !isShortCastle && s.hasBlackRookMoved.1 then
    (⟨false, false, rookFromX, rookToX⟩, s)
  else
    let step : Int := if isShortCastle then 1 else -1
    if (castlingPathLoop s.board fromY rookFromX step 8 (fromX + step)).getD false = false then
      (⟨false, false, rookFromX, rookToX⟩, s)
    else
      let rook := s.board fromY rookFromX
      if rook.type = 'R' ∧ rook.isWhite = isWhite then
        (⟨true, true, rookFromX, rookToX⟩,
          { s with lastMove := if isShortCastle then "O-O" else "O-O-O" })
      else (⟨false, false, rookFromX, rookToX⟩, s)

def isValidKingMoveWith (chk : ChessBoard → Bool → Bool × ChessBoard) (s : ChessBoard)
    (fromX fromY toX toY : Int) (isWhite : Bool) : KingMove × ChessBoard :=
  let dx := (toX - fromX).natAbs
  let dy := (toY - fromY).natAbs
  if dx ≤ 1 ∧ dy ≤ 1 then kingStep chk s fromX fromY toX toY isWhite
  else if dy = 0 ∧ dx = 2 then kingCastle s fromX fromY toX isWhite
  else (⟨false, false, -1, -1⟩, s)

/-- The `switch (piece.type[0])` of `isValidMove`: `none` is the `default:`
label, which returns `false` at once. -/
def validatePiece (chk : ChessBoard → Bool → Bool × ChessBoard) (s : ChessBoard)
    (piece : Piece) (fromX fromY toX toY : Int) (isDrawingMoves : Bool) :
    Option (Bool × ChessBoard) :=
  if piece.type = 'P' then
    some (isValidPawnMove s fromX fromY toX toY piece.isWhite isDrawingMoves)
  else if piece.type = 'R' then some (isValidRookMove s fromX fromY toX toY piece.isWhite)
  else if piece.type = 'N' then some (isValidKnightMove s fromX fromY toX toY piece.isWhite)
  else if piece.type = 'B' then some (isValidBishopMove s fromX fromY toX toY piece.isWhite)
  else if piece.type = 'Q' then some (isValidQueenMove s fromX fromY toX toY piece.isWhite)
  else if piece.type = 'K' then
    let r := isValidKingMoveWith chk s fromX fromY toX toY piece.isWhite
    some (r.1.valid, r.2)
  else Option.none

/-- The nine-parameter `isValidMove` (without the two unused reference
parameters); `inSimulation` is not read by the source either. -/
def isValidMoveWith (chk : ChessBoard → Bool → Bool × ChessBoard) (s : ChessBoard)
    (fromX fromY toX toY : Int) (_inSimulation skipKingSafetyCheck isDrawingMoves : Bool) :
    Bool × ChessBoard :=
  let piece := s.board fromY fromX
  if piece.isEmpty then (false, s)
  else if !isValidTile fromX fromY || !isValidTile toX toY then (false, s)
  else
    let s0 : ChessBoard := { s with backupLastMove := s.lastMove, backupBoard := s.board }
    match validatePiece chk s0 piece fromX fromY toX toY isDrawingMoves with
    | Option.none => (false, s0)
    | some (valid, s1) =>
      if !valid then
        (false, { s1 with lastMove := s1.backupLastMove, backupBoard := s1.board })
      else
        -- Simulate the move
        let capturedPiece := s1.board toY toX
        let s2 : ChessBoard :=
          { s1 with board := (s1.board.set toY toX piece).set fromY fromX Piece.none }
        let r : Bool × ChessBoard :=
          if !skipKingSafetyCheck then chk s2 piece.isWhite else (false, s2)
        let kingInCheck := r.1
        -- Revert the move
        let s3 : ChessBoard :=
          { r.2 with board := (r.2.board.set fromY fromX piece).set toY toX capturedPiece }
        -- Restore lastMove after simulation
        (!kingInCheck, { s3 with lastMove := s3.backupLastMove, backupBoard := s3.board })

/-- The first double loop of `isKingInCheck`: `(kingX, kingY)`, or `(-1, -1)`.
The `break` leaves the loop over `x` only, so a king in a later row replaces one
found in an earlier row. -/
def findKing (b : Grid) (isWhite : Bool) : Int × Int :=
  coords.foldl
    (fun k y =>
      match coords.find?
          (fun x => !(b y x).isEmpty && ((b y x).type == 'K' && (b y x).isWhite == isWhite)) with
      | some x => (x, y)
      | Option.none => k)
    (-1, -1)

/-- The loop over `x` of the attacker scan of `isKingInCheck` in row `y`: the
flag says whether the `break` was taken. -/
def attackScanRow (chk : ChessBoard → Bool → Bool × ChessBoard) (kingX kingY : Int)
    (isWhite : Bool) (y : Int) : List Int → ChessBoard → Bool × ChessBoard
  | [], s => (false, s)
  | x :: xs, s =>
    if (s.board y x).isEmpty then attackScanRow chk kingX kingY isWhite y xs s
    else if !(s.board y x).isEmpty && (s.board y x).isWhite != isWhite then
      let r := isValidMoveWith chk s x y kingX kingY true true false
      if r.1 then (true, r.2) else attackScanRow chk kingX kingY isWhite y xs r.2
    else attackScanRow chk kingX kingY isWhite y xs s

/-- The body of `isKingInCheck`, with `chk` for the nested calls. -/
def isKingInCheckBody (chk : ChessBoard → Bool → Bool × ChessBoard) (s : ChessBoard)
    (isWhite : Bool) : Bool × ChessBoard :=
  let king := findKing s.board isWhite
  if king.1 = -1 ∨ king.2 = -1 then (true, s)
  else
    let backupLastMove := s.lastMove
    let s1 : ChessBoard := { s with backupBoard := s.board }
    let r := coords.foldl
      (fun (acc : Bool × ChessBoard) y =>
        let row := attackScanRow chk king.1 king.2 isWhite y coords acc.2
        (acc.1 || row.1, row.2))
      (false, s1)
    (r.1, { r.2 with lastMove := backupLastMove, board := r.2.backupBoard })

/-- The member `isKingInCheck` with a bound on the nesting of calls. -/
def isKingInCheckFuel : Nat → ChessBoard → Bool → Bool × ChessBoard
  | 0 => fun s _ => (true, s)
  | fuel + 1 => isKingInCheckBody (isKingInCheckFuel fuel)

def isKingInCheck (s : ChessBoard) (isWhite : Bool) : Bool × ChessBoard :=
  isKingInCheckFuel 65 s isWhite

def isValidKingMove (s : ChessBoard) (fromX fromY toX toY : Int) (isWhite : Bool) :
    KingMove × ChessBoard :=
  isValidKingMoveWith isKingInCheck s fromX fromY toX toY isWhite

/-- The nine-parameter overload of `isValidMove`. -/
def isValidMoveFull (s : ChessBoard) (fromX fromY toX toY : Int)
    (inSimulation skipKingSafetyCheck isDrawingMoves : Bool) : Bool × ChessBoard :=
  isValidMoveWith isKingInCheck s fromX fromY toX toY inSimulation skipKingSafetyCheck
    isDrawingMoves

/-- The four-parameter overload `isValidMove(fromX, fromY, toX, toY)`: the
defaults `inSimulation = skipKingSafetyCheck = isDrawingMoves = false`. -/
def isValidMove (s : ChessBoard) (fromX fromY toX toY : Int) : Bool × ChessBoard :=
  isValidMoveFull s fromX fromY toX toY false false false

/-! ## Checkmate search and move application -/

/-- The 64 squares `(y, x)` in the order of the nested loops
`for (y ...) for (x ...)`. -/
def squares : List (Int × Int) :=
  coords.flatMap (fun y => coords.map (fun x => (y, x)))

/-- The two inner loops of `isCheckmate` for the piece on `(x, y)`, over the
destinations `(toY, toX)`: the flag says whether a valid move was found (the
`return false` of the source). -/
def destinationScan (x y : Int) : List (Int × Int) → ChessBoard → Bool × ChessBoard
  | [], s => (false, s)
  | d :: ds, s =>
    let r := isValidMoveFull s x y d.2 d.1 true false false
    if r.1 then (true, r.2) else destinationScan x y ds r.2

/-- The two outer loops of `isCheckmate`, over the squares `(y, x)`. -/
def pieceScan (isWhite : Bool) : List (Int × Int) → ChessBoard → Bool × ChessBoard
  | [], s => (false, s)
  | q :: qs, s =>
    if (s.board q.1 q.2).isEmpty then pieceScan isWhite qs s
    else if !(s.board q.1 q.2).isEmpty && (s.board q.1 q.2).isWhite == isWhite then
      let r := destinationScan q.2 q.1 squares s
      if r.1 then (true, r.2) else pieceScan isWhite qs r.2
    else pieceScan isWhite qs s

def isCheckmate (s : ChessBoard) (isWhite : Bool) : Bool × ChessBoard :=
  let c := isKingInCheck s isWhite
  if !c.1 then (false, c.2)
  else
    let backupLastMove := c.2.lastMove
    let s1 : ChessBoard := { c.2 with backupBoard := c.2.board }
    let r := pieceScan isWhite squares s1
    -- both exits restore lastMove and the board
    (!r.1, { r.2 with lastMove := backupLastMove, board := r.2.backupBoard })

/-- The blocks `// En passant Handling` and `// Castling Handling` of `movePiece`:
the grid they leave. -/
def movePieceCaptures (s : ChessBoard) (fromY toX : Int) (isCastling : Bool)
    (rookFromX rookToX : Int) : Grid :=
  if s.didWEnPassant || s.didBEnPassant then
    let enPassantY : Int := if s.didWEnPassant then 4 else 3
    s.board.set enPassantY toX Piece.none
  else if isCastling then
    (s.board.set fromY rookToX (s.board fromY rookFromX)).set fromY rookFromX Piece.none
  else s.board

/-- The block `// Update castling flags` of `movePiece`. -/
def movePieceFlags (s : ChessBoard) (fromX fromY toX toY : Int) : ChessBoard :=
  if (s.board toY toX).type = 'K' then
    if (s.board toY toX).isWhite then { s with hasWhiteKingMoved := true }
    else { s with hasBlackKingMoved := true }
  else if (s.board toY toX).type = 'R' then
    if fromX = 0 then
      if fromY = 7 then { s with hasWhiteRookMoved := (true, s.hasWhiteRookMoved.2) }
      else { s with hasBlackRookMoved := (true, s.hasBlackRookMoved.2) }
    else if fromX = 7 then
      if fromY = 7 then { s with hasWhiteRookMoved := (s.hasWhiteRookMoved.1, true) }
      else { s with hasBlackRookMoved := (s.hasBlackRookMoved.1, true) }
    else s
  else s

/-- The block `// Promotion` of `movePiece`. -/
def movePiecePromotion (s : ChessBoard) (toX toY : Int) : ChessBoard :=
  if (s.board toY toX).type = 'P' ∧ (toY = 0 ∨ toY = SIZE - 1) then
    { s with
      board := s.board.set toY toX ⟨'Q', (s.board toY toX).isWhite⟩
      lastMove := s.lastMove ++ "=Q" }
  else s

/-- The first part of `movePiece`: en passant and castling handling, the move
itself, the castling flags and the promotion. -/
def movePieceSquares (s : ChessBoard) (fromX fromY toX toY : Int) (isCastling : Bool)
    (rookFromX rookToX : Int) : ChessBoard :=
  let b1 : Grid := movePieceCaptures s fromY toX isCastling rookFromX rookToX
  -- Move the piece
  let b2 : Grid := (b1.set toY toX (b1 fromY fromX)).set fromY fromX Piece.none
  let s1 : ChessBoard := { s with board := b2, didWEnPassant := false, didBEnPassant := false }
  movePiecePromotion (movePieceFlags s1 fromX fromY toX toY) toX toY

/-- The last part of `movePiece`: check and checkmate detection for the side
that did not move, with the suffix it appends to `lastMove`. -/
def movePieceSuffix (s : ChessBoard) (toX toY : Int) : ChessBoard :=
  let c := isKingInCheck s (!(s.board toY toX).isWhite)
  if c.1 then
    let m := isCheckmate c.2 (!(c.2.board toY toX).isWhite)
    if m.1 then { m.2 with lastMove := m.2.lastMove ++ "#" }
    else { m.2 with lastMove := m.2.lastMove ++ "+" }
  else c.2

def movePiece (s : ChessBoard) (fromX fromY toX toY : Int) (isCastling : Bool)
    (rookFromX rookToX : Int) : ChessBoard :=
  movePieceSuffix (movePieceSquares s fromX fromY toX toY isCastling rookFromX rookToX) toX toY

/-! ## The game object -/

/-- The class `Game` without its rendering members, together with the global
`isWhiteTurn`. -/
structure Game where
  chessBoard : ChessBoard
  isWhiteTurn : Bool
  selectedTileX : Int
  selectedTileY : Int
  isDragging : Bool
  moveHistory : List String
  moveCounter : Nat
  validMoves : List (Int × Int)

def Game.resetGame (g : Game) : Game :=
  { g with
    chessBoard := resetBoard ChessBoard.new
    selectedTileX := -1
    selectedTileY := -1
    validMoves := []
    isWhiteTurn := true
    isDragging := false
    moveHistory := []
    moveCounter := 1 }

/-- The constructor `Game::Game`: default member initialisers, the initial
value `true` of the global `isWhiteTurn`, then `resetGame()`. -/
def Game.new : Game :=
  Game.resetGame
    { chessBoard := ChessBoard.new
      isWhiteTurn := true
      selectedTileX := -1
      selectedTileY := -1
      isDragging := false
      moveHistory := []
      moveCounter := 1
      validMoves := [] }

/-- The member `isGameOver`: `lastMove.find("#") != string::npos`. -/
def Game.isGameOver (g : Game) : Bool :=
  g.chessBoard.lastMove.data.contains '#'

def Game.resetDraggingState (g : Game) : Game :=
  { g with isDragging := false }

/-- The statement `moveHistory.back() += t` (nothing is modelled for an empty
history, which the source never reaches: White moves first). -/
def appendToBack (h : List String) (t : String) : List String :=
  match h.getLast? with
  | some l => h.dropLast ++ [l ++ t]
  | Option.none => h

def Game.updateMoveHistory (g : Game) : Game :=
  let h1 := if g.moveHistory.length ≥ MAX_VISIBLE_MOVES then g.moveHistory.tail else g.moveHistory
  -- the castling branch and the regular branch of the source do the same
  if g.isWhiteTurn then
    { g with
      moveHistory := h1 ++ [toString g.moveCounter ++ ". " ++ g.chessBoard.lastMove]
      moveCounter := g.moveCounter + 1 }
  else
    { g with moveHistory := appendToBack h1 (" " ++ g.chessBoard.lastMove) }

def Game.finalizeMove (g : Game) : Game :=
  let g1 := g.updateMoveHistory
  Game.resetDraggingState { g1 with isWhiteTurn := !g1.isWhiteTurn }

/-- The valid-move scan of `onMousePress` for the piece on `(tileX, tileY)`,
over the destinations `(y, x)`. -/
def hintScan (tileX tileY : Int) :
    List (Int × Int) → ChessBoard × List (Int × Int) → ChessBoard × List (Int × Int)
  | [], acc => acc
  | d :: ds, acc =>
    let r := isValidMoveFull acc.1 tileX tileY d.2 d.1 false false true
    hintScan tileX tileY ds (r.2, if r.1 then acc.2 ++ [(d.2, d.1)] else acc.2)

/-- The member `onMousePress`, from the tile under the mouse
(`mousePosition / TILE_SIZE`); the texture of every piece is taken to be
loaded. -/
def Game.onMousePressTile (g : Game) (tileX tileY : Int) : Game :=
  if isValidTile tileX tileY then
    let piece := g.chessBoard.board tileY tileX
    let g1 : Game := { g with validMoves := [] }
    if !piece.isEmpty && piece.isWhite == g1.isWhiteTurn then
      let r := hintScan tileX tileY squares (g1.chessBoard, [])
      { g1 with
        selectedTileX := tileX
        selectedTileY := tileY
        isDragging := true
        chessBoard := r.1
        validMoves := r.2 }
    else g1
  else g

/-- The member `onMouseRelease`, from the tile under the mouse. -/
def Game.onMouseReleaseTile (g : Game) (tileX tileY : Int) : Game :=
  let g1 : Game := { g with validMoves := [] }
  if g1.isDragging then
    if !isValidTile tileX tileY then g1.resetDraggingState
    else
      let fromPiece := g1.chessBoard.board g1.selectedTileY g1.selectedTileX
      -- Handle king-specific castling logic
      let k : KingMove × ChessBoard :=
        if fromPiece.type = 'K' then
          isValidKingMove g1.chessBoard g1.selectedTileX g1.selectedTileY tileX tileY
            fromPiece.isWhite
        else (⟨false, false, -1, -1⟩, g1.chessBoard)
      if k.1.valid then
        Game.finalizeMove
          { g1 with
            chessBoard := movePiece k.2 g1.selectedTileX g1.selectedTileY tileX tileY
              k.1.isCastling k.1.rookFromX k.1.rookToX }
      else
        -- General move validation
        let v := isValidMove k.2 g1.selectedTileX g1.selectedTileY tileX tileY
        if v.1 then
          Game.finalizeMove
            { g1 with
              chessBoard := movePiece v.2 g1.selectedTileX g1.selectedTileY tileX tileY
                false (-1) (-1) }
        else Game.resetDraggingState { g1 with chessBoard := v.2 }
  else g1.resetDraggingState

/-- The member `onMousePress` from a mouse position in pixels. -/
def Game.onMousePress (g : Game) (mouseX mouseY : Int) : Game :=
  g.onMousePressTile (Int.tdiv mouseX TILE_SIZE) (Int.tdiv mouseY TILE_SIZE)

/-- The member `onMouseRelease` from a mouse position in pixels. -/
def Game.onMouseRelease (g : Game) (mouseX mouseY : Int) : Game :=
  g.onMouseReleaseTile (Int.tdiv mouseX TILE_SIZE) (Int.tdiv mouseY TILE_SIZE)

/-! ## Vocabulary of the statements -/

/-- The eight pieces of row `y`, files a to h. -/
def rowOf (b : Grid) (y : Int) : List Piece := coords.map (fun x => b y x)

/-- The number of pieces of one colour on the 64 squares. -/
def countPieces (b : Grid) (isWhite : Bool) : Nat :=
  (squares.filter (fun q => !(b q.1 q.2).isEmpty && (b q.1 q.2).isWhite == isWhite)).length

/-- The general commit path of `onMouseRelease`: `isValidMove`, and `movePiece`
when the move is accepted; `none` when it is rejected. -/
def commitMove (s : ChessBoard) (fromX fromY toX toY : Int) : Option ChessBoard :=
  let v := isValidMove s fromX fromY toX toY
  if v.1 then some (movePiece v.2 fromX fromY toX toY false (-1) (-1)) else Option.none

/-- The moves `(fromX, fromY, toX, toY)` committed one after the other; `none` as
soon as one of them is rejected. -/
def playMoves (s : ChessBoard) : List (Int × Int × Int × Int) → Option ChessBoard
  | [] => some s
  | m :: ms =>
    match commitMove s m.1 m.2.1 m.2.2.1 m.2.2.2 with
    | some s1 => playMoves s1 ms
    | Option.none => Option.none

/-- The board obtained by applying a move: the piece goes from `(fromX, fromY)`
to `(toX, toY)` and what it captures is removed; a pawn that moves diagonally
onto an empty square captures the pawn beside it (en passant). -/
def boardAfter (b : Grid) (fromX fromY toX toY : Int) : Grid :=
  let b1 : Grid :=
    if (b fromY fromX).type = 'P' ∧ toX ≠ fromX ∧ (b toY toX).isEmpty = true then
      b.set fromY toX Piece.none
    else b
  (b1.set toY toX (b fromY fromX)).set fromY fromX Piece.none

/-- A board with the listed pieces `(y, x, piece)` and nothing else. -/
def placePieces (ps : List (Int × Int × Piece)) : Grid :=
  ps.foldl (fun g p => g.set p.1 p.2.1 p.2.2) Grid.blank

/-- A `ChessBoard` object holding the listed pieces, with the given `lastMove`
and no castling or en passant flag set. -/
def position (ps : List (Int × Int × Piece)) (lastMove : String) : ChessBoard :=
  { ChessBoard.new with board := placePieces ps, lastMove := lastMove }

/-- White: Ke1, pawn e5.  Black: Ka8, Re8, pawn d5, which has just advanced two
squares (`lastMove = "d5"`).  The pawn e5 is pinned on the e-file. -/
def pinnedPawnPosition : ChessBoard :=
  position
    [(7, 4, ⟨'K', true⟩), (3, 4, ⟨'P', true⟩),
     (0, 0, ⟨'K', false⟩), (0, 4, ⟨'R', false⟩), (3, 3, ⟨'P', false⟩)]
    "d5"

/-- White: Ke1, Qd1.  Black: Ke3.  The square e2 is next to the black king and
guarded by the white queen. -/
def guardedSquarePosition : ChessBoard :=
  position [(7, 4, ⟨'K', true⟩), (7, 3, ⟨'Q', true⟩), (5, 4, ⟨'K', false⟩)] "Ke3"

/-- White: Ke1, Rh1, neither has moved.  Black: Ka8, Rg8 on the open g-file. -/
def castlingPosition : ChessBoard :=
  position
    [(7, 4, ⟨'K', true⟩), (7, 7, ⟨'R', true⟩), (0, 0, ⟨'K', false⟩), (0, 6, ⟨'R', false⟩)]
    "Rg8"

/-- White: Ka4, pawns a5, b4, a3, b3.  Black: Ke8, pawn c6 and pawn b5, which has
just advanced two squares with check (the position inside `movePiece`, before
the suffix is appended: `lastMove = "b5"`). -/
def onlyEnPassantPosition : ChessBoard :=
  position
    [(4, 0, ⟨'K', true⟩), (3, 0, ⟨'P', true⟩), (4, 1, ⟨'P', true⟩), (5, 0, ⟨'P', true⟩),
     (5, 1, ⟨'P', true⟩), (0, 4, ⟨'K', false⟩), (2, 2, ⟨'P', false⟩), (3, 1, ⟨'P', false⟩)]
    "b5"

/-- White: Ke4, Ra5, pawn e5.  Black: Kh8, pawn d7; Black is to move. -/
def doubleStepPosition : ChessBoard :=
  position
    [(4, 4, ⟨'K', true⟩), (3, 0, ⟨'R', true⟩), (3, 4, ⟨'P', true⟩),
     (0, 7, ⟨'K', false⟩), (1, 3, ⟨'P', false⟩)]
    "Ke4"

/-! ## Vocabulary of the frame properties -/

/-- The part of the object a query must leave alone: grid, `lastMove`, the four
castling flags and the two en passant flags of `t` are those of `s`. -/
structure Unchanged (s t : ChessBoard) : Prop where
  board : t.board = s.board
  lastMove : t.lastMove = s.lastMove
  whiteKing : t.hasWhiteKingMoved = s.hasWhiteKingMoved
  blackKing : t.hasBlackKingMoved = s.hasBlackKingMoved
  whiteRook : t.hasWhiteRookMoved = s.hasWhiteRookMoved
  blackRook : t.hasBlackRookMoved = s.hasBlackRookMoved
  whiteEnPassant : t.didWEnPassant = s.didWEnPassant
  blackEnPassant : t.didBEnPassant = s.didBEnPassant

/-- A check test that leaves the object alone, and leaves in `backupLastMove`
either what was there or the current `lastMove`. -/
def Keeps (chk : ChessBoard → Bool → Bool × ChessBoard) : Prop :=
  ∀ s c, Unchanged s (chk s c).2 ∧
    ((chk s c).2.backupLastMove = s.backupLastMove ∨ (chk s c).2.backupLastMove = s.lastMove)

/-- The object during the simulation of a move inside a validator: the piece on
`(fromX, fromY)` stands on `(toX, toY)`. -/
def simulated (s : ChessBoard) (fromX fromY toX toY : Int) : ChessBoard :=
  { s with board := (s.board.set toY toX (s.board fromY fromX)).set fromY fromX Piece.none }

/-- The invariant of the attacker scan, relative to the object `s` at its start. -/
def ScanInvariant (s t : ChessBoard) : Prop :=
  Unchanged s t
    ∧ (t.backupLastMove = s.backupLastMove ∨ t.backupLastMove = s.lastMove)
    ∧ t.backupBoard = s.board

/-- White: Ke1, pawn e2.  Black: Ke8, pawn d5.  White is to move. -/
def singleStepPosition : ChessBoard :=
  position
    [(7, 4, ⟨'K', true⟩), (6, 4, ⟨'P', true⟩), (0, 4, ⟨'K', false⟩), (3, 3, ⟨'P', false⟩)]
    ""

/-- White: Ke1, pawns e5 and d4.  Black: Ke8, pawn d7.  Black is to move. -/
def enPassantPosition : ChessBoard :=
  position
    [(7, 4, ⟨'K', true⟩), (3, 4, ⟨'P', true⟩), (4, 3, ⟨'P', true⟩),
     (0, 4, ⟨'K', false⟩), (1, 3, ⟨'P', false⟩)]
    "d4"

/-- The test `isValidMove` of `detectAmbiguity` for a piece of kind `type` on
`(x, y)`: whether it can reach `(toX, toY)` geometrically. -/
def canReach (b : Grid) (type : Char) (x y toX toY : Int) : Bool :=
  if type = 'R' then
    (decide (x = toX) || decide (y = toY)) && isPathClear b x y toX toY
  else if type = 'B' then
    decide ((x - toX).natAbs = (y - toY).natAbs) && isPathClear b x y toX toY
  else if type = 'Q' then
    (decide (x = toX) || decide (y = toY)
      || decide ((x - toX).natAbs = (y - toY).natAbs))
      && isPathClear b x y toX toY
  else if type = 'N' then
    (decide ((x - toX).natAbs = 2) && decide ((y - toY).natAbs = 1))
      || (decide ((x - toX).natAbs = 1) && decide ((y - toY).natAbs = 2))
  else false

/-- Whether the square `q = (y, x)` holds another piece of kind `type` and colour
`isWhite` (not the mover on `(fromX, fromY)`) that can reach `(toX, toY)`. -/
def conflicts (b : Grid) (fromX fromY toX toY : Int) (type : Char) (isWhite : Bool)
    (q : Int × Int) : Bool :=
  !decide (q.2 = fromX ∧ q.1 = fromY) && !(b q.1 q.2).isEmpty
    && decide ((b q.1 q.2).type = type ∧ (b q.1 q.2).isWhite = isWhite)
    && canReach b type q.2 q.1 toX toY

/-- White: Ke1, Ra1, Rh5.  Black: Ke8. -/
def twoRooksPosition : ChessBoard :=
  position
    [(7, 4, ⟨'K', true⟩), (7, 0, ⟨'R', true⟩), (3, 7, ⟨'R', true⟩), (0, 4, ⟨'K', false⟩)]
    "Ke8"

/-- A game from the initial position: 1. g4 b6 2. Bg2 Bb7 3. h4 Bxg2 4. a4 Bxh1
5. Ra3 a6 6. Rh3 h6 7. Rxh1 e6 8. Nf3 d6, as moves `(fromX, fromY, toX, toY)`.
The rook of h1 is captured on its square at move 4 and the rook of a1 reaches h1
at move 7. -/
def rookTourGame : List (Int × Int × Int × Int) :=
  [(6, 6, 6, 4), (1, 1, 1, 2), (5, 7, 6, 6), (2, 0, 1, 1), (7, 6, 7, 4), (1, 1, 6, 6),
   (0, 6, 0, 4), (6, 6, 7, 7), (0, 7, 0, 5), (0, 1, 0, 2), (0, 5, 7, 5), (7, 1, 7, 2),
   (7, 5, 7, 7), (4, 1, 4, 2), (6, 7, 5, 5), (3, 1, 3, 2)]

/-- What one call of `isValidMove` may do to the object: the castling flags stay,
and the grid stays or loses the pawn on `(toX, fromY)`, the square beside the
origin on the file of the destination. -/
structure Validated (s t : ChessBoard) (fromX fromY toX : Int) : Prop where
  whiteKing : t.hasWhiteKingMoved = s.hasWhiteKingMoved
  blackKing : t.hasBlackKingMoved = s.hasBlackKingMoved
  whiteRook : t.hasWhiteRookMoved = s.hasWhiteRookMoved
  blackRook : t.hasBlackRookMoved = s.hasBlackRookMoved
  board : t.board = s.board
    ∨ (t.board = s.board.set fromY toX Piece.none ∧ (s.board fromY toX).type = 'P'
      ∧ toX ≠ fromX)

/-- The invariant of the checkmate search, relative to the object `o` at its
start: the castling flags of `t` are those of `o`, and every square that does not
hold a pawn in `o` holds in `t.board` and in `t.backupBoard` what it holds in
`o`. -/
structure Settled (o t : ChessBoard) : Prop where
  whiteKing : t.hasWhiteKingMoved = o.hasWhiteKingMoved
  blackKing : t.hasBlackKingMoved = o.hasBlackKingMoved
  whiteRook : t.hasWhiteRookMoved = o.hasWhiteRookMoved
  blackRook : t.hasBlackRookMoved = o.hasBlackRookMoved
  board : ∀ y x, (o.board y x).type ≠ 'P' → t.board y x = o.board y x
  backupBoard : ∀ y x, (o.board y x).type ≠ 'P' → t.backupBoard y x = o.board y x

/-- White: Ke1, pawn a7.  Black: Ke8.  White is to move. -/
def promotionPosition : ChessBoard :=
  position [(7, 4, ⟨'K', true⟩), (1, 0, ⟨'P', true⟩), (0, 4, ⟨'K', false⟩)] "Ke8"

/-- One call of a member function that reads or changes the object: `t` is the
object that the call leaves when started on `s`. -/
inductive Call : ChessBoard → ChessBoard → Prop
  | isValidMove (s : ChessBoard) (fromX fromY toX toY : Int)
      (inSimulation skipKingSafetyCheck isDrawingMoves : Bool) :
      Call s (isValidMoveFull s fromX fromY toX toY inSimulation skipKingSafetyCheck
        isDrawingMoves).2
  | isValidKingMove (s : ChessBoard) (fromX fromY toX toY : Int) (isWhite : Bool) :
      Call s (isValidKingMove s fromX fromY toX toY isWhite).2
  | isKingInCheck (s : ChessBoard) (isWhite : Bool) : Call s (isKingInCheck s isWhite).2
  | isCheckmate (s : ChessBoard) (isWhite : Bool) : Call s (isCheckmate s isWhite).2
  | movePiece (s : ChessBoard) (fromX fromY toX toY : Int) (isCastling : Bool)
      (rookFromX rookToX : Int) :
      Call s (movePiece s fromX fromY toX toY isCastling rookFromX rookToX)

/-- Every castling flag that is set in `s` is set in `t`. -/
structure FlagsKept (s t : ChessBoard) : Prop where
  whiteKing : s.hasWhiteKingMoved = true → t.hasWhiteKingMoved = true
  blackKing : s.hasBlackKingMoved = true → t.hasBlackKingMoved = true
  whiteRook0 : s.hasWhiteRookMoved.1 = true → t.hasWhiteRookMoved.1 = true
  whiteRook1 : s.hasWhiteRookMoved.2 = true → t.hasWhiteRookMoved.2 = true
  blackRook0 : s.hasBlackRookMoved.1 = true → t.hasBlackRookMoved.1 = true
  blackRook1 : s.hasBlackRookMoved.2 = true → t.hasBlackRookMoved.2 = true

/-- A game from the initial position: 1. e4 a6 2. e5 d5 3. h3 h6.  Black's second
move is a two-square advance that puts the pawn beside the white pawn on e5. -/
def windowGame : List (Int × Int × Int × Int) :=
  [(4, 6, 4, 4), (0, 1, 0, 2), (4, 4, 4, 3), (3, 1, 3, 3), (7, 6, 7, 5), (7, 1, 7, 2)]

/-- Two objects with the same grid and the same castling flags. -/
structure SameView (s t : ChessBoard) : Prop where
  board : s.board = t.board
  whiteKing : s.hasWhiteKingMoved = t.hasWhiteKingMoved
  blackKing : s.hasBlackKingMoved = t.hasBlackKingMoved
  whiteRook : s.hasWhiteRookMoved = t.hasWhiteRookMoved
  blackRook : s.hasBlackRookMoved = t.hasBlackRookMoved

/-- A check test whose answer depends on the grid and the castling flags only. -/
def Congruent (chk : ChessBoard → Bool → Bool × ChessBoard) : Prop :=
  ∀ s t c, SameView s t → (chk s c).1 = (chk t c).1

/-- The answer of the piece validator that `isValidMove` selects for the piece on
`(fromX, fromY)`, in commit mode (`isDrawingMoves = false`); `false` for a square
that holds none of the six kinds. -/
def validatorAccepts (s : ChessBoard) (fromX fromY toX toY : Int) : Bool :=
  match validatePiece isKingInCheck s (s.board fromY fromX) fromX fromY toX toY false with
  | some r => r.1
  | Option.none => false

/-- White: Ke1, Ne2.  Black: Ka8, Re8.  The knight is pinned on the e-file. -/
def pinnedKnightPosition : ChessBoard :=
  position
    [(7, 4, ⟨'K', true⟩), (6, 4, ⟨'N', true⟩), (0, 0, ⟨'K', false⟩), (0, 4, ⟨'R', false⟩)]
    "Re8"

/-- The commit path of `onMouseRelease` for a king: `isValidKingMove`, and
`movePiece` with the castling data it reports when the move is accepted. -/
def commitKingMove (s : ChessBoard) (fromX fromY toX toY : Int) (isWhite : Bool) :
    Option ChessBoard :=
  let k := isValidKingMove s fromX fromY toX toY isWhite
  if k.1.valid then
    some (movePiece k.2 fromX fromY toX toY k.1.isCastling k.1.rookFromX k.1.rookToX)
  else Option.none

/-! ## The left mouse button and the frame loop -/

def SIDEBAR_WIDTH : Int := 150

def colLabelHeight : Int := TILE_SIZE / 4

def rowLabelWidth : Int := TILE_SIZE / 4

def WINDOW_HEIGHT : Int := SIZE * TILE_SIZE + colLabelHeight

inductive GameState where
  | MENU
  | PLAYING
  | EXIT
  deriving DecidableEq

/-- The game object together with the global `currentState` and the static
local `isMousePressed` of `handleLMB`. -/
structure Session where
  game : Game
  currentState : GameState
  isMousePressed : Bool

/-- The member `handleLMB`, from `Mouse::isButtonPressed(Mouse::Left)` and
`Mouse::getPosition(window)`.  `onMouseDrag` only moves the dragged sprite,
which is not part of `Game` here. -/
def handleLMB (a : Session) (leftPressed : Bool) (mouseX mouseY : Int) : Session :=
  let buttonWidth : Int := SIDEBAR_WIDTH - 10
  let buttonHeight : Int := 40
  let buttonX : Int := SIZE * TILE_SIZE + rowLabelWidth + 5
  let buttonY : Int := WINDOW_HEIGHT - buttonHeight - 10
  if leftPressed then
    if !a.isMousePressed then
      let a1 : Session := { a with isMousePressed := true }
      -- Check for the button press
      if mouseX > buttonX ∧ mouseX < buttonX + buttonWidth ∧
          mouseY > buttonY ∧ mouseY < buttonY + buttonHeight then
        { a1 with currentState := GameState.MENU }
      -- Regular game interaction (only if not game over)
      else if !a1.game.isGameOver then
        { a1 with game := a1.game.onMousePress mouseX mouseY }
      else a1
    else a
  else
    if a.isMousePressed then
      let a1 : Session := { a with isMousePressed := false }
      if !a1.game.isGameOver then
        { a1 with game := a1.game.onMouseRelease mouseX mouseY }
      else a1
    else a

/-- What the member `draw` does to the board object: for every square holding a
king it calls `isKingInCheck` for the colour of that king. -/
def Game.draw (g : Game) : Game :=
  { g with
    chessBoard := squares.foldl
      (fun cb q =>
        let piece := cb.board q.1 q.2
        if !piece.isEmpty && piece.type == 'K' then (isKingInCheck cb piece.isWhite).2
        else cb)
      g.chessBoard }

/-- What the main loop does while `currentState == PLAYING`: it handles an
event with `handleLMB`, or renders a frame with `draw`. -/
inductive Input where
  | mouse (leftPressed : Bool) (mouseX mouseY : Int)
  | frame

def Session.step (a : Session) : Input → Session
  | Input.mouse leftPressed mouseX mouseY => handleLMB a leftPressed mouseX mouseY
  | Input.frame => { a with game := a.game.draw }

def Session.run (a : Session) (inputs : List Input) : Session :=
  inputs.foldl Session.step a

/-- A session in which `lastMove` is the mating move of the game
1. f3 e5 2. g4 Qh4#. -/
def foolsMateSession : Session :=
  ⟨{ Game.new with chessBoard := { ChessBoard.new with lastMove := "Qh4#" } },
    GameState.PLAYING, false⟩
/-- The number of kings of one colour on the 64 squares. -/
def countKings (b : Grid) (isWhite : Bool) : Nat :=
  (squares.filter (fun q => !(b q.1 q.2).isEmpty
    && ((b q.1 q.2).type == 'K' && (b q.1 q.2).isWhite == isWhite))).length

/-- A drag of the mouse: press on the tile `(fromX, fromY)`, release on the tile
`(toX, toY)`. -/
def Game.drag (g : Game) (m : Int × Int × Int × Int) : Game :=
  (g.onMousePressTile m.1 m.2.1).onMouseReleaseTile m.2.2.1 m.2.2.2

/-- The game 1. Nh3 Nc6 2. e3 Nd4 3. Ba6 Ne2 4. O-O, as drags
`(fromX, fromY, toX, toY)`. -/
def kingCaptureGame : List (Int × Int × Int × Int) :=
  [(6, 7, 7, 5), (1, 0, 2, 2), (4, 6, 4, 5), (2, 2, 3, 4), (5, 7, 0, 2), (3, 4, 4, 6),
   (4, 7, 6, 7)]

/-- The game object after `kingCaptureGame`, played with the mouse from the
initial position, and a press on the black knight e2. -/
def kingCaptureEve : Game :=
  (kingCaptureGame.foldl Game.drag Game.new).onMousePressTile 4 6

/-- Every square of `t.board` and of `t.backupBoard` holds what it holds in
`o.board`, or nothing. -/
def Thinned (o t : ChessBoard) : Prop :=
  ∀ y x, (t.board y x = o.board y x ∨ t.board y x = Piece.none)
    ∧ (t.backupBoard y x = o.board y x ∨ t.backupBoard y x = Piece.none)

/-- White: Ke4, pawn e5.  Black: Kh8, pawn d7; Black is to move. -/
def pawnCheckPosition : ChessBoard :=
  position
    [(4, 4, ⟨'K', true⟩), (3, 4, ⟨'P', true⟩), (0, 7, ⟨'K', false⟩), (1, 3, ⟨'P', false⟩)]
    "Ke4"
/-- White: Ke1, Qd1.  Black: Kd8, pawn a7; the d-file between queen and king
is open and White is to move. -/
def openFilePosition : ChessBoard :=
  position
    [(7, 4, ⟨'K', true⟩), (7, 3, ⟨'Q', true⟩), (0, 3, ⟨'K', false⟩), (1, 0, ⟨'P', false⟩)]
    "Kd8"

/-- White: Ke1, Qd8.  Black: pawn a7 and no king. -/
def noKingPosition : ChessBoard :=
  position [(7, 4, ⟨'K', true⟩), (0, 3, ⟨'Q', true⟩), (1, 0, ⟨'P', false⟩)] "Qxd8"
/-- The expression `board[y][x]` on the 8 by 8 `vector<vector<Square>>`: it has
a value only for indices inside the grid. -/
def Grid.index (b : Grid) (y x : Int) : Option Piece :=
  if isValidTile x y then some (b y x) else Option.none

/-- The first statements of the nine-parameter `isValidMove`, up to the end of
the bounds test, with the grid access checked: `none` when the grid is indexed
outside its bounds, `some false` when the function returns `false` there,
`some true` when it goes on to the validators. -/
def isValidMoveEntry (s : ChessBoard) (fromX fromY toX toY : Int) : Option Bool :=
  -- Piece piece = board[fromY][fromX].piece;
  match s.board.index fromY fromX with
  | Option.none => Option.none
  | some piece =>
    if piece.isEmpty then some false
    else if !isValidTile fromX fromY || !isValidTile toX toY then some false
    else some true

/-- The drag in progress, if any, is the drag of a piece of the side to move. -/
def DragOwn (g : Game) : Prop :=
  g.isDragging = true →
    (g.chessBoard.board g.selectedTileY g.selectedTileX).isEmpty = false
      ∧ (g.chessBoard.board g.selectedTileY g.selectedTileX).isWhite = g.isWhiteTurn

/-- Whether `onMouseRelease` on the tile `(tileX, tileY)` commits a move, that
is, reaches `movePiece` and `finalizeMove`: a drag is in progress, the tile is
on the board, and `isValidKingMove` (tried first, for a king) or `isValidMove`
accepts. -/
def Game.releaseCommits (g : Game) (tileX tileY : Int) : Bool :=
  let fromPiece := g.chessBoard.board g.selectedTileY g.selectedTileX
  let k : KingMove × ChessBoard :=
    if fromPiece.type = 'K' then
      isValidKingMove g.chessBoard g.selectedTileX g.selectedTileY tileX tileY fromPiece.isWhite
    else (⟨false, false, -1, -1⟩, g.chessBoard)
  g.isDragging && isValidTile tileX tileY
    && (k.1.valid || (isValidMove k.2 g.selectedTileX g.selectedTileY tileX tileY).1)

/-- Whether a step of the session commits a move: only `handleLMB` seeing the
button released after a press, with the game not over, calls `onMouseRelease`. -/
def Session.commits (a : Session) : Input → Bool
  | Input.mouse leftPressed mouseX mouseY =>
    !leftPressed && a.isMousePressed && !a.game.isGameOver
      && a.game.releaseCommits (Int.tdiv mouseX TILE_SIZE) (Int.tdiv mouseY TILE_SIZE)
  | Input.frame => false

/-- What a step from `g` to `r` does to the turn.  A step that commits a move
flips the side to move once, advances the move counter after a move of White,
ends the drag, and in `g` a piece of the side to move was being dragged.  Any
other step leaves the side to move, the move history and the move counter
unchanged. -/
def TurnStep (g r : Game) (committed : Bool) : Prop :=
  (committed = true →
    r.isWhiteTurn = (!g.isWhiteTurn)
      ∧ r.moveCounter = (if g.isWhiteTurn then g.moveCounter + 1 else g.moveCounter)
      ∧ r.isDragging = false
      ∧ g.isDragging = true
      ∧ (g.chessBoard.board g.selectedTileY g.selectedTileX).isEmpty = false
      ∧ (g.chessBoard.board g.selectedTileY g.selectedTileX).isWhite = g.isWhiteTurn)
  ∧ (committed = false →
    r.isWhiteTurn = g.isWhiteTurn ∧ r.moveHistory = g.moveHistory
      ∧ r.moveCounter = g.moveCounter)

/-- The session as the constructor of `Game` and `main` leave it. -/
def newSession : Session := ⟨Game.new, GameState.PLAYING, false⟩

/-- The initial session after a press on e2 and a rendered frame. -/
def pressedSession : Session := newSession.run [Input.mouse true 288 416, Input.frame]

/-- The nesting of `isKingInCheck` calls cut off below `n` levels: the calls at
the deepest level are answered by `chk0`. -/
def isKingInCheckFrom (chk0 : ChessBoard → Bool → Bool × ChessBoard) :
    Nat → ChessBoard → Bool → Bool × ChessBoard
  | 0 => chk0
  | n + 1 => isKingInCheckBody (isKingInCheckFrom chk0 n)

/-- The number of occupied squares of the 8 by 8 grid. -/
def countOccupied (b : Grid) : Nat :=
  (squares.filter (fun q => !(b q.1 q.2).isEmpty)).length

/-- White: Ke4, pawn e5.  Black: Kh8, pawn d5, which has just advanced two
squares with check (`lastMove = "d5"`). -/
def pawnGivesCheckPosition : ChessBoard :=
  position
    [(4, 4, ⟨'K', true⟩), (3, 4, ⟨'P', true⟩), (0, 7, ⟨'K', false⟩), (3, 3, ⟨'P', false⟩)]
    "d5"

/-- White: Ke1, Rh1, pawn e5, king and rook unmoved.  Black: Ka8, Re8, pawn d5,
which has just advanced two squares (`lastMove = "d5"`).  The pawn e5 is pinned
on the e-file. -/
def pinnedPawnCastlePosition : ChessBoard :=
  position
    [(7, 4, ⟨'K', true⟩), (7, 7, ⟨'R', true⟩), (3, 4, ⟨'P', true⟩),
     (0, 0, ⟨'K', false⟩), (0, 4, ⟨'R', false⟩), (3, 3, ⟨'P', false⟩)]
    "d5"

/-- White: Ke1, Ra1, Ra5, Rh3.  Black: Ke8.  Three rooks can reach a3. -/
def threeRooksPosition : ChessBoard :=
  position
    [(7, 4, ⟨'K', true⟩), (7, 0, ⟨'R', true⟩), (3, 0, ⟨'R', true⟩), (5, 7, ⟨'R', true⟩),
     (0, 4, ⟨'K', false⟩)]
    "Ke8"

/-- No square of the 8 by 8 grid holds a king of colour `c`. -/
def NoKing (b : Grid) (c : Bool) : Prop :=
  ∀ q ∈ squares, ¬ ((b q.1 q.2).isEmpty = false ∧ (b q.1 q.2).type = 'K'
    ∧ (b q.1 q.2).isWhite = c)

/-- The `i`-th square `(x, y)` on the way from `(fromX, fromY)` towards
`(toX, toY)`, by steps of the signs of the two differences (the steps of
`isPathClear`). -/
def linePoint (fromX fromY toX toY : Int) (i : Nat) : Int × Int :=
  (fromX + i * Int.sign (toX - fromX), fromY + i * Int.sign (toY - fromY))

/-- The number of steps from a square to another one on the same rank, file or
diagonal. -/
def lineLength (fromX fromY toX toY : Int) : Nat :=
  max (toX - fromX).natAbs (toY - fromY).natAbs

/-- The piece `p` is a rook, bishop or queen, and `(kingX, kingY)` lies on a
line from `(attX, attY)` along which that kind of piece moves. -/
def LinePiece (p : Piece) (attX attY kingX kingY : Int) : Prop :=
  ((p.type = 'R' ∨ p.type = 'Q') ∧ (attX = kingX ∨ attY = kingY))
    ∨ ((p.type = 'B' ∨ p.type = 'Q') ∧ (kingX - attX).natAbs = (kingY - attY).natAbs)

/-- The piece on `(fromX, fromY)` is pinned to its king on `(kingX, kingY)`, the
only king of its colour, by a rook, bishop or queen of the other colour on
`(attX, attY)`: the piece stands strictly between the two on their line, and
it is the only piece there. -/
structure Pinned (b : Grid) (fromX fromY attX attY kingX kingY : Int) : Prop where
  attackerOnBoard : isValidTile attX attY = true
  kingOnBoard : isValidTile kingX kingY = true
  king : (b kingY kingX).type = 'K' ∧ (b kingY kingX).isWhite = (b fromY fromX).isWhite
  onlyKing : ∀ y x : Int, isValidTile x y = true → (b y x).type = 'K' →
    (b y x).isWhite = (b fromY fromX).isWhite → x = kingX ∧ y = kingY
  attacker : (b attY attX).isWhite ≠ (b fromY fromX).isWhite
  line : LinePiece (b attY attX) attX attY kingX kingY
  between : ∃ j : Nat, 0 < j ∧ j < lineLength attX attY kingX kingY
    ∧ linePoint attX attY kingX kingY j = (fromX, fromY)
    ∧ ∀ i : Nat, 0 < i → i < lineLength attX attY kingX kingY → i ≠ j →
      (b (linePoint attX attY kingX kingY i).2 (linePoint attX attY kingX kingY i).1).isEmpty
        = true

/-- Whether `isValidMove` rejects every move of every piece of one colour: the
64 origins and the 64 destinations are tried independently, each on the
object `s`. -/
def noAcceptedMove (s : ChessBoard) (isWhite : Bool) : Bool :=
  squares.all (fun q =>
    (s.board q.1 q.2).isEmpty || (s.board q.1 q.2).isWhite != isWhite
      || squares.all (fun d => !(isValidMove s q.2 q.1 d.2 d.1).1))

/-- Whether no pawn of one colour stands on the rank from which it captures en
passant (row 3 for White, row 4 for Black). -/
def noPawnOnPassingRank (b : Grid) (isWhite : Bool) : Bool :=
  coords.all (fun x =>
    (b (if isWhite then 3 else 4) x).type != 'P'
      || (b (if isWhite then 3 else 4) x).isWhite != isWhite)

/-- The object on the eve of the suffix of the fourth move of the fool's mate:
f2-f3, e7-e5 and g2-g4 are committed, `isValidMove` has accepted Qd8-h4, and
`movePiece` has moved the queen but has not yet tested for check. -/
def foolsMateEve : Option ChessBoard :=
  (playMoves ChessBoard.new [(5, 6, 5, 5), (4, 1, 4, 3), (6, 6, 6, 4)]).bind
    (fun s =>
      if (isValidMove s 3 0 7 4).1 then
        some (movePieceSquares (isValidMove s 3 0 7 4).2 3 0 7 4 false (-1) (-1))
      else Option.none)

/-! ## Theorems: initial position and a first game -/

set_option maxRecDepth 100000 in
/-- The board built by the constructor, and the board after `resetBoard` on a
fresh object, row by row. -/
theorem initial_rows :
    (rowOf ChessBoard.new.board 6 = List.replicate 8 ⟨'P', true⟩
      ∧ rowOf ChessBoard.new.board 1 = List.replicate 8 ⟨'P', false⟩
      ∧ rowOf ChessBoard.new.board 7 = order.map (fun t => ⟨t, true⟩)
      ∧ rowOf ChessBoard.new.board 0 = order.map (fun t => ⟨t, false⟩)
      ∧ [2, 3, 4, 5].map (rowOf ChessBoard.new.board)
          = List.replicate 4 (List.replicate 8 Piece.none)
      ∧ countPieces ChessBoard.new.board true = 16
      ∧ countPieces ChessBoard.new.board false = 16)
    ∧ (rowOf (resetBoard ChessBoard.new).board 6 = List.replicate 8 ⟨'P', true⟩
      ∧ rowOf (resetBoard ChessBoard.new).board 1 = List.replicate 8 ⟨'P', false⟩
      ∧ rowOf (resetBoard ChessBoard.new).board 7 = order.map (fun t => ⟨t, true⟩)
      ∧ rowOf (resetBoard ChessBoard.new).board 0 = order.map (fun t => ⟨t, false⟩)
      ∧ [2, 3, 4, 5].map (rowOf (resetBoard ChessBoard.new).board)
          = List.replicate 4 (List.replicate 8 Piece.none)
      ∧ countPieces (resetBoard ChessBoard.new).board true = 16
      ∧ countPieces (resetBoard ChessBoard.new).board false = 16) := by
  decide!

/-- C1: the constructor `ChessBoard()` and `Game::resetGame` (from any game
state `g`) both leave the standard initial position: eight white pawns on row 6,
eight black pawns on row 1, the pieces R, N, B, Q, K, B, N, R on rows 7 (white)
and 0 (black), rows 2 to 5 empty, 16 pieces per side; and White is to move. -/
theorem C1_initial_position (g : Game) :
    (rowOf ChessBoard.new.board 6 = List.replicate 8 ⟨'P', true⟩
      ∧ rowOf ChessBoard.new.board 1 = List.replicate 8 ⟨'P', false⟩
      ∧ rowOf ChessBoard.new.board 7 = order.map (fun t => ⟨t, true⟩)
      ∧ rowOf ChessBoard.new.board 0 = order.map (fun t => ⟨t, false⟩)
      ∧ [2, 3, 4, 5].map (rowOf ChessBoard.new.board)
          = List.replicate 4 (List.replicate 8 Piece.none)
      ∧ countPieces ChessBoard.new.board true = 16
      ∧ countPieces ChessBoard.new.board false = 16)
    ∧ (rowOf g.resetGame.chessBoard.board 6 = List.replicate 8 ⟨'P', true⟩
      ∧ rowOf g.resetGame.chessBoard.board 1 = List.replicate 8 ⟨'P', false⟩
      ∧ rowOf g.resetGame.chessBoard.board 7 = order.map (fun t => ⟨t, true⟩)
      ∧ rowOf g.resetGame.chessBoard.board 0 = order.map (fun t => ⟨t, false⟩)
      ∧ [2, 3, 4, 5].map (rowOf g.resetGame.chessBoard.board)
          = List.replicate 4 (List.replicate 8 Piece.none)
      ∧ countPieces g.resetGame.chessBoard.board true = 16
      ∧ countPieces g.resetGame.chessBoard.board false = 16)
    ∧ g.resetGame.isWhiteTurn = true ∧ Game.new.isWhiteTurn = true :=
  ⟨initial_rows.1, initial_rows.2, rfl, rfl⟩

/-! ## Theorems: the code at the inputs where it departs from the specification -/

set_option maxRecDepth 100000 in
/-- C3: in `pinnedPawnPosition` the en passant capture e5xd6 is rejected by
`isValidMove` (it would expose the white king to the rook on e8), yet the call
has removed the black pawn from d5: the grid after the call differs from the
grid before it. -/
theorem C3_rejected_en_passant_removes_pawn :
    (isValidMove pinnedPawnPosition 4 3 3 2).1 = false
      ∧ pinnedPawnPosition.board 3 3 = ⟨'P', false⟩
      ∧ (isValidMove pinnedPawnPosition 4 3 3 2).2.board 3 3 = Piece.none := by
  decide!

set_option maxRecDepth 100000 in
/-- C4: in `pinnedPawnPosition` the rejected call `isValidMove(4, 3, 3, 2)` changes
`lastMove` from `"d5"` to `"exd6"` and sets `didWEnPassant`. -/
theorem C4_rejected_move_changes_lastMove :
    (isValidMove pinnedPawnPosition 4 3 3 2).1 = false
      ∧ pinnedPawnPosition.lastMove = "d5"
      ∧ (isValidMove pinnedPawnPosition 4 3 3 2).2.lastMove = "exd6"
      ∧ pinnedPawnPosition.didWEnPassant = false
      ∧ (isValidMove pinnedPawnPosition 4 3 3 2).2.didWEnPassant = true := by
  decide!

set_option maxRecDepth 100000 in
/-- C6: in `guardedSquarePosition` the king move e1-e2 is accepted by
`isValidKingMove` although the black king on e3 is next to e2; after `movePiece`
the two kings stand on the adjacent squares e2 and e3. -/
theorem C6_king_steps_next_to_king :
    (isValidKingMove guardedSquarePosition 4 7 4 6 true).1.valid = true
      ∧ (movePiece (isValidKingMove guardedSquarePosition 4 7 4 6 true).2 4 7 4 6
          false (-1) (-1)).board 6 4 = ⟨'K', true⟩
      ∧ (movePiece (isValidKingMove guardedSquarePosition 4 7 4 6 true).2 4 7 4 6
          false (-1) (-1)).board 5 4 = ⟨'K', false⟩ := by
  decide!

set_option maxRecDepth 100000 in
/-- C7: in `castlingPosition`, with the white king picked up, releasing it on g1
commits the castling move (`lastMove = "O-O"`, king on g1, rook on f1, Black to
move) although the black rook on g8 attacks g1: `isKingInCheck(white)` is true on
the resulting board. -/
theorem C7_castling_into_check_committed :
    ((Game.onMouseReleaseTile
        { Game.new with
          chessBoard := castlingPosition, selectedTileX := 4, selectedTileY := 7,
          isDragging := true } 6 7).chessBoard.lastMove = "O-O"
      ∧ (Game.onMouseReleaseTile
        { Game.new with
          chessBoard := castlingPosition, selectedTileX := 4, selectedTileY := 7,
          isDragging := true } 6 7).chessBoard.board 7 6 = ⟨'K', true⟩
      ∧ (Game.onMouseReleaseTile
        { Game.new with
          chessBoard := castlingPosition, selectedTileX := 4, selectedTileY := 7,
          isDragging := true } 6 7).chessBoard.board 7 5 = ⟨'R', true⟩
      ∧ (Game.onMouseReleaseTile
        { Game.new with
          chessBoard := castlingPosition, selectedTileX := 4, selectedTileY := 7,
          isDragging := true } 6 7).isWhiteTurn = false)
      ∧ (isKingInCheck (Game.onMouseReleaseTile
        { Game.new with
          chessBoard := castlingPosition, selectedTileX := 4, selectedTileY := 7,
          isDragging := true } 6 7).chessBoard true).1 = true := by
  decide!

set_option maxRecDepth 100000 in
/-- C9: in `onlyEnPassantPosition` the white king is in check and the en passant
capture a5xb6 is accepted by `isValidMove`, yet `isCheckmate(white)` returns
true. -/
theorem C9_checkmate_with_a_legal_move :
    (isKingInCheck onlyEnPassantPosition true).1 = true
      ∧ (onlyEnPassantPosition.board 3 0 = ⟨'P', true⟩
        ∧ (isValidMove onlyEnPassantPosition 0 3 1 2).1 = true)
      ∧ (isCheckmate onlyEnPassantPosition true).1 = true := by
  decide!

set_option maxRecDepth 100000 in
/-- C10: in `doubleStepPosition` Black commits the two-square advance d7-d5, which
gives check (`lastMove = "d5+"`) beside the white pawn on e5; the immediate en
passant capture e5xd6 is then rejected by `isValidMove`, although on the board
obtained by applying it the white king is not in check. -/
theorem C10_en_passant_rejected_after_check :
    (commitMove doubleStepPosition 3 1 3 3).map
        (fun s => (s.lastMove, s.board 3 3, s.board 3 4, (isValidMove s 4 3 3 2).1,
          (isKingInCheck { s with board := boardAfter s.board 4 3 3 2 } true).1))
      = some ("d5+", ⟨'P', false⟩, ⟨'P', true⟩, false, false) := by
  decide!

/-! ## Theorems: what the check test leaves unchanged -/

theorem Grid.set_apply (b : Grid) (y x : Int) (p : Piece) (j i : Int) :
    (b.set y x p) j i = if j = y ∧ i = x then p else b j i := rfl

/-- Simulating a move and taking it back restores the grid. -/
theorem Grid.revert_simulate (b : Grid) (fromY fromX toY toX : Int) (p q : Piece) :
    ((((b.set toY toX p).set fromY fromX q).set fromY fromX (b fromY fromX)).set toY toX
      (b toY toX)) = b := by
  funext j i
  simp only [Grid.set_apply]
  split_ifs <;> simp_all

theorem Grid.revert_simulate_king (b : Grid) (fromY fromX toY toX : Int) (q : Piece)
    (h : ¬ (toY = fromY ∧ toX = fromX)) :
    ((((b.set toY toX (b fromY fromX)).set fromY fromX q).set fromY fromX
        (((b.set toY toX (b fromY fromX)).set fromY fromX q) toY toX)).set toY toX
      (b toY toX)) = b := by
  funext j i
  simp only [Grid.set_apply]
  split_ifs <;> simp_all

theorem isSameColor_false_ne (b : Grid) (fromY fromX toY toX : Int)
    (hd : (b toY toX).isEmpty = false)
    (h : isSameColor (b fromY fromX) (b toY toX) = false) :
    ¬ (toY = fromY ∧ toX = fromX) := by
  rintro ⟨rfl, rfl⟩
  simp [isSameColor, hd] at h

theorem isValidPawnMove_occupied (s : ChessBoard) (fromX fromY toX toY : Int)
    (isWhite isDrawingMoves : Bool) (hd : (s.board toY toX).isEmpty = false) :
    ∃ l, (isValidPawnMove s fromX fromY toX toY isWhite isDrawingMoves).2
      = { s with lastMove := l } := by
  unfold isValidPawnMove
  simp only [hd]
  split_ifs <;> first
    | exact ⟨s.lastMove, rfl⟩
    | (cases isDrawingMoves <;> first | exact ⟨_, rfl⟩ | exact ⟨s.lastMove, rfl⟩)
    | simp_all

theorem isValidRookMove_state (s : ChessBoard) (fromX fromY toX toY : Int) (isWhite : Bool) :
    ∃ l, (isValidRookMove s fromX fromY toX toY isWhite).2 = { s with lastMove := l } := by
  unfold isValidRookMove
  split_ifs <;> first | exact ⟨s.lastMove, rfl⟩ | exact ⟨_, rfl⟩

theorem isValidKnightMove_state (s : ChessBoard) (fromX fromY toX toY : Int) (isWhite : Bool) :
    ∃ l, (isValidKnightMove s fromX fromY toX toY isWhite).2 = { s with lastMove := l } := by
  unfold isValidKnightMove
  split_ifs <;> first | exact ⟨s.lastMove, rfl⟩ | exact ⟨_, rfl⟩

theorem isValidBishopMove_state (s : ChessBoard) (fromX fromY toX toY : Int) (isWhite : Bool) :
    ∃ l, (isValidBishopMove s fromX fromY toX toY isWhite).2 = { s with lastMove := l } := by
  unfold isValidBishopMove
  split_ifs <;> first | exact ⟨s.lastMove, rfl⟩ | exact ⟨_, rfl⟩

theorem isValidQueenMove_state (s : ChessBoard) (fromX fromY toX toY : Int) (isWhite : Bool) :
    ∃ l, (isValidQueenMove s fromX fromY toX toY isWhite).2 = { s with lastMove := l } := by
  unfold isValidQueenMove
  split_ifs <;> first | exact ⟨s.lastMove, rfl⟩ | exact ⟨_, rfl⟩

theorem Unchanged.refl (s : ChessBoard) : Unchanged s s :=
  ⟨rfl, rfl, rfl, rfl, rfl, rfl, rfl, rfl⟩

theorem kingCastle_state (s : ChessBoard) (fromX fromY toX : Int) (isWhite : Bool) :
    ∃ l, (kingCastle s fromX fromY toX isWhite).2 = { s with lastMove := l } := by
  unfold kingCastle
  dsimp only
  repeat' split
  all_goals first
    | exact ⟨s.lastMove, rfl⟩
    | exact ⟨_, rfl⟩

theorem kingStep_state (chk : ChessBoard → Bool → Bool × ChessBoard)
    (s : ChessBoard) (fromX fromY toX toY : Int) (isWhite : Bool) :
    (kingStep chk s fromX fromY toX toY isWhite).2 = s
      ∨ (isSameColor (s.board fromY fromX) (s.board toY toX) = false ∧
        ∃ l, (kingStep chk s fromX fromY toX toY isWhite).2
          = { (chk (simulated s fromX fromY toX toY) isWhite).2 with
              board := (((chk (simulated s fromX fromY toX toY) isWhite).2.board.set fromY fromX
                ((chk (simulated s fromX fromY toX toY) isWhite).2.board toY toX)).set toY toX
                  (s.board toY toX)),
              lastMove := l }) := by
  unfold kingStep simulated
  dsimp only
  by_cases h2 : isSameColor (s.board fromY fromX) (s.board toY toX) = false
  · rw [if_pos h2]
    refine Or.inr ⟨h2, ?_⟩
    split
    · exact ⟨_, rfl⟩
    · exact ⟨_, rfl⟩
  · rw [if_neg h2]
    exact Or.inl rfl

/-- The state left by the king validator: the state it was given with a new
`lastMove`, or (ordinary king move onto a square not of its colour) what the
check test left, with the move taken back and possibly a new `lastMove`. -/
theorem isValidKingMoveWith_state (chk : ChessBoard → Bool → Bool × ChessBoard)
    (s : ChessBoard) (fromX fromY toX toY : Int) (isWhite : Bool) :
    (∃ l, (isValidKingMoveWith chk s fromX fromY toX toY isWhite).2 = { s with lastMove := l })
      ∨ (isSameColor (s.board fromY fromX) (s.board toY toX) = false ∧
        ∃ l, (isValidKingMoveWith chk s fromX fromY toX toY isWhite).2
          = { (chk (simulated s fromX fromY toX toY) isWhite).2 with
              board := (((chk (simulated s fromX fromY toX toY) isWhite).2.board.set fromY fromX
                ((chk (simulated s fromX fromY toX toY) isWhite).2.board toY toX)).set toY toX
                  (s.board toY toX)),
              lastMove := l }) := by
  unfold isValidKingMoveWith
  dsimp only
  split
  · rcases kingStep_state chk s fromX fromY toX toY isWhite with h | h
    · exact Or.inl ⟨s.lastMove, h⟩
    · exact Or.inr h
  · split
    · exact Or.inl (kingCastle_state s fromX fromY toX isWhite)
    · exact Or.inl ⟨s.lastMove, rfl⟩

theorem isValidKingMoveWith_attack (chk : ChessBoard → Bool → Bool × ChessBoard)
    (hk : Keeps chk) (s : ChessBoard) (fromX fromY toX toY : Int) (isWhite : Bool)
    (hd : (s.board toY toX).isEmpty = false) (hb : s.backupLastMove = s.lastMove)
    (t : ChessBoard) (ht : t = (isValidKingMoveWith chk s fromX fromY toX toY isWhite).2) :
    Unchanged s { t with lastMove := s.lastMove } ∧ t.backupLastMove = s.lastMove := by
  rcases isValidKingMoveWith_state chk s fromX fromY toX toY isWhite with ⟨l, hl⟩ | ⟨h2, l, hl⟩
  · rw [hl] at ht
    subst ht
    exact ⟨⟨rfl, rfl, rfl, rfl, rfl, rfl, rfl, rfl⟩, hb⟩
  · rw [hl] at ht
    subst ht
    have hne := isSameColor_false_ne s.board fromY fromX toY toX hd h2
    obtain ⟨hu, hbk⟩ := hk (simulated s fromX fromY toX toY) isWhite
    have hbl : (chk (simulated s fromX fromY toX toY) isWhite).2.backupLastMove
        = s.lastMove := by
      rcases hbk with h | h
      · rw [h]; exact hb
      · rw [h]; rfl
    refine ⟨⟨?_, rfl, hu.whiteKing, hu.blackKing, hu.whiteRook, hu.blackRook,
      hu.whiteEnPassant, hu.blackEnPassant⟩, hbl⟩
    show ((_ : Grid).set fromY fromX _).set toY toX _ = s.board
    rw [hu.board]
    exact Grid.revert_simulate_king s.board fromY fromX toY toX Piece.none hne

theorem validatePiece_attack (chk : ChessBoard → Bool → Bool × ChessBoard)
    (hk : Keeps chk) (s : ChessBoard) (piece : Piece) (fromX fromY toX toY : Int)
    (isDrawingMoves : Bool)
    (hd : (s.board toY toX).isEmpty = false) (hb : s.backupLastMove = s.lastMove)
    (v : Bool) (t : ChessBoard)
    (h : validatePiece chk s piece fromX fromY toX toY isDrawingMoves = some (v, t)) :
    Unchanged s { t with lastMove := s.lastMove } ∧ t.backupLastMove = s.lastMove := by
  unfold validatePiece at h
  split at h
  · obtain ⟨l, hl⟩ := isValidPawnMove_occupied s fromX fromY toX toY piece.isWhite
      isDrawingMoves hd
    simp only [Option.some.injEq] at h
    have ht : t = _ := (congrArg Prod.snd h).symm.trans hl
    subst ht
    exact ⟨⟨rfl, rfl, rfl, rfl, rfl, rfl, rfl, rfl⟩, hb⟩
  split at h
  · obtain ⟨l, hl⟩ := isValidRookMove_state s fromX fromY toX toY piece.isWhite
    simp only [Option.some.injEq] at h
    have ht : t = _ := (congrArg Prod.snd h).symm.trans hl
    subst ht
    exact ⟨⟨rfl, rfl, rfl, rfl, rfl, rfl, rfl, rfl⟩, hb⟩
  split at h
  · obtain ⟨l, hl⟩ := isValidKnightMove_state s fromX fromY toX toY piece.isWhite
    simp only [Option.some.injEq] at h
    have ht : t = _ := (congrArg Prod.snd h).symm.trans hl
    subst ht
    exact ⟨⟨rfl, rfl, rfl, rfl, rfl, rfl, rfl, rfl⟩, hb⟩
  split at h
  · obtain ⟨l, hl⟩ := isValidBishopMove_state s fromX fromY toX toY piece.isWhite
    simp only [Option.some.injEq] at h
    have ht : t = _ := (congrArg Prod.snd h).symm.trans hl
    subst ht
    exact ⟨⟨rfl, rfl, rfl, rfl, rfl, rfl, rfl, rfl⟩, hb⟩
  split at h
  · obtain ⟨l, hl⟩ := isValidQueenMove_state s fromX fromY toX toY piece.isWhite
    simp only [Option.some.injEq] at h
    have ht : t = _ := (congrArg Prod.snd h).symm.trans hl
    subst ht
    exact ⟨⟨rfl, rfl, rfl, rfl, rfl, rfl, rfl, rfl⟩, hb⟩
  split at h
  · simp only [Option.some.injEq] at h
    have ht : t = _ := (congrArg Prod.snd h).symm
    exact isValidKingMoveWith_attack chk hk s fromX fromY toX toY piece.isWhite hd hb t ht
  · exact absurd h (by simp)

/-- A call of `isValidMove` from the attacker scan (occupied destination, king
safety skipped) leaves the object alone. -/
theorem isValidMoveWith_attack (chk : ChessBoard → Bool → Bool × ChessBoard)
    (hk : Keeps chk) (s : ChessBoard) (fromX fromY toX toY : Int)
    (inSimulation isDrawingMoves : Bool) (hd : (s.board toY toX).isEmpty = false) :
    Unchanged s
        (isValidMoveWith chk s fromX fromY toX toY inSimulation true isDrawingMoves).2
      ∧ ((isValidMoveWith chk s fromX fromY toX toY inSimulation true
            isDrawingMoves).2.backupLastMove = s.backupLastMove
          ∨ (isValidMoveWith chk s fromX fromY toX toY inSimulation true
            isDrawingMoves).2.backupLastMove = s.lastMove)
      ∧ ((isValidMoveWith chk s fromX fromY toX toY inSimulation true
            isDrawingMoves).2.backupBoard = s.backupBoard
          ∨ (isValidMoveWith chk s fromX fromY toX toY inSimulation true
            isDrawingMoves).2.backupBoard = s.board) := by
  unfold isValidMoveWith
  dsimp only
  split
  · exact ⟨Unchanged.refl s, Or.inl rfl, Or.inl rfl⟩
  split
  · exact ⟨Unchanged.refl s, Or.inl rfl, Or.inl rfl⟩
  split
  · exact ⟨⟨rfl, rfl, rfl, rfl, rfl, rfl, rfl, rfl⟩, Or.inr rfl, Or.inr rfl⟩
  · rename_i valid t hv
    obtain ⟨hu, hbl⟩ := validatePiece_attack chk hk
      { s with backupLastMove := s.lastMove, backupBoard := s.board } (s.board fromY fromX)
      fromX fromY toX toY isDrawingMoves hd rfl valid t hv
    have hboard : t.board = s.board := hu.board
    split
    · exact ⟨⟨hboard, hbl, hu.whiteKing, hu.blackKing, hu.whiteRook, hu.blackRook,
        hu.whiteEnPassant, hu.blackEnPassant⟩, Or.inr hbl, Or.inr hboard⟩
    · have hrev : (((t.board.set toY toX (s.board fromY fromX)).set fromY fromX
          Piece.none).set fromY fromX (s.board fromY fromX)).set toY toX (t.board toY toX)
          = s.board := by
        rw [hboard]
        exact Grid.revert_simulate s.board fromY fromX toY toX _ _
      exact ⟨⟨hrev, hbl, hu.whiteKing, hu.blackKing, hu.whiteRook, hu.blackRook,
        hu.whiteEnPassant, hu.blackEnPassant⟩, Or.inr hbl, Or.inr hrev⟩

theorem foldl_invariant {α β : Type} (P : α → Prop) (f : α → β → α)
    (h : ∀ a x, P a → P (f a x)) : ∀ (l : List β) (a : α), P a → P (l.foldl f a)
  | [], _, ha => ha
  | x :: xs, a, ha => foldl_invariant P f h xs (f a x) (h a x ha)

/-- When `findKing` reports a square, that square is occupied. -/
theorem findKing_occupied (b : Grid) (isWhite : Bool)
    (h : ¬ ((findKing b isWhite).1 = -1 ∨ (findKing b isWhite).2 = -1)) :
    (b (findKing b isWhite).2 (findKing b isWhite).1).isEmpty = false := by
  have key : (findKing b isWhite) = (-1, -1)
      ∨ (b (findKing b isWhite).2 (findKing b isWhite).1).isEmpty = false := by
    unfold findKing
    refine foldl_invariant (fun k => k = (-1, -1) ∨ (b k.2 k.1).isEmpty = false) _ ?_ coords
      (-1, -1) (Or.inl rfl)
    intro k y hk
    dsimp only
    split
    · rename_i x hx
      have := List.find?_some hx
      right
      simp only [Bool.and_eq_true, Bool.not_eq_true'] at this
      exact this.1
    · exact hk
  rcases key with hk | hk
  · exact absurd (Or.inl (by rw [hk])) h
  · exact hk

theorem ScanInvariant.step (chk : ChessBoard → Bool → Bool × ChessBoard) (hk : Keeps chk)
    (s t : ChessBoard) (x y kingX kingY : Int)
    (hd : (s.board kingY kingX).isEmpty = false) (ht : ScanInvariant s t) :
    ScanInvariant s (isValidMoveWith chk t x y kingX kingY true true false).2 := by
  obtain ⟨hu, hbl, hbb⟩ := ht
  have hd2 : (t.board kingY kingX).isEmpty = false := by rw [hu.board]; exact hd
  obtain ⟨hu2, hbl2, hbb2⟩ := isValidMoveWith_attack chk hk t x y kingX kingY true false hd2
  refine ⟨⟨hu2.board.trans hu.board, hu2.lastMove.trans hu.lastMove,
    hu2.whiteKing.trans hu.whiteKing, hu2.blackKing.trans hu.blackKing,
    hu2.whiteRook.trans hu.whiteRook, hu2.blackRook.trans hu.blackRook,
    hu2.whiteEnPassant.trans hu.whiteEnPassant, hu2.blackEnPassant.trans hu.blackEnPassant⟩,
    ?_, ?_⟩
  · rcases hbl2 with h | h
    · rw [h]; exact hbl
    · rw [h]; exact Or.inr hu.lastMove
  · rcases hbb2 with h | h
    · rw [h]; exact hbb
    · rw [h]; exact hu.board

theorem attackScanRow_invariant (chk : ChessBoard → Bool → Bool × ChessBoard) (hk : Keeps chk)
    (s : ChessBoard) (kingX kingY : Int) (isWhite : Bool) (y : Int)
    (hd : (s.board kingY kingX).isEmpty = false) :
    ∀ (xs : List Int) (t : ChessBoard), ScanInvariant s t →
      ScanInvariant s (attackScanRow chk kingX kingY isWhite y xs t).2
  | [], _, ht => ht
  | x :: xs, t, ht => by
    unfold attackScanRow
    split
    · exact attackScanRow_invariant chk hk s kingX kingY isWhite y hd xs t ht
    split
    · dsimp only
      split
      · exact ScanInvariant.step chk hk s t x y kingX kingY hd ht
      · exact attackScanRow_invariant chk hk s kingX kingY isWhite y hd xs _
          (ScanInvariant.step chk hk s t x y kingX kingY hd ht)
    · exact attackScanRow_invariant chk hk s kingX kingY isWhite y hd xs t ht

theorem isKingInCheckBody_keeps (chk : ChessBoard → Bool → Bool × ChessBoard)
    (hk : Keeps chk) : Keeps (isKingInCheckBody chk) := by
  intro s c
  unfold isKingInCheckBody
  dsimp only
  split
  · exact ⟨Unchanged.refl s, Or.inl rfl⟩
  · rename_i hking
    have hd := findKing_occupied s.board c hking
    generalize hr : List.foldl _ _ _ = r
    have hinv : ScanInvariant { s with backupBoard := s.board } r.2 := by
      rw [← hr]
      refine foldl_invariant
        (fun (acc : Bool × ChessBoard) => ScanInvariant { s with backupBoard := s.board } acc.2)
        _ ?_ coords _ ⟨Unchanged.refl _, Or.inl rfl, rfl⟩
      intro acc y hacc
      exact attackScanRow_invariant chk hk { s with backupBoard := s.board } _ _ c y hd
        coords acc.2 hacc
    obtain ⟨hu, hbl, hbb⟩ := hinv
    exact ⟨⟨hbb, rfl, hu.whiteKing, hu.blackKing, hu.whiteRook, hu.blackRook,
      hu.whiteEnPassant, hu.blackEnPassant⟩, hbl⟩

theorem isKingInCheckFuel_keeps : ∀ fuel : Nat, Keeps (isKingInCheckFuel fuel)
  | 0 => fun s _ => ⟨Unchanged.refl s, Or.inl rfl⟩
  | fuel + 1 => isKingInCheckBody_keeps _ (isKingInCheckFuel_keeps fuel)

/-- C8: `isKingInCheck(c)` leaves the grid, `lastMove`, the four castling flags
and the two en passant flags as they were before the call, for every object and
both colours. -/
theorem C8_isKingInCheck_frame (s : ChessBoard) (c : Bool) :
    (isKingInCheck s c).2.board = s.board
      ∧ (isKingInCheck s c).2.lastMove = s.lastMove
      ∧ (isKingInCheck s c).2.hasWhiteKingMoved = s.hasWhiteKingMoved
      ∧ (isKingInCheck s c).2.hasBlackKingMoved = s.hasBlackKingMoved
      ∧ (isKingInCheck s c).2.hasWhiteRookMoved = s.hasWhiteRookMoved
      ∧ (isKingInCheck s c).2.hasBlackRookMoved = s.hasBlackRookMoved
      ∧ (isKingInCheck s c).2.didWEnPassant = s.didWEnPassant
      ∧ (isKingInCheck s c).2.didBEnPassant = s.didBEnPassant :=
  have h : Unchanged s (isKingInCheckFuel 65 s c).2 := (isKingInCheckFuel_keeps 65 s c).1
  ⟨h.board, h.lastMove, h.whiteKing, h.blackKing, h.whiteRook, h.blackRook,
    h.whiteEnPassant, h.blackEnPassant⟩

/-! ## Theorems: en passant and the hint scan at the inputs where the code departs -/

set_option maxRecDepth 100000 in
/-- C12: from `singleStepPosition` the white pawn goes e2-e3 and, after Black's
d5-d4, e3-e4: two one-square advances, the second of which leaves
`lastMove = "e4"` with the white pawn on e4 beside the black pawn on d4.
`isValidPawnMove` then accepts the black move d4xe3 as an en passant capture, and
the commit path removes the white pawn from e4. -/
theorem C12_en_passant_after_single_steps :
    (playMoves singleStepPosition [(4, 6, 4, 5), (3, 3, 3, 4), (4, 5, 4, 4)]).bind
        (fun s => (commitMove s 3 4 4 5).map
          (fun t => ((s.lastMove, s.board 4 4, s.board 4 3, s.board 5 4),
            (isValidPawnMove s 3 4 4 5 false false).1,
            (t.lastMove, t.board 4 4, t.board 5 4))))
      = some (("e4", ⟨'P', true⟩, ⟨'P', false⟩, Piece.none), true,
          ("dxe3", Piece.none, ⟨'P', false⟩)) := by
  decide!

set_option maxRecDepth 100000 in
/-- C13: from `enPassantPosition` Black plays d7-d5 and White captures en
passant, e5xd6; the capture is accepted and committed.  Apart from e5, d6 and d5
the square d4 has changed as well: the white pawn that stood there is gone. -/
theorem C13_en_passant_clears_fourth_square :
    (playMoves enPassantPosition [(3, 1, 3, 3)]).bind
        (fun s => (commitMove s 4 3 3 2).map
          (fun t => ((s.board 3 4, s.board 3 3, s.board 2 3, s.board 4 3),
            (t.board 3 4, t.board 3 3, t.board 2 3, t.board 4 3))))
      = some ((⟨'P', true⟩, ⟨'P', false⟩, Piece.none, ⟨'P', true⟩),
          (Piece.none, Piece.none, ⟨'P', true⟩, Piece.none)) := by
  decide!

set_option maxRecDepth 100000 in
/-- C20: in the initial position, pressing the mouse on the knight g1 runs the
hint scan (`isValidMove` with `isDrawingMoves = true` for the 64 destinations);
it finds f3 and h3 and leaves `lastMove = "Nh3"` where it was `""`.  The single
query for g1-f3 leaves `lastMove = "Nf3"`. -/
theorem C20_hint_query_changes_lastMove :
    Game.new.chessBoard.lastMove = ""
      ∧ (Game.new.onMousePressTile 6 7).validMoves = [(5, 5), (7, 5)]
      ∧ (Game.new.onMousePressTile 6 7).chessBoard.lastMove = "Nh3"
      ∧ (isValidMoveFull ChessBoard.new 6 7 5 5 false false true).1 = true
      ∧ (isValidMoveFull ChessBoard.new 6 7 5 5 false false true).2.lastMove = "Nf3" := by
  decide!

/-! ## Theorems: castling -/

/-- The castling loop towards file 7: it succeeds exactly when the squares from
`x` up to file 6 are empty. -/
theorem castlingPathLoop_short (b : Grid) (fromY : Int) :
    ∀ (fuel : Nat) (x : Int), x ≤ 7 → (7 - x).toNat < fuel →
      ((castlingPathLoop b fromY 7 1 fuel x).getD false = true
        ↔ ∀ x1 : Int, x ≤ x1 → x1 < 7 → (b fromY x1).isEmpty = true)
  | 0, _, _, h => absurd h (Nat.not_lt_zero _)
  | fuel + 1, x, hx, hf => by
    unfold castlingPathLoop
    by_cases h7 : x = 7
    · subst h7
      simp only [ne_eq, not_true_eq_false, if_false, Option.getD_some, true_iff]
      intro x1 h1 h2
      omega
    · rw [if_pos h7]
      by_cases he : (b fromY x).isEmpty = true
      · simp only [he, Bool.not_true, Bool.false_eq_true, if_false]
        rw [castlingPathLoop_short b fromY fuel (x + 1) (by omega) (by omega)]
        constructor
        · intro h x1 h1 h2
          by_cases hx1 : x1 = x
          · rw [hx1]; exact he
          · exact h x1 (by omega) h2
        · intro h x1 h1 h2
          exact h x1 (by omega) h2
      · simp only [Bool.not_eq_true] at he
        simp only [he, Bool.not_false, if_true, Option.getD_some, Bool.false_eq_true, false_iff]
        intro h
        have := h x (le_refl x) (by omega)
        rw [he] at this
        exact Bool.false_ne_true this

/-- The castling loop towards file 0: it succeeds exactly when the squares from
`x` down to file 1 are empty. -/
theorem castlingPathLoop_long (b : Grid) (fromY : Int) :
    ∀ (fuel : Nat) (x : Int), 0 ≤ x → x.toNat < fuel →
      ((castlingPathLoop b fromY 0 (-1) fuel x).getD false = true
        ↔ ∀ x1 : Int, 0 < x1 → x1 ≤ x → (b fromY x1).isEmpty = true)
  | 0, _, _, h => absurd h (Nat.not_lt_zero _)
  | fuel + 1, x, hx, hf => by
    unfold castlingPathLoop
    by_cases h0 : x = 0
    · subst h0
      simp only [ne_eq, not_true_eq_false, if_false, Option.getD_some, true_iff]
      intro x1 h1 h2
      omega
    · rw [if_pos h0]
      by_cases he : (b fromY x).isEmpty = true
      · simp only [he, Bool.not_true, Bool.false_eq_true, if_false]
        rw [castlingPathLoop_long b fromY fuel (x + -1) (by omega) (by omega)]
        constructor
        · intro h x1 h1 h2
          by_cases hx1 : x1 = x
          · rw [hx1]; exact he
          · exact h x1 h1 (by omega)
        · intro h x1 h1 h2
          exact h x1 h1 (by omega)
      · simp only [Bool.not_eq_true] at he
        simp only [he, Bool.not_false, if_true, Option.getD_some, Bool.false_eq_true, false_iff]
        intro h
        have := h x (by omega) (le_refl x)
        rw [he] at this
        exact Bool.false_ne_true this

theorem isValidKingMove_castle (s : ChessBoard) (fromX fromY toX : Int) (isWhite : Bool)
    (hd : (toX - fromX).natAbs = 2) :
    (isValidKingMove s fromX fromY toX fromY isWhite).1
      = (kingCastle s fromX fromY toX isWhite).1 := by
  unfold isValidKingMove isValidKingMoveWith
  dsimp only
  rw [if_neg (by omega), if_pos (by omega)]

/-- The result of the castling block for a move towards file 7. -/
theorem kingCastle_short (s : ChessBoard) (fromX fromY toX : Int) (isWhite : Bool)
    (hd : toX > fromX) :
    (kingCastle s fromX fromY toX isWhite).1
      = ⟨!(if isWhite then s.hasWhiteKingMoved else s.hasBlackKingMoved)
          && !(if isWhite then s.hasWhiteRookMoved.2 else s.hasBlackRookMoved.2)
          && (castlingPathLoop s.board fromY 7 1 8 (fromX + 1)).getD false
          && decide ((s.board fromY 7).type = 'R' ∧ (s.board fromY 7).isWhite = isWhite),
        !(if isWhite then s.hasWhiteKingMoved else s.hasBlackKingMoved)
          && !(if isWhite then s.hasWhiteRookMoved.2 else s.hasBlackRookMoved.2)
          && (castlingPathLoop s.board fromY 7 1 8 (fromX + 1)).getD false
          && decide ((s.board fromY 7).type = 'R' ∧ (s.board fromY 7).isWhite = isWhite),
        7, 5⟩ := by
  unfold kingCastle
  simp only [hd, decide_True, if_true, Bool.and_true, Bool.not_true, Bool.and_false,
    Bool.false_eq_true, if_false]
  cases isWhite <;> cases h1 : s.hasWhiteKingMoved <;> cases h2 : s.hasBlackKingMoved <;>
    cases h3 : s.hasWhiteRookMoved.2 <;> cases h4 : s.hasBlackRookMoved.2 <;>
    cases h5 : (castlingPathLoop s.board fromY 7 1 8 (fromX + 1)).getD false <;>
    by_cases h6 : ((s.board fromY 7).type = 'R' ∧ (s.board fromY 7).isWhite = true) <;>
    by_cases h7 : ((s.board fromY 7).type = 'R' ∧ (s.board fromY 7).isWhite = false) <;>
    simp [h6, h7]

/-- The result of the castling block for a move towards file 0. -/
theorem kingCastle_long (s : ChessBoard) (fromX fromY toX : Int) (isWhite : Bool)
    (hd : ¬ toX > fromX) :
    (kingCastle s fromX fromY toX isWhite).1
      = ⟨!(if isWhite then s.hasWhiteKingMoved else s.hasBlackKingMoved)
          && !(if isWhite then s.hasWhiteRookMoved.1 else s.hasBlackRookMoved.1)
          && (castlingPathLoop s.board fromY 0 (-1) 8 (fromX + -1)).getD false
          && decide ((s.board fromY 0).type = 'R' ∧ (s.board fromY 0).isWhite = isWhite),
        !(if isWhite then s.hasWhiteKingMoved else s.hasBlackKingMoved)
          && !(if isWhite then s.hasWhiteRookMoved.1 else s.hasBlackRookMoved.1)
          && (castlingPathLoop s.board fromY 0 (-1) 8 (fromX + -1)).getD false
          && decide ((s.board fromY 0).type = 'R' ∧ (s.board fromY 0).isWhite = isWhite),
        0, 3⟩ := by
  unfold kingCastle
  simp only [hd, decide_False, if_true, Bool.and_true, Bool.not_true, Bool.and_false,
    Bool.false_eq_true, if_false, Bool.not_false]
  cases isWhite <;> cases h1 : s.hasWhiteKingMoved <;> cases h2 : s.hasBlackKingMoved <;>
    cases h3 : s.hasWhiteRookMoved.1 <;> cases h4 : s.hasBlackRookMoved.1 <;>
    cases h5 : (castlingPathLoop s.board fromY 0 (-1) 8 (fromX + -1)).getD false <;>
    by_cases h6 : ((s.board fromY 0).type = 'R' ∧ (s.board fromY 0).isWhite = true) <;>
    by_cases h7 : ((s.board fromY 0).type = 'R' ∧ (s.board fromY 0).isWhite = false) <;>
    simp [h6, h7]

/-- C14: for a king move along a row to an in-board square two files away,
`isValidKingMove` returns true exactly when the king-moved flag of the colour is
false, the rook-moved flag of the side (index 1 towards file 7, index 0 towards
file 0) is false, the squares strictly between the king and the corner file are
empty and the corner holds a rook of the colour; it then sets `isCastling`,
`rookFromX` (7 or 0) and `rookToX` (5 or 3). -/
theorem C14_castling_iff (s : ChessBoard) (fromX fromY toX : Int) (isWhite : Bool)
    (hfrom : 0 ≤ fromX ∧ fromX ≤ 7) (hto : 0 ≤ toX ∧ toX ≤ 7)
    (hd : (toX - fromX).natAbs = 2) :
    ((isValidKingMove s fromX fromY toX fromY isWhite).1.valid = true
      ↔ ((if isWhite then s.hasWhiteKingMoved else s.hasBlackKingMoved) = false
        ∧ (if isWhite then
            (if toX > fromX then s.hasWhiteRookMoved.2 else s.hasWhiteRookMoved.1)
          else (if toX > fromX then s.hasBlackRookMoved.2 else s.hasBlackRookMoved.1)) = false
        ∧ (∀ x : Int, (if toX > fromX then fromX < x ∧ x < 7 else 0 < x ∧ x < fromX) →
            (s.board fromY x).isEmpty = true)
        ∧ (s.board fromY (if toX > fromX then 7 else 0)).type = 'R'
        ∧ (s.board fromY (if toX > fromX then 7 else 0)).isWhite = isWhite))
    ∧ ((isValidKingMove s fromX fromY toX fromY isWhite).1.valid = true →
        (isValidKingMove s fromX fromY toX fromY isWhite).1.isCastling = true
        ∧ (isValidKingMove s fromX fromY toX fromY isWhite).1.rookFromX
            = (if toX > fromX then 7 else 0)
        ∧ (isValidKingMove s fromX fromY toX fromY isWhite).1.rookToX
            = (if toX > fromX then 5 else 3)) := by
  rw [isValidKingMove_castle s fromX fromY toX isWhite hd]
  by_cases hgt : toX > fromX
  · rw [kingCastle_short s fromX fromY toX isWhite hgt]
    have hloop := castlingPathLoop_short s.board fromY 8 (fromX + 1) (by omega) (by omega)
    simp only [hgt, if_true, Bool.and_eq_true, Bool.not_eq_true', decide_eq_true_eq, hloop]
    refine ⟨⟨fun h => ⟨h.1.1.1, ?_, fun x hx => h.1.2 x (by omega) hx.2, h.2⟩,
      fun h => ⟨⟨⟨h.1, ?_⟩, fun x h1 h2 => h.2.2.1 x ⟨by omega, h2⟩⟩, h.2.2.2⟩⟩,
      fun h => ⟨h, trivial, trivial⟩⟩
    · cases isWhite <;> simpa using h.1.1.2
    · cases isWhite <;> simpa using h.2.1
  · rw [kingCastle_long s fromX fromY toX isWhite hgt]
    have hloop := castlingPathLoop_long s.board fromY 8 (fromX + -1) (by omega) (by omega)
    simp only [hgt, if_false, Bool.and_eq_true, Bool.not_eq_true', decide_eq_true_eq, hloop]
    refine ⟨⟨fun h => ⟨h.1.1.1, ?_, fun x hx => h.1.2 x hx.1 (by omega), h.2⟩,
      fun h => ⟨⟨⟨h.1, ?_⟩, fun x h1 h2 => h.2.2.1 x ⟨h1, by omega⟩⟩, h.2.2.2⟩⟩,
      fun h => ⟨h, trivial, trivial⟩⟩
    · cases isWhite <;> simpa using h.1.1.2
    · cases isWhite <;> simpa using h.2.1

set_option maxRecDepth 100000 in
/-- C14 at `castlingPosition`: the white king e1 may castle towards h1, with the
rook going from file 7 to file 5. -/
theorem C14_castling_iff_witness :
    ((0 : Int) ≤ 4 ∧ (4 : Int) ≤ 7) ∧ ((0 : Int) ≤ 6 ∧ (6 : Int) ≤ 7)
      ∧ ((6 : Int) - 4).natAbs = 2
      ∧ (isValidKingMove castlingPosition 4 7 6 7 true).1.valid = true
      ∧ (isValidKingMove castlingPosition 4 7 6 7 true).1.isCastling = true
      ∧ (isValidKingMove castlingPosition 4 7 6 7 true).1.rookFromX = 7
      ∧ (isValidKingMove castlingPosition 4 7 6 7 true).1.rookToX = 5 := by
  have h := C14_castling_iff castlingPosition 4 7 6 true (by decide) (by decide) (by decide)
  have hv : (isValidKingMove castlingPosition 4 7 6 7 true).1.valid = true := by
    refine h.1.2 ⟨rfl, rfl, ?_, by decide!, by decide!⟩
    intro x hx
    have hx2 : (4 : Int) < x ∧ x < 7 := by simpa using hx
    have h56 : x = 5 ∨ x = 6 := by omega
    rcases h56 with rfl | rfl <;> decide!
  have h2 := h.2 hv
  exact ⟨by decide, by decide, by decide, hv, h2.1, by simpa using h2.2.1, by simpa using h2.2.2⟩

/-! ## Theorems: disambiguation -/

theorem foldl_flatMap {α β γ : Type} (f : α → List β) (g : γ → β → γ) :
    ∀ (l : List α) (a : γ),
      (l.flatMap f).foldl g a = l.foldl (fun acc x => (f x).foldl g acc) a
  | [], _ => rfl
  | x :: xs, a => by
    rw [List.flatMap_cons, List.foldl_append, List.foldl_cons, foldl_flatMap f g xs]

/-- The double loop of `detectAmbiguity` is one loop over the 64 squares. -/
theorem detectAmbiguity_loop (b : Grid) (fromX fromY toX toY : Int) (type : Char)
    (isWhite : Bool) (a : Ambiguity) :
    coords.foldl
        (fun acc y => coords.foldl
          (fun acc2 x => detectAmbiguityStep b fromX fromY toX toY type isWhite y x acc2) acc) a
      = squares.foldl
        (fun acc q => detectAmbiguityStep b fromX fromY toX toY type isWhite q.1 q.2 acc) a := by
  unfold squares
  rw [foldl_flatMap]
  simp only [List.foldl_map]

/-- What one conflicting square `q = (y, x)` adds to the loop variables. -/
theorem detectAmbiguityStep_eq (b : Grid) (fromX fromY toX toY : Int) (type : Char)
    (isWhite : Bool) (q : Int × Int) (a : Ambiguity) :
    detectAmbiguityStep b fromX fromY toX toY type isWhite q.1 q.2 a
      = if conflicts b fromX fromY toX toY type isWhite q = true then
          ⟨a.requiresFile || decide (q.2 ≠ fromX), a.requiresRank || decide (q.1 ≠ fromY),
            a.ambiguityCount + 1⟩
        else a := by
  have hstep : detectAmbiguityStep b fromX fromY toX toY type isWhite q.1 q.2 a
      = if q.2 = fromX ∧ q.1 = fromY then a
        else if (b q.1 q.2).isEmpty then a
        else if (b q.1 q.2).type = type ∧ (b q.1 q.2).isWhite = isWhite then
          if canReach b type q.2 q.1 toX toY = true then
            ⟨a.requiresFile || decide (q.2 ≠ fromX), a.requiresRank || decide (q.1 ≠ fromY),
              a.ambiguityCount + 1⟩
          else a
        else a := by
    unfold detectAmbiguityStep canReach
    dsimp only
    by_cases h1 : q.2 = fromX ∧ q.1 = fromY
    · rw [if_pos h1, if_pos h1]
    rw [if_neg h1, if_neg h1]
    by_cases h2 : (b q.1 q.2).isEmpty = true
    · rw [if_pos h2, if_pos h2]
    rw [if_neg h2, if_neg h2]
    by_cases h3 : (b q.1 q.2).type = type ∧ (b q.1 q.2).isWhite = isWhite
    · rw [if_pos h3, if_pos h3]
      generalize (ite (type = 'R') _ _ : Bool) = c
      cases c
      · rfl
      · by_cases hx : q.2 = fromX <;> by_cases hy : q.1 = fromY <;> simp_all
    · rw [if_neg h3, if_neg h3]
  rw [hstep]
  unfold conflicts
  by_cases h1 : q.2 = fromX ∧ q.1 = fromY
  · simp [h1]
  · by_cases h2 : (b q.1 q.2).isEmpty = true
    · simp [h1, h2]
    · by_cases h3 : (b q.1 q.2).type = type ∧ (b q.1 q.2).isWhite = isWhite
      · cases hc : canReach b type q.2 q.1 toX toY <;> simp [h1, h2, h3]
      · simp [h1, h2, h3]

/-- The loop of `detectAmbiguity` over a list of squares, in terms of the
conflicting squares of the list. -/
theorem detectAmbiguity_fold (b : Grid) (fromX fromY toX toY : Int) (type : Char)
    (isWhite : Bool) :
    ∀ (l : List (Int × Int)) (a : Ambiguity),
      l.foldl
          (fun acc q => detectAmbiguityStep b fromX fromY toX toY type isWhite q.1 q.2 acc) a
        = ⟨a.requiresFile
            || (l.filter (conflicts b fromX fromY toX toY type isWhite)).any
              (fun q => decide (q.2 ≠ fromX)),
          a.requiresRank
            || (l.filter (conflicts b fromX fromY toX toY type isWhite)).any
              (fun q => decide (q.1 ≠ fromY)),
          a.ambiguityCount
            + (l.filter (conflicts b fromX fromY toX toY type isWhite)).length⟩
  | [], a => by simp
  | q :: qs, a => by
    rw [List.foldl_cons, detectAmbiguityStep_eq, detectAmbiguity_fold b fromX fromY toX toY
      type isWhite qs]
    by_cases hc : conflicts b fromX fromY toX toY type isWhite q = true
    · simp only [hc, if_true, List.filter_cons_of_pos, List.any_cons, List.length_cons,
        Bool.or_assoc]
      congr 1
      omega
    · simp only [hc, if_false, List.filter_cons_of_neg, not_false_eq_true, Bool.false_eq_true]

/-- The result of `detectAmbiguity` in terms of the list of conflicting squares. -/
theorem detectAmbiguity_eq (b : Grid) (fromX fromY toX toY : Int) (type : Char)
    (isWhite : Bool) :
    detectAmbiguity b fromX fromY toX toY type isWhite
      = if (squares.filter (conflicts b fromX fromY toX toY type isWhite)).length = 0 then
          (false, false)
        else if (squares.filter (conflicts b fromX fromY toX toY type isWhite)).length = 1
            ∧ (squares.filter (conflicts b fromX fromY toX toY type isWhite)).any
                (fun q => decide (q.1 ≠ fromY)) = true
            ∧ (squares.filter (conflicts b fromX fromY toX toY type isWhite)).any
                (fun q => decide (q.2 ≠ fromX)) = true then
          (true, false)
        else
          ((squares.filter (conflicts b fromX fromY toX toY type isWhite)).any
              (fun q => decide (q.2 ≠ fromX)),
            (squares.filter (conflicts b fromX fromY toX toY type isWhite)).any
              (fun q => decide (q.1 ≠ fromY))) := by
  unfold detectAmbiguity
  rw [detectAmbiguity_loop, detectAmbiguity_fold]
  simp only [Bool.false_or, Nat.zero_add, Nat.le_zero_eq]
  generalize (squares.filter (conflicts b fromX fromY toX toY type isWhite)) = F
  by_cases h0 : F.length = 0
  · simp [h0]
  · by_cases h1 : F.length = 1 ∧ F.any (fun q => decide (q.1 ≠ fromY)) = true
        ∧ F.any (fun q => decide (q.2 ≠ fromX)) = true
    · simp only [h0, h1, if_false, if_true, and_self]
      simp [h1.2.2]
    · simp only [h0, h1, if_false]

theorem mem_squares (q : Int × Int) :
    q ∈ squares ↔ (0 ≤ q.1 ∧ q.1 ≤ 7) ∧ (0 ≤ q.2 ∧ q.2 ≤ 7) := by
  obtain ⟨y, x⟩ := q
  unfold squares coords
  simp only [List.mem_flatMap, List.mem_map, Prod.mk.injEq, List.mem_cons, List.mem_singleton,
    List.not_mem_nil, or_false]
  constructor
  · rintro ⟨y1, hy, x1, hx, rfl, rfl⟩
    omega
  · rintro ⟨hy, hx⟩
    exact ⟨y, by omega, x, by omega, rfl, rfl⟩

theorem squares_nodup : squares.Nodup := by
  decide

/-- A list without repetition filtered by a test that singles out one of its
members is that member alone. -/
theorem filter_eq_singleton {α : Type} [DecidableEq α] (p : α → Bool) (q0 : α) :
    ∀ (l : List α), l.Nodup → q0 ∈ l → (∀ q ∈ l, p q = true ↔ q = q0) →
      l.filter p = [q0]
  | [], _, hm, _ => absurd hm (List.not_mem_nil q0)
  | q :: qs, hn, hm, hp => by
    have hnq : q ∉ qs := (List.nodup_cons.mp hn).1
    have hnd : qs.Nodup := (List.nodup_cons.mp hn).2
    by_cases hq : q = q0
    · subst hq
      have hpq : p q = true := (hp q (List.mem_cons_self q qs)).2 rfl
      have hrest : qs.filter p = [] := by
        rw [List.filter_eq_nil_iff]
        intro a ha hpa
        have := (hp a (List.mem_cons_of_mem q ha)).1 hpa
        exact hnq (this ▸ ha)
      rw [List.filter_cons_of_pos hpq, hrest]
    · have hpq : ¬ p q = true := fun h => hq ((hp q (List.mem_cons_self q qs)).1 h)
      have hm2 : q0 ∈ qs := by
        rcases List.mem_cons.mp hm with h | h
        · exact absurd h.symm hq
        · exact h
      rw [List.filter_cons_of_neg hpq]
      exact filter_eq_singleton p q0 qs hnd hm2
        (fun a ha => hp a (List.mem_cons_of_mem q ha))

/-- C18: when exactly one square `(x0, y0)` of the board holds another piece of
the mover's kind and colour that can reach the destination, `detectAmbiguity`
asks for one disambiguator: the rank (`(false, true)`) when that piece is on the
mover's file, the file (`(true, false)`) otherwise. -/
theorem C18_single_conflict (b : Grid) (fromX fromY toX toY : Int) (type : Char)
    (isWhite : Bool) (x0 y0 : Int)
    (hin : (0 ≤ y0 ∧ y0 ≤ 7) ∧ (0 ≤ x0 ∧ x0 ≤ 7))
    (h0 : conflicts b fromX fromY toX toY type isWhite (y0, x0) = true)
    (huniq : ∀ x y : Int, 0 ≤ x → x ≤ 7 → 0 ≤ y → y ≤ 7 →
      conflicts b fromX fromY toX toY type isWhite (y, x) = true → x = x0 ∧ y = y0) :
    detectAmbiguity b fromX fromY toX toY type isWhite
      = if x0 = fromX then (false, true) else (true, false) := by
  have hF : squares.filter (conflicts b fromX fromY toX toY type isWhite) = [(y0, x0)] := by
    refine filter_eq_singleton _ (y0, x0) squares squares_nodup ((mem_squares _).2 hin) ?_
    intro q hq
    obtain ⟨hy, hx⟩ := (mem_squares q).1 hq
    constructor
    · intro hc
      obtain ⟨h1, h2⟩ := huniq q.2 q.1 hx.1 hx.2 hy.1 hy.2 hc
      exact Prod.ext h2 h1
    · rintro rfl
      exact h0
  have hne : ¬ (x0 = fromX ∧ y0 = fromY) := by
    intro h
    unfold conflicts at h0
    simp [h] at h0
  rw [detectAmbiguity_eq, hF]
  by_cases hx : x0 = fromX
  · have hy : y0 ≠ fromY := fun h => hne ⟨hx, h⟩
    simp [hx, hy]
  · by_cases hy : y0 = fromY <;> simp [hx, hy]

/-- C19: `detectAmbiguity` returns `(false, false)` exactly when no square of the
board holds another piece of the mover's kind and colour that can reach the
destination; the text built by the validators is then the piece letter, `"x"`
for a capture, and the destination. -/
theorem C19_no_disambiguation_iff (b : Grid) (fromX fromY toX toY : Int) (type : Char)
    (isWhite : Bool) :
    (detectAmbiguity b fromX fromY toX toY type isWhite = (false, false)
      ↔ ∀ x y : Int, 0 ≤ x → x ≤ 7 → 0 ≤ y → y ≤ 7 →
          conflicts b fromX fromY toX toY type isWhite (y, x) = false)
    ∧ (detectAmbiguity b fromX fromY toX toY type isWhite = (false, false) →
        pieceMoveText b type fromX fromY toX toY isWhite
          = String.singleton type ++ (if (b toY toX).isEmpty then "" else "x")
              ++ toAlgebraic toX toY) := by
  constructor
  · rw [detectAmbiguity_eq]
    constructor
    · intro h x y hx1 hx2 hy1 hy2
      by_contra hc
      simp only [Bool.not_eq_false] at hc
      have hmem : (y, x) ∈ squares.filter (conflicts b fromX fromY toX toY type isWhite) :=
        List.mem_filter.2 ⟨(mem_squares _).2 ⟨⟨hy1, hy2⟩, hx1, hx2⟩, hc⟩
      have hlen : (squares.filter (conflicts b fromX fromY toX toY type isWhite)).length ≠ 0 := by
        intro h0
        rw [List.length_eq_zero] at h0
        rw [h0] at hmem
        exact List.not_mem_nil _ hmem
      rw [if_neg hlen] at h
      split at h
      · exact absurd (congrArg Prod.fst h) (by simp)
      · have hne : ¬ (x = fromX ∧ y = fromY) := by
          intro hh
          unfold conflicts at hc
          simp [hh] at hc
        have h1 := congrArg Prod.fst h
        have h2 := congrArg Prod.snd h
        simp only [List.any_eq_false, decide_eq_true_eq, not_not] at h1 h2
        exact hne ⟨h1 (y, x) hmem, h2 (y, x) hmem⟩
    · intro h
      have hnil : squares.filter (conflicts b fromX fromY toX toY type isWhite) = [] := by
        rw [List.filter_eq_nil_iff]
        intro q hq
        obtain ⟨hy, hx⟩ := (mem_squares q).1 hq
        rw [h q.2 q.1 hx.1 hx.2 hy.1 hy.2]
        exact Bool.false_ne_true
      rw [hnil]
      rfl
  · intro h
    unfold pieceMoveText
    simp only [h, Bool.and_self, Bool.false_eq_true, if_false, String.append_empty]

set_option maxRecDepth 100000 in
/-- C18 at `twoRooksPosition`: for the move a1-a5 the only other white rook that
reaches a5 stands on h5, off the mover's file; the file is asked for and the
rook validator writes `"Raa5"`. -/
theorem C18_single_conflict_witness :
    ((0 : Int) ≤ 3 ∧ (3 : Int) ≤ 7) ∧ ((0 : Int) ≤ 7 ∧ (7 : Int) ≤ 7)
      ∧ conflicts twoRooksPosition.board 0 7 0 3 'R' true (3, 7) = true
      ∧ detectAmbiguity twoRooksPosition.board 0 7 0 3 'R' true = (true, false)
      ∧ (isValidRookMove twoRooksPosition 0 7 0 3 true).1 = true
      ∧ (isValidRookMove twoRooksPosition 0 7 0 3 true).2.lastMove = "Raa5" := by
  have hF : squares.filter (conflicts twoRooksPosition.board 0 7 0 3 'R' true) = [(3, 7)] := by
    decide!
  have h := C18_single_conflict twoRooksPosition.board 0 7 0 3 'R' true 7 3
    (by decide) (by decide!)
    (by
      intro x y hx1 hx2 hy1 hy2 hc
      have hmem : (y, x) ∈ squares.filter (conflicts twoRooksPosition.board 0 7 0 3 'R' true) :=
        List.mem_filter.2 ⟨(mem_squares _).2 ⟨⟨hy1, hy2⟩, hx1, hx2⟩, hc⟩
      rw [hF] at hmem
      have := List.mem_singleton.1 hmem
      exact ⟨congrArg Prod.snd this, congrArg Prod.fst this⟩)
  exact ⟨by decide, by decide, by decide!, by simpa using h, by decide!, by decide!⟩

/-! ## Theorems: castling rights in a game -/

set_option maxRecDepth 100000 in
/-- C16: every move of `rookTourGame` is accepted and committed from the initial
position.  After the first eight half-moves the black bishop stands on h1 (it
has captured the rook there) and White has one rook left, on a1.  At the end of
the game that rook stands on h1, after a1-a3, a3-h3 and h3xh1, and
`hasWhiteRookMoved[1]` is still false; `isValidKingMove` accepts the castling
move e1-g1 with `rookFromX = 7`. -/
theorem C16_castling_with_moved_rook :
    (playMoves ChessBoard.new (rookTourGame.take 8)).map
        (fun s => (s.board 7 7, s.board 7 0,
          (squares.filter (fun q => s.board q.1 q.2 == ⟨'R', true⟩)).length))
      = some (⟨'B', false⟩, ⟨'R', true⟩, 1)
    ∧ (playMoves ChessBoard.new rookTourGame).map
        (fun s => ((s.board 7 7, s.board 7 0, s.board 7 4),
          (s.hasWhiteKingMoved, s.hasWhiteRookMoved),
          ((isValidKingMove s 4 7 6 7 true).1.valid,
            (isValidKingMove s 4 7 6 7 true).1.isCastling,
            (isValidKingMove s 4 7 6 7 true).1.rookFromX)))
      = some ((⟨'R', true⟩, Piece.none, ⟨'K', true⟩), (false, (true, false)),
          (true, true, 7)) := by
  decide!

/-! ## Theorems: what one call of `isValidMove` may change -/

/-- The state left by the pawn validator. -/
theorem isValidPawnMove_validated (s : ChessBoard) (fromX fromY toX toY : Int)
    (isWhite isDrawingMoves : Bool) :
    Validated s (isValidPawnMove s fromX fromY toX toY isWhite isDrawingMoves).2
        fromX fromY toX
      ∧ (isValidPawnMove s fromX fromY toX toY isWhite isDrawingMoves).2.backupLastMove
        = s.backupLastMove := by
  unfold isValidPawnMove
  cases isWhite <;> cases isDrawingMoves <;>
    simp only [Bool.not_false, Bool.not_true, if_true, if_false, Bool.false_eq_true] <;>
    split_ifs with h1 h2 h3 h4 h5 <;>
    first
    | exact ⟨⟨rfl, rfl, rfl, rfl, Or.inl rfl⟩, rfl⟩
    | exact ⟨⟨rfl, rfl, rfl, rfl, Or.inr ⟨rfl, h5.2.1, fun hx => by rw [hx] at h4; simp at h4⟩⟩,
        rfl⟩

theorem Grid.revert_simulate_step (b : Grid) (fromY fromX toY toX : Int) (q : Piece) :
    ((((b.set toY toX (b fromY fromX)).set fromY fromX q).set fromY fromX
        (((b.set toY toX (b fromY fromX)).set fromY fromX q) toY toX)).set toY toX
      (b toY toX)) = b := by
  funext j i
  simp only [Grid.set_apply]
  split_ifs <;> simp_all

/-- The state left by the king validator, for a check test that leaves the
object alone. -/
theorem isValidKingMoveWith_validated (chk : ChessBoard → Bool → Bool × ChessBoard)
    (hk : Keeps chk) (s : ChessBoard) (fromX fromY toX toY : Int) (isWhite : Bool) :
    Validated s (isValidKingMoveWith chk s fromX fromY toX toY isWhite).2 fromX fromY toX := by
  rcases isValidKingMoveWith_state chk s fromX fromY toX toY isWhite with ⟨l, hl⟩ | ⟨_, l, hl⟩
  · rw [hl]
    exact ⟨rfl, rfl, rfl, rfl, Or.inl rfl⟩
  · rw [hl]
    obtain ⟨hu, _⟩ := hk (simulated s fromX fromY toX toY) isWhite
    refine ⟨hu.whiteKing, hu.blackKing, hu.whiteRook, hu.blackRook, Or.inl ?_⟩
    show ((_ : Grid).set fromY fromX _).set toY toX _ = s.board
    rw [hu.board]
    exact Grid.revert_simulate_step s.board fromY fromX toY toX Piece.none

/-- The state left by the piece validator selected by `isValidMove`. -/
theorem validatePiece_validated (chk : ChessBoard → Bool → Bool × ChessBoard)
    (hk : Keeps chk) (s : ChessBoard) (piece : Piece) (fromX fromY toX toY : Int)
    (isDrawingMoves : Bool) (v : Bool) (t : ChessBoard)
    (h : validatePiece chk s piece fromX fromY toX toY isDrawingMoves = some (v, t)) :
    Validated s t fromX fromY toX := by
  unfold validatePiece at h
  split at h
  · simp only [Option.some.injEq] at h
    have ht : t = _ := (congrArg Prod.snd h).symm
    rw [ht]
    exact (isValidPawnMove_validated s fromX fromY toX toY piece.isWhite isDrawingMoves).1
  split at h
  · obtain ⟨l, hl⟩ := isValidRookMove_state s fromX fromY toX toY piece.isWhite
    simp only [Option.some.injEq] at h
    have ht : t = _ := (congrArg Prod.snd h).symm.trans hl
    rw [ht]
    exact ⟨rfl, rfl, rfl, rfl, Or.inl rfl⟩
  split at h
  · obtain ⟨l, hl⟩ := isValidKnightMove_state s fromX fromY toX toY piece.isWhite
    simp only [Option.some.injEq] at h
    have ht : t = _ := (congrArg Prod.snd h).symm.trans hl
    rw [ht]
    exact ⟨rfl, rfl, rfl, rfl, Or.inl rfl⟩
  split at h
  · obtain ⟨l, hl⟩ := isValidBishopMove_state s fromX fromY toX toY piece.isWhite
    simp only [Option.some.injEq] at h
    have ht : t = _ := (congrArg Prod.snd h).symm.trans hl
    rw [ht]
    exact ⟨rfl, rfl, rfl, rfl, Or.inl rfl⟩
  split at h
  · obtain ⟨l, hl⟩ := isValidQueenMove_state s fromX fromY toX toY piece.isWhite
    simp only [Option.some.injEq] at h
    have ht : t = _ := (congrArg Prod.snd h).symm.trans hl
    rw [ht]
    exact ⟨rfl, rfl, rfl, rfl, Or.inl rfl⟩
  split at h
  · simp only [Option.some.injEq] at h
    have ht : t = _ := (congrArg Prod.snd h).symm
    rw [ht]
    exact isValidKingMoveWith_validated chk hk s fromX fromY toX toY piece.isWhite
  · exact absurd h (by simp)

/-- One call of `isValidMove`, with any arguments: the castling flags stay, the
grid stays or loses the pawn beside the origin, and `backupBoard` is left as it
was, or equal to the grid before the call, or equal to the grid after it. -/
theorem isValidMoveWith_validated (chk : ChessBoard → Bool → Bool × ChessBoard)
    (hk : Keeps chk) (s : ChessBoard) (fromX fromY toX toY : Int)
    (inSimulation skipKingSafetyCheck isDrawingMoves : Bool) :
    Validated s
        (isValidMoveWith chk s fromX fromY toX toY inSimulation skipKingSafetyCheck
          isDrawingMoves).2 fromX fromY toX
      ∧ ((isValidMoveWith chk s fromX fromY toX toY inSimulation skipKingSafetyCheck
            isDrawingMoves).2.backupBoard = s.backupBoard
        ∨ (isValidMoveWith chk s fromX fromY toX toY inSimulation skipKingSafetyCheck
            isDrawingMoves).2.backupBoard = s.board
        ∨ (isValidMoveWith chk s fromX fromY toX toY inSimulation skipKingSafetyCheck
            isDrawingMoves).2.backupBoard
          = (isValidMoveWith chk s fromX fromY toX toY inSimulation skipKingSafetyCheck
            isDrawingMoves).2.board) := by
  unfold isValidMoveWith
  dsimp only
  split
  · exact ⟨⟨rfl, rfl, rfl, rfl, Or.inl rfl⟩, Or.inl rfl⟩
  split
  · exact ⟨⟨rfl, rfl, rfl, rfl, Or.inl rfl⟩, Or.inl rfl⟩
  split
  · exact ⟨⟨rfl, rfl, rfl, rfl, Or.inl rfl⟩, Or.inr (Or.inl rfl)⟩
  · rename_i valid t hv
    have hval := validatePiece_validated chk hk
      { s with backupLastMove := s.lastMove, backupBoard := s.board } (s.board fromY fromX)
      fromX fromY toX toY isDrawingMoves valid t hv
    split
    · exact ⟨⟨hval.whiteKing, hval.blackKing, hval.whiteRook, hval.blackRook, hval.board⟩,
        Or.inr (Or.inr rfl)⟩
    · have hfrom : t.board fromY fromX = s.board fromY fromX := by
        rcases hval.board with h | ⟨h, _, hne⟩
        · rw [h]
        · rw [h, Grid.set_apply, if_neg (fun hh => hne hh.2.symm)]
      have hrev : ∀ b2 : Grid,
          b2 = (t.board.set toY toX (s.board fromY fromX)).set fromY fromX Piece.none →
          (b2.set fromY fromX (s.board fromY fromX)).set toY toX (t.board toY toX)
            = t.board := by
        intro b2 hb2
        rw [hb2, ← hfrom]
        exact Grid.revert_simulate t.board fromY fromX toY toX _ _
      cases skipKingSafetyCheck
      · obtain ⟨hu, _⟩ := hk
          { t with
            board := ((t.board.set toY toX (s.board fromY fromX)).set fromY fromX Piece.none) }
          (s.board fromY fromX).isWhite
        simp only [Bool.not_false, if_true]
        have hb := hrev _ hu.board
        refine ⟨⟨hu.whiteKing.trans hval.whiteKing, hu.blackKing.trans hval.blackKing,
          hu.whiteRook.trans hval.whiteRook, hu.blackRook.trans hval.blackRook, ?_⟩,
          Or.inr (Or.inr trivial)⟩
        rcases hval.board with h | h
        · exact Or.inl (hb.trans h)
        · exact Or.inr ⟨hb.trans h.1, h.2⟩
      · simp only [Bool.not_true, Bool.false_eq_true, if_false]
        have hb := hrev _ rfl
        refine ⟨⟨hval.whiteKing, hval.blackKing, hval.whiteRook, hval.blackRook, ?_⟩,
          Or.inr (Or.inr trivial)⟩
        rcases hval.board with h | h
        · exact Or.inl (hb.trans h)
        · exact Or.inr ⟨hb.trans h.1, h.2⟩

/-! ## Theorems: what the checkmate search and `movePiece` leave unchanged -/

theorem isKingInCheck_keeps : Keeps isKingInCheck :=
  fun s c => isKingInCheckFuel_keeps 65 s c

theorem settled_step (chk : ChessBoard → Bool → Bool × ChessBoard) (hk : Keeps chk)
    (o s : ChessBoard) (fromX fromY toX toY : Int)
    (inSimulation skipKingSafetyCheck isDrawingMoves : Bool) (h : Settled o s) :
    Settled o
      (isValidMoveWith chk s fromX fromY toX toY inSimulation skipKingSafetyCheck
        isDrawingMoves).2 := by
  obtain ⟨hv, hb⟩ := isValidMoveWith_validated chk hk s fromX fromY toX toY inSimulation
    skipKingSafetyCheck isDrawingMoves
  have hboard : ∀ y x, (o.board y x).type ≠ 'P' →
      (isValidMoveWith chk s fromX fromY toX toY inSimulation skipKingSafetyCheck
        isDrawingMoves).2.board y x = o.board y x := by
    intro y x hp
    rcases hv.board with hs | ⟨hs, hpawn, _⟩
    · rw [hs]; exact h.board y x hp
    · rw [hs, Grid.set_apply]
      by_cases hyx : y = fromY ∧ x = toX
      · exfalso
        apply hp
        rw [← h.board y x hp, hyx.1, hyx.2]
        exact hpawn
      · rw [if_neg hyx]; exact h.board y x hp
  refine ⟨hv.whiteKing.trans h.whiteKing, hv.blackKing.trans h.blackKing,
    hv.whiteRook.trans h.whiteRook, hv.blackRook.trans h.blackRook, hboard, ?_⟩
  intro y x hp
  rcases hb with hb | hb | hb
  · rw [hb]; exact h.backupBoard y x hp
  · rw [hb]; exact h.board y x hp
  · rw [hb]; exact hboard y x hp

theorem destinationScan_settled (o : ChessBoard) (x y : Int) :
    ∀ (ds : List (Int × Int)) (s : ChessBoard), Settled o s →
      Settled o (destinationScan x y ds s).2
  | [], _, h => h
  | d :: ds, s, h => by
    unfold destinationScan
    dsimp only
    split
    · exact settled_step isKingInCheck isKingInCheck_keeps o s x y d.2 d.1 true false false h
    · exact destinationScan_settled o x y ds _
        (settled_step isKingInCheck isKingInCheck_keeps o s x y d.2 d.1 true false false h)

theorem pieceScan_settled (o : ChessBoard) (isWhite : Bool) :
    ∀ (qs : List (Int × Int)) (s : ChessBoard), Settled o s →
      Settled o (pieceScan isWhite qs s).2
  | [], _, h => h
  | q :: qs, s, h => by
    unfold pieceScan
    split
    · exact pieceScan_settled o isWhite qs s h
    split
    · dsimp only
      split
      · exact destinationScan_settled o q.2 q.1 squares s h
      · exact pieceScan_settled o isWhite qs _ (destinationScan_settled o q.2 q.1 squares s h)
    · exact pieceScan_settled o isWhite qs s h

/-- What `isCheckmate` leaves: the castling flags and `lastMove` as they were,
and every square that did not hold a pawn as it was. -/
theorem isCheckmate_state (s : ChessBoard) (c : Bool) :
    (isCheckmate s c).2.hasWhiteKingMoved = s.hasWhiteKingMoved
      ∧ (isCheckmate s c).2.hasBlackKingMoved = s.hasBlackKingMoved
      ∧ (isCheckmate s c).2.hasWhiteRookMoved = s.hasWhiteRookMoved
      ∧ (isCheckmate s c).2.hasBlackRookMoved = s.hasBlackRookMoved
      ∧ (isCheckmate s c).2.lastMove = s.lastMove
      ∧ ∀ y x, (s.board y x).type ≠ 'P' → (isCheckmate s c).2.board y x = s.board y x := by
  obtain ⟨hu, _⟩ := isKingInCheck_keeps s c
  unfold isCheckmate
  dsimp only
  split
  · exact ⟨hu.whiteKing, hu.blackKing, hu.whiteRook, hu.blackRook, hu.lastMove,
      fun y x _ => by rw [hu.board]⟩
  · have h0 : Settled s { (isKingInCheck s c).2 with backupBoard := (isKingInCheck s c).2.board } :=
      ⟨hu.whiteKing, hu.blackKing, hu.whiteRook, hu.blackRook,
        fun y x _ => by show (isKingInCheck s c).2.board y x = _; rw [hu.board],
        fun y x _ => by show (isKingInCheck s c).2.board y x = _; rw [hu.board]⟩
    have h1 := pieceScan_settled s c squares _ h0
    exact ⟨h1.whiteKing, h1.blackKing, h1.whiteRook, h1.blackRook, hu.lastMove,
      h1.backupBoard⟩

/-- What the check detection at the end of `movePiece` leaves: the castling flags
as they were, every square that did not hold a pawn as it was, and `lastMove`
with `""`, `"+"` or `"#"` appended. -/
theorem movePieceSuffix_state (s : ChessBoard) (toX toY : Int) :
    ((movePieceSuffix s toX toY).hasWhiteKingMoved = s.hasWhiteKingMoved
      ∧ (movePieceSuffix s toX toY).hasBlackKingMoved = s.hasBlackKingMoved
      ∧ (movePieceSuffix s toX toY).hasWhiteRookMoved = s.hasWhiteRookMoved
      ∧ (movePieceSuffix s toX toY).hasBlackRookMoved = s.hasBlackRookMoved)
    ∧ (∀ y x, (s.board y x).type ≠ 'P' → (movePieceSuffix s toX toY).board y x = s.board y x)
    ∧ ((movePieceSuffix s toX toY).lastMove = s.lastMove
      ∨ (movePieceSuffix s toX toY).lastMove = s.lastMove ++ "+"
      ∨ (movePieceSuffix s toX toY).lastMove = s.lastMove ++ "#") := by
  obtain ⟨hu, _⟩ := isKingInCheck_keeps s (!(s.board toY toX).isWhite)
  unfold movePieceSuffix
  dsimp only
  split
  · obtain ⟨h1, h2, h3, h4, h5, h6⟩ := isCheckmate_state
      (isKingInCheck s (!(s.board toY toX).isWhite)).2
      (!((isKingInCheck s (!(s.board toY toX).isWhite)).2.board toY toX).isWhite)
    have hb : ∀ y x, (s.board y x).type ≠ 'P' →
        (isCheckmate (isKingInCheck s (!(s.board toY toX).isWhite)).2
          (!((isKingInCheck s (!(s.board toY toX).isWhite)).2.board toY toX).isWhite)).2.board
            y x = s.board y x := by
      intro y x hp
      rw [h6 y x (by rw [hu.board]; exact hp), hu.board]
    split
    · exact ⟨⟨h1.trans hu.whiteKing, h2.trans hu.blackKing, h3.trans hu.whiteRook,
        h4.trans hu.blackRook⟩, hb, Or.inr (Or.inr (by
          show _ ++ "#" = _
          rw [h5, hu.lastMove]))⟩
    · exact ⟨⟨h1.trans hu.whiteKing, h2.trans hu.blackKing, h3.trans hu.whiteRook,
        h4.trans hu.blackRook⟩, hb, Or.inr (Or.inl (by
          show _ ++ "+" = _
          rw [h5, hu.lastMove]))⟩
  · exact ⟨⟨hu.whiteKing, hu.blackKing, hu.whiteRook, hu.blackRook⟩,
      fun y x _ => by rw [hu.board], Or.inl hu.lastMove⟩

/-! ## Theorems: promotion -/

theorem movePieceFlags_other (s : ChessBoard) (fromX fromY toX toY : Int)
    (hk : (s.board toY toX).type ≠ 'K') (hr : (s.board toY toX).type ≠ 'R') :
    movePieceFlags s fromX fromY toX toY = s := by
  unfold movePieceFlags
  rw [if_neg hk, if_neg hr]

theorem movePiecePromotion_pawn (s : ChessBoard) (toX toY : Int)
    (hp : (s.board toY toX).type = 'P') (hrow : toY = 0 ∨ toY = 7) :
    movePiecePromotion s toX toY
      = { s with
          board := s.board.set toY toX ⟨'Q', (s.board toY toX).isWhite⟩
          lastMove := s.lastMove ++ "=Q" } := by
  have hrow2 : toY = 0 ∨ toY = SIZE - 1 := by
    rcases hrow with h | h
    · exact Or.inl h
    · exact Or.inr (by rw [h]; rfl)
  unfold movePiecePromotion
  rw [if_pos ⟨hp, hrow2⟩]

/-- The grid after the en passant handling of `movePiece` (no castling) away from
rows 3 and 4. -/
theorem movePieceCaptures_apply (s : ChessBoard) (fromY toX : Int) (rookFromX rookToX : Int)
    (y x : Int) (hy : y ≠ 3 ∧ y ≠ 4) :
    movePieceCaptures s fromY toX false rookFromX rookToX y x = s.board y x := by
  unfold movePieceCaptures
  split
  · dsimp only
    rw [Grid.set_apply, if_neg]
    intro h
    have h4 : y = 4 ∨ y = 3 := by
      rcases h with ⟨h, _⟩
      split at h
      · exact Or.inl h
      · exact Or.inr h
    omega
  · rfl

/-- The first part of `movePiece` for a pawn that steps onto row 0 or row 7. -/
theorem movePieceSquares_promotion (s : ChessBoard) (fromX fromY toX toY : Int)
    (rookFromX rookToX : Int) (c : Bool)
    (hp : s.board fromY fromX = ⟨'P', c⟩) (hrow : toY = 0 ∨ toY = 7)
    (hmove : (toY - fromY).natAbs = 1) :
    (movePieceSquares s fromX fromY toX toY false rookFromX rookToX).board toY toX = ⟨'Q', c⟩
      ∧ (movePieceSquares s fromX fromY toX toY false rookFromX rookToX).lastMove
        = s.lastMove ++ "=Q" := by
  have hne : ¬ (toY = fromY ∧ toX = fromX) := by
    intro h
    rw [h.1] at hmove
    simp at hmove
  have h1 : movePieceCaptures s fromY toX false rookFromX rookToX fromY fromX = ⟨'P', c⟩ := by
    rw [movePieceCaptures_apply s fromY toX rookFromX rookToX fromY fromX (by omega), hp]
  have h2 : (((movePieceCaptures s fromY toX false rookFromX rookToX).set toY toX
      (movePieceCaptures s fromY toX false rookFromX rookToX fromY fromX)).set fromY fromX
        Piece.none) toY toX = ⟨'P', c⟩ := by
    rw [Grid.set_apply, if_neg hne, Grid.set_apply, if_pos ⟨rfl, rfl⟩, h1]
  unfold movePieceSquares
  dsimp only
  rw [movePieceFlags_other _ _ _ _ _ (by dsimp only; rw [h2]; simp)
      (by dsimp only; rw [h2]; simp),
    movePiecePromotion_pawn _ _ _ (by dsimp only; rw [h2]) hrow]
  refine ⟨?_, rfl⟩
  show (Grid.set _ toY toX _) toY toX = _
  rw [Grid.set_apply, if_pos ⟨rfl, rfl⟩]
  dsimp only
  rw [h2]

/-- C17: when `movePiece` (without castling) moves a pawn of colour `c` one row
forward onto row 0 or row 7, the destination holds a queen of colour `c` after
the call, and `lastMove` is its former value followed by `"=Q"` and then by
nothing, `"+"` or `"#"`. -/
theorem C17_promotion_to_queen (s : ChessBoard) (fromX fromY toX toY : Int)
    (rookFromX rookToX : Int) (c : Bool)
    (hp : s.board fromY fromX = ⟨'P', c⟩) (hrow : toY = 0 ∨ toY = 7)
    (hmove : (toY - fromY).natAbs = 1) :
    (movePiece s fromX fromY toX toY false rookFromX rookToX).board toY toX = ⟨'Q', c⟩
      ∧ ((movePiece s fromX fromY toX toY false rookFromX rookToX).lastMove
          = s.lastMove ++ "=Q"
        ∨ (movePiece s fromX fromY toX toY false rookFromX rookToX).lastMove
          = s.lastMove ++ "=Q" ++ "+"
        ∨ (movePiece s fromX fromY toX toY false rookFromX rookToX).lastMove
          = s.lastMove ++ "=Q" ++ "#") := by
  obtain ⟨hq, hl⟩ := movePieceSquares_promotion s fromX fromY toX toY rookFromX rookToX c hp
    hrow hmove
  obtain ⟨_, hb, hs⟩ := movePieceSuffix_state
    (movePieceSquares s fromX fromY toX toY false rookFromX rookToX) toX toY
  unfold movePiece
  refine ⟨?_, ?_⟩
  · rw [hb toY toX (by rw [hq]; simp), hq]
  · rw [← hl]
    exact hs

set_option maxRecDepth 100000 in
/-- C17 at `promotionPosition`: the white pawn goes a7-a8 through the commit
path; a8 then holds a white queen and `lastMove` is `"a8=Q+"`. -/
theorem C17_promotion_to_queen_witness :
    (isValidMove promotionPosition 0 1 0 0).2.board 1 0 = ⟨'P', true⟩
      ∧ ((0 : Int) = 0 ∨ (0 : Int) = 7) ∧ ((0 : Int) - 1).natAbs = 1
      ∧ (movePiece (isValidMove promotionPosition 0 1 0 0).2 0 1 0 0 false (-1) (-1)).board 0 0
        = ⟨'Q', true⟩
      ∧ (isValidMove promotionPosition 0 1 0 0).2.lastMove = "a8"
      ∧ (movePiece (isValidMove promotionPosition 0 1 0 0).2 0 1 0 0 false (-1) (-1)).lastMove
        = "a8=Q+" :=
  ⟨by decide!, by decide, by decide,
    (C17_promotion_to_queen (isValidMove promotionPosition 0 1 0 0).2 0 1 0 0 (-1) (-1) true
      (by decide!) (by decide) (by decide)).1,
    by decide!, by decide!⟩

/-! ## Theorems: the castling flags -/

theorem FlagsKept.of_eq (s t : ChessBoard)
    (h1 : t.hasWhiteKingMoved = s.hasWhiteKingMoved)
    (h2 : t.hasBlackKingMoved = s.hasBlackKingMoved)
    (h3 : t.hasWhiteRookMoved = s.hasWhiteRookMoved)
    (h4 : t.hasBlackRookMoved = s.hasBlackRookMoved) : FlagsKept s t :=
  ⟨fun h => h1.trans h, fun h => h2.trans h, fun h => by rw [h3]; exact h,
    fun h => by rw [h3]; exact h, fun h => by rw [h4]; exact h, fun h => by rw [h4]; exact h⟩

theorem FlagsKept.trans {s t u : ChessBoard} (h1 : FlagsKept s t) (h2 : FlagsKept t u) :
    FlagsKept s u :=
  ⟨fun h => h2.whiteKing (h1.whiteKing h), fun h => h2.blackKing (h1.blackKing h),
    fun h => h2.whiteRook0 (h1.whiteRook0 h), fun h => h2.whiteRook1 (h1.whiteRook1 h),
    fun h => h2.blackRook0 (h1.blackRook0 h), fun h => h2.blackRook1 (h1.blackRook1 h)⟩

theorem movePieceFlags_kept (s : ChessBoard) (fromX fromY toX toY : Int) :
    FlagsKept s (movePieceFlags s fromX fromY toX toY) := by
  unfold movePieceFlags
  split_ifs <;> exact ⟨fun h => by first | exact h | rfl, fun h => by first | exact h | rfl,
    fun h => by first | exact h | rfl, fun h => by first | exact h | rfl,
    fun h => by first | exact h | rfl, fun h => by first | exact h | rfl⟩

theorem movePieceFlags_frame (s : ChessBoard) (fromX fromY toX toY : Int) :
    (movePieceFlags s fromX fromY toX toY).board = s.board
      ∧ (movePieceFlags s fromX fromY toX toY).lastMove = s.lastMove := by
  unfold movePieceFlags
  split_ifs <;> exact ⟨rfl, rfl⟩

theorem movePiecePromotion_flags (s : ChessBoard) (toX toY : Int) :
    (movePiecePromotion s toX toY).hasWhiteKingMoved = s.hasWhiteKingMoved
      ∧ (movePiecePromotion s toX toY).hasBlackKingMoved = s.hasBlackKingMoved
      ∧ (movePiecePromotion s toX toY).hasWhiteRookMoved = s.hasWhiteRookMoved
      ∧ (movePiecePromotion s toX toY).hasBlackRookMoved = s.hasBlackRookMoved := by
  unfold movePiecePromotion
  split_ifs <;> exact ⟨rfl, rfl, rfl, rfl⟩

/-- The castling flags after `movePiece`, from those after its block
`// Update castling flags`. -/
theorem movePiece_flags (s : ChessBoard) (fromX fromY toX toY : Int) (isCastling : Bool)
    (rookFromX rookToX : Int) :
    ∃ s1 : ChessBoard,
      s1.hasWhiteKingMoved = s.hasWhiteKingMoved ∧ s1.hasBlackKingMoved = s.hasBlackKingMoved
        ∧ s1.hasWhiteRookMoved = s.hasWhiteRookMoved ∧ s1.hasBlackRookMoved = s.hasBlackRookMoved
        ∧ s1.board toY toX
          = (((movePieceCaptures s fromY toX isCastling rookFromX rookToX).set toY toX
              (movePieceCaptures s fromY toX isCastling rookFromX rookToX fromY fromX)).set
                fromY fromX Piece.none) toY toX
        ∧ (movePiece s fromX fromY toX toY isCastling rookFromX rookToX).hasWhiteKingMoved
          = (movePieceFlags s1 fromX fromY toX toY).hasWhiteKingMoved
        ∧ (movePiece s fromX fromY toX toY isCastling rookFromX rookToX).hasBlackKingMoved
          = (movePieceFlags s1 fromX fromY toX toY).hasBlackKingMoved
        ∧ (movePiece s fromX fromY toX toY isCastling rookFromX rookToX).hasWhiteRookMoved
          = (movePieceFlags s1 fromX fromY toX toY).hasWhiteRookMoved
        ∧ (movePiece s fromX fromY toX toY isCastling rookFromX rookToX).hasBlackRookMoved
          = (movePieceFlags s1 fromX fromY toX toY).hasBlackRookMoved := by
  refine ⟨{ s with
      board := (((movePieceCaptures s fromY toX isCastling rookFromX rookToX).set toY toX
        (movePieceCaptures s fromY toX isCastling rookFromX rookToX fromY fromX)).set
          fromY fromX Piece.none),
      didWEnPassant := false, didBEnPassant := false }, rfl, rfl, rfl, rfl, rfl, ?_⟩
  obtain ⟨⟨h1, h2, h3, h4⟩, _, _⟩ := movePieceSuffix_state
    (movePieceSquares s fromX fromY toX toY isCastling rookFromX rookToX) toX toY
  unfold movePiece
  rw [h1, h2, h3, h4]
  unfold movePieceSquares
  dsimp only
  exact movePiecePromotion_flags _ toX toY

theorem flagsKept_of_call {s t : ChessBoard} (h : Call s t) : FlagsKept s t := by
  cases h with
  | isValidMove fromX fromY toX toY a b c =>
    have hv := (isValidMoveWith_validated isKingInCheck isKingInCheck_keeps s fromX fromY toX
      toY a b c).1
    exact FlagsKept.of_eq _ _ hv.whiteKing hv.blackKing hv.whiteRook hv.blackRook
  | isValidKingMove fromX fromY toX toY isWhite =>
    have hv := isValidKingMoveWith_validated isKingInCheck isKingInCheck_keeps s fromX fromY
      toX toY isWhite
    exact FlagsKept.of_eq _ _ hv.whiteKing hv.blackKing hv.whiteRook hv.blackRook
  | isKingInCheck isWhite =>
    have hu := (isKingInCheck_keeps s isWhite).1
    exact FlagsKept.of_eq _ _ hu.whiteKing hu.blackKing hu.whiteRook hu.blackRook
  | isCheckmate isWhite =>
    obtain ⟨h1, h2, h3, h4, _⟩ := isCheckmate_state s isWhite
    exact FlagsKept.of_eq _ _ h1 h2 h3 h4
  | movePiece fromX fromY toX toY isCastling rookFromX rookToX =>
    obtain ⟨s1, h1, h2, h3, h4, _, g1, g2, g3, g4⟩ := movePiece_flags s fromX fromY toX toY
      isCastling rookFromX rookToX
    exact (FlagsKept.of_eq s s1 h1 h2 h3 h4).trans
      ((movePieceFlags_kept s1 fromX fromY toX toY).trans (FlagsKept.of_eq _ _ g1 g2 g3 g4))

theorem flagsKept_of_calls {s t : ChessBoard} (h : Relation.ReflTransGen Call s t) :
    FlagsKept s t := by
  induction h with
  | refl => exact FlagsKept.of_eq s s rfl rfl rfl rfl
  | tail _ h2 ih => exact ih.trans (flagsKept_of_call h2)

theorem movePieceFlags_king (s : ChessBoard) (fromX fromY toX toY : Int) (c : Bool)
    (hk : s.board toY toX = ⟨'K', c⟩) :
    (if c then (movePieceFlags s fromX fromY toX toY).hasWhiteKingMoved
      else (movePieceFlags s fromX fromY toX toY).hasBlackKingMoved) = true := by
  unfold movePieceFlags
  rw [hk]
  cases c <;> simp

theorem movePieceFlags_rook (s : ChessBoard) (fromX fromY toX toY : Int) (c : Bool)
    (hr : s.board toY toX = ⟨'R', c⟩) (hx : fromX = 0 ∨ fromX = 7)
    (hy : fromY = (if c then 7 else 0)) :
    (if c then
        (if fromX = 7 then (movePieceFlags s fromX fromY toX toY).hasWhiteRookMoved.2
          else (movePieceFlags s fromX fromY toX toY).hasWhiteRookMoved.1)
      else
        (if fromX = 7 then (movePieceFlags s fromX fromY toX toY).hasBlackRookMoved.2
          else (movePieceFlags s fromX fromY toX toY).hasBlackRookMoved.1)) = true := by
  unfold movePieceFlags
  rw [hr]
  rcases hx with hx | hx <;> cases c <;> simp [hx, hy]

/-- A castling move is rejected once the king-moved flag of the colour is set. -/
theorem castling_rejected_king (t : ChessBoard) (fx fy tx : Int) (c : Bool)
    (hflag : (if c then t.hasWhiteKingMoved else t.hasBlackKingMoved) = true)
    (hd : (tx - fx).natAbs = 2) :
    (isValidKingMove t fx fy tx fy c).1.valid = false := by
  rw [isValidKingMove_castle t fx fy tx c hd]
  by_cases hgt : tx > fx
  · rw [kingCastle_short t fx fy tx c hgt]
    simp [hflag]
  · rw [kingCastle_long t fx fy tx c hgt]
    simp [hflag]

/-- A castling move is rejected once the rook-moved flag of the colour and side
is set. -/
theorem castling_rejected_rook (t : ChessBoard) (fx fy tx : Int) (c : Bool)
    (hflag : (if c then (if tx > fx then t.hasWhiteRookMoved.2 else t.hasWhiteRookMoved.1)
      else (if tx > fx then t.hasBlackRookMoved.2 else t.hasBlackRookMoved.1)) = true)
    (hd : (tx - fx).natAbs = 2) :
    (isValidKingMove t fx fy tx fy c).1.valid = false := by
  rw [isValidKingMove_castle t fx fy tx c hd]
  by_cases hgt : tx > fx
  · rw [kingCastle_short t fx fy tx c hgt]
    simp only [hgt, if_true] at hflag
    simp [hflag]
  · rw [kingCastle_long t fx fy tx c hgt]
    simp only [hgt, if_false] at hflag
    simp [hflag]

/-- The en passant and castling handling of `movePiece` leaves the origin alone
when the origin is not on row 3 or 4, or no en passant flag is set, and the
castling rook does not pass over it. -/
theorem movePieceCaptures_origin (s : ChessBoard) (fromX fromY toX : Int) (isCastling : Bool)
    (rookFromX rookToX : Int)
    (hrow : (fromY ≠ 3 ∧ fromY ≠ 4) ∨ (s.didWEnPassant = false ∧ s.didBEnPassant = false))
    (hc : isCastling = true → rookFromX ≠ fromX ∧ rookToX ≠ fromX) :
    movePieceCaptures s fromY toX isCastling rookFromX rookToX fromY fromX
      = s.board fromY fromX := by
  unfold movePieceCaptures
  split
  · rename_i hflag
    rcases hrow with hrow | hrow
    · dsimp only
      rw [Grid.set_apply, if_neg]
      intro h
      have h4 : fromY = 4 ∨ fromY = 3 := by
        rcases h with ⟨h, _⟩
        split at h
        · exact Or.inl h
        · exact Or.inr h
      omega
    · rw [hrow.1, hrow.2] at hflag
      exact absurd hflag (by decide)
  split
  · rename_i h
    obtain ⟨h1, h2⟩ := hc h
    rw [Grid.set_apply, if_neg (fun hh => h1 hh.2.symm), Grid.set_apply,
      if_neg (fun hh => h2 hh.2.symm)]
  · rfl

/-- C15: every castling flag that is set stays set across any sequence of calls
of `isValidMove`, `isValidKingMove`, `isKingInCheck`, `isCheckmate` and
`movePiece`; `resetBoard` clears all of them.  After `movePiece` has moved a king
of colour `c`, and after any further calls, `isValidKingMove` rejects every
castling move of colour `c`; after `movePiece` has moved a rook of colour `c`
from its corner, it rejects the castling moves of colour `c` towards that
corner.  (For the king the origin is taken off rows 3 and 4, or the en passant
flags clear, and the castling rook not to pass over the origin: otherwise
`movePiece` erases the king instead of moving it.) -/
theorem C15_castling_flags_monotone :
    (∀ s t : ChessBoard, Relation.ReflTransGen Call s t → FlagsKept s t)
    ∧ (∀ s : ChessBoard,
        (resetBoard s).hasWhiteKingMoved = false ∧ (resetBoard s).hasBlackKingMoved = false
          ∧ (resetBoard s).hasWhiteRookMoved = (false, false)
          ∧ (resetBoard s).hasBlackRookMoved = (false, false))
    ∧ (∀ (s t : ChessBoard) (fromX fromY toX toY : Int) (isCastling : Bool)
        (rookFromX rookToX : Int) (c : Bool),
        s.board fromY fromX = ⟨'K', c⟩ → ¬ (toY = fromY ∧ toX = fromX) →
        ((fromY ≠ 3 ∧ fromY ≠ 4) ∨ (s.didWEnPassant = false ∧ s.didBEnPassant = false)) →
        (isCastling = true → rookFromX ≠ fromX ∧ rookToX ≠ fromX) →
        Relation.ReflTransGen Call
          (movePiece s fromX fromY toX toY isCastling rookFromX rookToX) t →
        ∀ fx fy tx : Int, (tx - fx).natAbs = 2 →
          (isValidKingMove t fx fy tx fy c).1.valid = false)
    ∧ (∀ (s t : ChessBoard) (fromX fromY toX toY : Int) (rookFromX rookToX : Int) (c : Bool),
        s.board fromY fromX = ⟨'R', c⟩ → ¬ (toY = fromY ∧ toX = fromX) →
        (fromX = 0 ∨ fromX = 7) → fromY = (if c then 7 else 0) →
        Relation.ReflTransGen Call
          (movePiece s fromX fromY toX toY false rookFromX rookToX) t →
        ∀ fx fy tx : Int, (tx - fx).natAbs = 2 → (tx > fx ↔ fromX = 7) →
          (isValidKingMove t fx fy tx fy c).1.valid = false) := by
  refine ⟨fun s t h => flagsKept_of_calls h, fun s => ⟨rfl, rfl, rfl, rfl⟩, ?_, ?_⟩
  · intro s t fromX fromY toX toY isCastling rookFromX rookToX c hk hne hrow hc hcalls
      fx fy tx hd
    obtain ⟨s1, _, _, _, _, hsq, g1, g2, _, _⟩ := movePiece_flags s fromX fromY toX toY
      isCastling rookFromX rookToX
    have hdest : s1.board toY toX = ⟨'K', c⟩ := by
      rw [hsq, Grid.set_apply, if_neg hne, Grid.set_apply, if_pos ⟨rfl, rfl⟩,
        movePieceCaptures_origin s fromX fromY toX isCastling rookFromX rookToX hrow hc, hk]
    have hflag := movePieceFlags_king s1 fromX fromY toX toY c hdest
    have hkept := flagsKept_of_calls hcalls
    apply castling_rejected_king t fx fy tx c _ hd
    cases c
    · simp only [Bool.false_eq_true, if_false] at hflag ⊢
      exact hkept.blackKing (g2.trans hflag)
    · simp only [if_true] at hflag ⊢
      exact hkept.whiteKing (g1.trans hflag)
  · intro s t fromX fromY toX toY rookFromX rookToX c hr hne hx hy hcalls fx fy tx hd hside
    have hrow : fromY ≠ 3 ∧ fromY ≠ 4 := by
      cases c <;> simp only [Bool.false_eq_true, if_false, if_true] at hy <;> omega
    obtain ⟨s1, _, _, _, _, hsq, _, _, g3, g4⟩ := movePiece_flags s fromX fromY toX toY
      false rookFromX rookToX
    have hdest : s1.board toY toX = ⟨'R', c⟩ := by
      rw [hsq, Grid.set_apply, if_neg hne, Grid.set_apply, if_pos ⟨rfl, rfl⟩,
        movePieceCaptures_origin s fromX fromY toX false rookFromX rookToX (Or.inl hrow)
          (fun h => absurd h (by decide)), hr]
    have hflag := movePieceFlags_rook s1 fromX fromY toX toY c hdest hx hy
    have hkept := flagsKept_of_calls hcalls
    apply castling_rejected_rook t fx fy tx c _ hd
    by_cases hgt : tx > fx
    · have h7 : fromX = 7 := hside.1 hgt
      cases c
      · simp only [Bool.false_eq_true, if_false, if_pos h7, if_pos hgt] at hflag ⊢
        exact hkept.blackRook1 (by rw [g4]; exact hflag)
      · simp only [if_true, if_pos h7, if_pos hgt] at hflag ⊢
        exact hkept.whiteRook1 (by rw [g3]; exact hflag)
    · have h7 : ¬ fromX = 7 := fun h => hgt (hside.2 h)
      cases c
      · simp only [Bool.false_eq_true, if_false, if_neg h7, if_neg hgt] at hflag ⊢
        exact hkept.blackRook0 (by rw [g4]; exact hflag)
      · simp only [if_true, if_neg h7, if_neg hgt] at hflag ⊢
        exact hkept.whiteRook0 (by rw [g3]; exact hflag)

set_option maxRecDepth 100000 in
/-- C15 at `castlingPosition`: after the white king has gone e1-e2 and back,
e2-e1, the castling move e1-g1 is rejected, although the king and the rook stand
on e1 and h1 with f1 and g1 empty. -/
theorem C15_castling_flags_monotone_witness :
    (movePiece (movePiece castlingPosition 4 7 4 6 false (-1) (-1)) 4 6 4 7 false (-1)
        (-1)).board 7 4 = ⟨'K', true⟩
      ∧ (movePiece (movePiece castlingPosition 4 7 4 6 false (-1) (-1)) 4 6 4 7 false (-1)
        (-1)).board 7 7 = ⟨'R', true⟩
      ∧ (isValidKingMove castlingPosition 4 7 6 7 true).1.valid = true
      ∧ (isValidKingMove
          (movePiece (movePiece castlingPosition 4 7 4 6 false (-1) (-1)) 4 6 4 7 false (-1)
            (-1)) 4 7 6 7 true).1.valid = false :=
  ⟨by decide!, by decide!, by decide!,
    C15_castling_flags_monotone.2.2.1 castlingPosition _ 4 7 4 6 false (-1) (-1) true
      (by decide!) (by decide) (Or.inl (by decide)) (fun h => absurd h (by decide))
      (Relation.ReflTransGen.single (Call.movePiece _ 4 6 4 7 false (-1) (-1)))
      4 7 6 (by decide)⟩

/-! ## Theorems: the en passant window -/

/-- A call of `isValidMove` from the attacker scan that passes the two early
returns leaves in `backupLastMove` the `lastMove` it was started with. -/
theorem isValidMoveWith_attack_backup (chk : ChessBoard → Bool → Bool × ChessBoard)
    (hk : Keeps chk) (s : ChessBoard) (fromX fromY toX toY : Int)
    (inSimulation isDrawingMoves : Bool) (hd : (s.board toY toX).isEmpty = false)
    (hp : (s.board fromY fromX).isEmpty = false)
    (hfrom : isValidTile fromX fromY = true) (hto : isValidTile toX toY = true) :
    (isValidMoveWith chk s fromX fromY toX toY inSimulation true
      isDrawingMoves).2.backupLastMove = s.lastMove := by
  unfold isValidMoveWith
  dsimp only
  rw [if_neg (by rw [hp]; exact Bool.false_ne_true),
    if_neg (by rw [hfrom, hto]; exact Bool.false_ne_true)]
  split
  · rfl
  · rename_i valid t hv
    obtain ⟨_, hbl⟩ := validatePiece_attack chk hk
      { s with backupLastMove := s.lastMove, backupBoard := s.board } (s.board fromY fromX)
      fromX fromY toX toY isDrawingMoves hd rfl valid t hv
    split
    · exact hbl
    · exact hbl

/-- The attacker scan of one row: afterwards `backupLastMove` holds the
`lastMove` of the start, unless it was left alone because the row holds no piece
of the other colour. -/
theorem attackScanRow_backup (chk : ChessBoard → Bool → Bool × ChessBoard) (hk : Keeps chk)
    (s : ChessBoard) (kingX kingY : Int) (isWhite : Bool) (y : Int)
    (hd : (s.board kingY kingX).isEmpty = false) (hking : isValidTile kingX kingY = true) :
    ∀ (xs : List Int) (t : ChessBoard), ScanInvariant s t →
      (∀ x ∈ xs, isValidTile x y = true) →
      ((attackScanRow chk kingX kingY isWhite y xs t).2.backupLastMove = s.lastMove
        ∨ ((attackScanRow chk kingX kingY isWhite y xs t).2.backupLastMove = t.backupLastMove
          ∧ ∀ x ∈ xs, (s.board y x).isEmpty = true ∨ (s.board y x).isWhite = isWhite))
        ∧ (t.backupLastMove = s.lastMove →
          (attackScanRow chk kingX kingY isWhite y xs t).2.backupLastMove = s.lastMove)
  | [], _, _, _ => ⟨Or.inr ⟨rfl, fun _ h => absurd h (List.not_mem_nil _)⟩, fun h => h⟩
  | x :: xs, t, ht, hxs => by
    have hb : t.board = s.board := ht.1.board
    have hxs2 : ∀ x1 ∈ xs, isValidTile x1 y = true :=
      fun x1 h1 => hxs x1 (List.mem_cons_of_mem x h1)
    rw [attackScanRow, hb]
    by_cases he : (s.board y x).isEmpty = true
    · rw [if_pos he]
      obtain ⟨g1, g2⟩ := attackScanRow_backup chk hk s kingX kingY isWhite y hd hking xs t ht hxs2
      refine ⟨?_, g2⟩
      rcases g1 with g1 | ⟨g1, g3⟩
      · exact Or.inl g1
      · refine Or.inr ⟨g1, ?_⟩
        intro x1 h1
        rcases List.mem_cons.1 h1 with h1 | h1
        · rw [h1]; exact Or.inl he
        · exact g3 x1 h1
    · rw [if_neg he]
      by_cases hen : (!(s.board y x).isEmpty && (s.board y x).isWhite != isWhite) = true
      · rw [if_pos hen]
        dsimp only
        have hcall : (isValidMoveWith chk t x y kingX kingY true true false).2.backupLastMove
            = s.lastMove := by
          rw [isValidMoveWith_attack_backup chk hk t x y kingX kingY true false
            (by rw [hb]; exact hd) (by rw [hb]; simpa using he)
            (hxs x (List.mem_cons_self x xs)) hking]
          exact ht.1.lastMove
        have hinv := ScanInvariant.step chk hk s t x y kingX kingY hd ht
        by_cases hr : (isValidMoveWith chk t x y kingX kingY true true false).1 = true
        · rw [if_pos hr]
          exact ⟨Or.inl hcall, fun _ => hcall⟩
        · rw [if_neg hr]
          have g := (attackScanRow_backup chk hk s kingX kingY isWhite y hd hking xs _ hinv
            hxs2).2 hcall
          exact ⟨Or.inl g, fun _ => g⟩
      · rw [if_neg hen]
        obtain ⟨g1, g2⟩ := attackScanRow_backup chk hk s kingX kingY isWhite y hd hking xs t ht
          hxs2
        refine ⟨?_, g2⟩
        rcases g1 with g1 | ⟨g1, g3⟩
        · exact Or.inl g1
        · refine Or.inr ⟨g1, ?_⟩
          intro x1 h1
          rcases List.mem_cons.1 h1 with h1 | h1
          · rw [h1]
            right
            simp only [Bool.and_eq_true, Bool.not_eq_true', bne_iff_ne, ne_eq, not_and,
              not_not] at hen
            exact hen (by simpa using he)
          · exact g3 x1 h1

theorem coords_valid : ∀ y ∈ coords, ∀ x ∈ coords, isValidTile x y = true := by
  decide

/-- The attacker scan over a list of rows, for `backupLastMove`. -/
theorem attackScan_backup (chk : ChessBoard → Bool → Bool × ChessBoard) (hk : Keeps chk)
    (s : ChessBoard) (kingX kingY : Int) (isWhite : Bool)
    (hd : (s.board kingY kingX).isEmpty = false) (hking : isValidTile kingX kingY = true) :
    ∀ (ys : List Int) (acc : Bool × ChessBoard), ScanInvariant s acc.2 →
      (∀ y ∈ ys, ∀ x ∈ coords, isValidTile x y = true) →
      ((ys.foldl
          (fun (acc : Bool × ChessBoard) y =>
            ((acc.1 || (attackScanRow chk kingX kingY isWhite y coords acc.2).1),
              (attackScanRow chk kingX kingY isWhite y coords acc.2).2)) acc).2.backupLastMove
            = s.lastMove
        ∨ ∀ y ∈ ys, ∀ x ∈ coords, (s.board y x).isEmpty = true ∨ (s.board y x).isWhite = isWhite)
      ∧ (acc.2.backupLastMove = s.lastMove →
        (ys.foldl
          (fun (acc : Bool × ChessBoard) y =>
            ((acc.1 || (attackScanRow chk kingX kingY isWhite y coords acc.2).1),
              (attackScanRow chk kingX kingY isWhite y coords acc.2).2)) acc).2.backupLastMove
            = s.lastMove)
  | [], _, _, _ => ⟨Or.inr (fun _ h => absurd h (List.not_mem_nil _)), fun h => h⟩
  | y :: ys, acc, hacc, hys => by
    have hys2 : ∀ y1 ∈ ys, ∀ x ∈ coords, isValidTile x y1 = true :=
      fun y1 h1 => hys y1 (List.mem_cons_of_mem y h1)
    obtain ⟨r1, r2⟩ := attackScanRow_backup chk hk s kingX kingY isWhite y hd hking coords acc.2
      hacc (hys y (List.mem_cons_self y ys))
    have hinv := attackScanRow_invariant chk hk s kingX kingY isWhite y hd coords acc.2 hacc
    rw [List.foldl_cons]
    obtain ⟨g1, g2⟩ := attackScan_backup chk hk s kingX kingY isWhite hd hking ys
      ((acc.1 || (attackScanRow chk kingX kingY isWhite y coords acc.2).1),
        (attackScanRow chk kingX kingY isWhite y coords acc.2).2) hinv hys2
    refine ⟨?_, fun h => g2 (r2 h)⟩
    rcases r1 with r1 | ⟨_, r3⟩
    · exact Or.inl (g2 r1)
    · rcases g1 with g1 | g1
      · exact Or.inl g1
      · refine Or.inr ?_
        intro y1 h1
        rcases List.mem_cons.1 h1 with h1 | h1
        · rw [h1]; exact r3
        · exact g1 y1 h1

theorem foldl_invariant_mem {α β : Type} (P : α → Prop) (f : α → β → α) :
    ∀ (l : List β), (∀ a x, x ∈ l → P a → P (f a x)) → ∀ a : α, P a → P (l.foldl f a)
  | [], _, _, ha => ha
  | x :: xs, h, a, ha =>
    foldl_invariant_mem P f xs (fun a1 x1 h1 => h a1 x1 (List.mem_cons_of_mem x h1)) (f a x)
      (h a x (List.mem_cons_self x xs) ha)

/-- When `findKing` reports a square, that square is on the board. -/
theorem findKing_valid (b : Grid) (isWhite : Bool)
    (h : ¬ ((findKing b isWhite).1 = -1 ∨ (findKing b isWhite).2 = -1)) :
    isValidTile (findKing b isWhite).1 (findKing b isWhite).2 = true := by
  have key : (findKing b isWhite) = (-1, -1)
      ∨ ((findKing b isWhite).2 ∈ coords ∧ (findKing b isWhite).1 ∈ coords) := by
    unfold findKing
    refine foldl_invariant_mem (fun k => k = (-1, -1) ∨ (k.2 ∈ coords ∧ k.1 ∈ coords)) _
      coords ?_ (-1, -1) (Or.inl rfl)
    intro k y hy hk
    dsimp only
    split
    · rename_i x hx
      exact Or.inr ⟨hy, List.mem_of_find?_eq_some hx⟩
    · exact hk
  rcases key with hk | hk
  · exact absurd (Or.inl (by rw [hk])) h
  · exact coords_valid _ hk.1 _ hk.2

/-- After `isKingInCheck` has found the king and the board holds a piece of the
other colour, `backupLastMove` holds the `lastMove` of the start. -/
theorem isKingInCheckBody_backup (chk : ChessBoard → Bool → Bool × ChessBoard)
    (hk : Keeps chk) (s : ChessBoard) (c : Bool)
    (hfound : ¬ ((findKing s.board c).1 = -1 ∨ (findKing s.board c).2 = -1))
    (henemy : ∃ y ∈ coords, ∃ x ∈ coords,
      (s.board y x).isEmpty = false ∧ (s.board y x).isWhite ≠ c) :
    (isKingInCheckBody chk s c).2.backupLastMove = s.lastMove := by
  have hd := findKing_occupied s.board c hfound
  have hv := findKing_valid s.board c hfound
  have g1 := (attackScan_backup chk hk { s with backupBoard := s.board }
    (findKing s.board c).1 (findKing s.board c).2 c hd hv coords
    (false, { s with backupBoard := s.board }) ⟨Unchanged.refl _, Or.inl rfl, rfl⟩
    coords_valid).1
  unfold isKingInCheckBody
  dsimp only
  rw [if_neg hfound]
  generalize hr : List.foldl _ _ _ = r
  rw [hr] at g1
  rcases g1 with g1 | g1
  · exact g1
  · exfalso
    obtain ⟨y, hy, x, hx, he, hcol⟩ := henemy
    rcases g1 y hy x hx with h | h
    · rw [he] at h; exact Bool.false_ne_true h
    · exact hcol h

/-- The two characters of the name of an in-board square. -/
theorem toAlgebraic_data (x y : Int) (hx : 0 ≤ x ∧ x < 8) (hy : 0 ≤ y ∧ y < 8) :
    (toAlgebraic x y).data = [Char.ofNat (97 + x.toNat), Char.ofNat (56 - y.toNat)] := by
  obtain ⟨hx1, hx2⟩ := hx
  obtain ⟨hy1, hy2⟩ := hy
  interval_cases x <;> interval_cases y <;> rfl

theorem fileChar_injective (x1 x2 : Int) (h1 : 0 ≤ x1 ∧ x1 < 8) (h2 : 0 ≤ x2 ∧ x2 < 8)
    (h : Char.ofNat (97 + x1.toNat) = Char.ofNat (97 + x2.toNat)) : x1 = x2 := by
  obtain ⟨a1, a2⟩ := h1
  obtain ⟨b1, b2⟩ := h2
  interval_cases x1 <;> interval_cases x2 <;> first | rfl | exact absurd h (by decide)

theorem rankChar_injective (y1 y2 : Int) (h1 : 0 ≤ y1 ∧ y1 < 8) (h2 : 0 ≤ y2 ∧ y2 < 8)
    (h : Char.ofNat (56 - y1.toNat) = Char.ofNat (56 - y2.toNat)) : y1 = y2 := by
  obtain ⟨a1, a2⟩ := h1
  obtain ⟨b1, b2⟩ := h2
  interval_cases y1 <;> interval_cases y2 <;> first | rfl | exact absurd h (by decide)

/-- The first character of a square name is a lower-case letter from a to h. -/
theorem fileChar_range (x : Int) (h : 0 ≤ x ∧ x < 8) :
    Char.ofNat (97 + x.toNat) ∈ ['a', 'b', 'c', 'd', 'e', 'f', 'g', 'h'] := by
  obtain ⟨a1, a2⟩ := h
  interval_cases x <;> decide

/-- The second character of a square name is a digit from 1 to 8. -/
theorem rankChar_range (y : Int) (h : 0 ≤ y ∧ y < 8) :
    Char.ofNat (56 - y.toNat) ∈ ['8', '7', '6', '5', '4', '3', '2', '1'] := by
  obtain ⟨a1, a2⟩ := h
  interval_cases y <;> decide

theorem isValidTile_iff (x y : Int) :
    isValidTile x y = true ↔ (0 ≤ x ∧ x < 8) ∧ (0 ≤ y ∧ y < 8) := by
  unfold isValidTile SIZE
  simp only [ge_iff_le, Bool.and_eq_true, decide_eq_true_eq]
  tauto

/-- A text that starts with a character other than a to h, extended by anything,
is not the name of a square. -/
theorem not_square_of_head (l X : String) (c : Char) (rest : List Char) (x y : Int)
    (hx : 0 ≤ x ∧ x < 8) (hy : 0 ≤ y ∧ y < 8) (hl : l.data = c :: rest)
    (hc : c ∉ ['a', 'b', 'c', 'd', 'e', 'f', 'g', 'h']) : l ++ X ≠ toAlgebraic x y := by
  intro h
  have hdata := congrArg String.data h
  rw [String.data_append, toAlgebraic_data x y hx hy, hl] at hdata
  have h1 : c = Char.ofNat (97 + x.toNat) := (List.cons.inj hdata).1
  exact hc (h1 ▸ fileChar_range x hx)

/-- A text whose second character is `x`, extended by anything, is not the name
of a square. -/
theorem not_square_of_second (l X : String) (c : Char) (rest : List Char) (x y : Int)
    (hx : 0 ≤ x ∧ x < 8) (hy : 0 ≤ y ∧ y < 8) (hl : l.data = c :: 'x' :: rest) :
    l ++ X ≠ toAlgebraic x y := by
  intro h
  have hdata := congrArg String.data h
  rw [String.data_append, toAlgebraic_data x y hx hy, hl] at hdata
  have h1 : 'x' = Char.ofNat (56 - y.toNat) :=
    (List.cons.inj (List.cons.inj hdata).2).1
  have h2 := rankChar_range y hy
  rw [← h1] at h2
  exact absurd h2 (by decide)

/-- The name of an in-board square, extended by a text, is the name of an
in-board square only if the text is empty and the squares are the same. -/
theorem square_append_eq (X : String) (x1 y1 x y : Int)
    (hx1 : 0 ≤ x1 ∧ x1 < 8) (hy1 : 0 ≤ y1 ∧ y1 < 8)
    (hx : 0 ≤ x ∧ x < 8) (hy : 0 ≤ y ∧ y < 8)
    (h : toAlgebraic x1 y1 ++ X = toAlgebraic x y) : x1 = x ∧ y1 = y := by
  have hdata := congrArg String.data h
  rw [String.data_append, toAlgebraic_data x y hx hy, toAlgebraic_data x1 y1 hx1 hy1] at hdata
  have h1 := (List.cons.inj hdata).1
  have h2 := (List.cons.inj (List.cons.inj hdata).2).1
  exact ⟨fileChar_injective x1 x hx1 hx h1, rankChar_injective y1 y hy1 hy h2⟩

theorem fileLetter_data (x : Int) : (fileLetter x).data = [Char.ofNat (x + 97).toNat] := rfl

/-- The text that the pawn validator writes when it accepts in commit mode names
a square, even when extended, only if that square is the destination and was
empty. -/
theorem isValidPawnMove_text (s : ChessBoard) (fromX fromY toX toY : Int) (isWhite : Bool)
    (hto : isValidTile toX toY = true)
    (h : (isValidPawnMove s fromX fromY toX toY isWhite false).1 = true)
    (X : String) (x y : Int) (hx : 0 ≤ x ∧ x < 8) (hy : 0 ≤ y ∧ y < 8)
    (heq : (isValidPawnMove s fromX fromY toX toY isWhite false).2.lastMove ++ X
      = toAlgebraic x y) :
    (s.board y x).isEmpty = true := by
  obtain ⟨htx, hty⟩ := (isValidTile_iff toX toY).1 hto
  have hcap : ∀ l : String, l = fileLetter fromX ++ "x" ++ toAlgebraic toX toY →
      l ++ X ≠ toAlgebraic x y := by
    intro l hl
    refine not_square_of_second l X (Char.ofNat (fromX + 97).toNat) (toAlgebraic toX toY).data
      x y hx hy ?_
    rw [hl, String.data_append, String.data_append, fileLetter_data]
    rfl
  unfold isValidPawnMove at h heq
  cases isWhite <;>
    simp only [Bool.not_false, if_true, Bool.false_eq_true, if_false] at h heq <;>
    split_ifs at h heq with h1 h2 h3 h4 h5
  all_goals first
    | (obtain ⟨e1, e2⟩ := square_append_eq X toX toY x y htx hty hx hy heq
       rw [← e1, ← e2]
       first | exact h1.2.2 | exact h2.2.2.2.1)
    | exact absurd heq (hcap _ rfl)

theorem pieceMoveText_data (b : Grid) (letter : Char) (fromX fromY toX toY : Int)
    (isWhite : Bool) :
    ∃ rest, (pieceMoveText b letter fromX fromY toX toY isWhite).data = letter :: rest := by
  unfold pieceMoveText
  dsimp only
  simp only [String.data_append]
  exact ⟨_, rfl⟩

theorem isValidRookMove_text (s : ChessBoard) (fromX fromY toX toY : Int) (isWhite : Bool)
    (h : (isValidRookMove s fromX fromY toX toY isWhite).1 = true) :
    ∃ rest, (isValidRookMove s fromX fromY toX toY isWhite).2.lastMove.data = 'R' :: rest := by
  unfold isValidRookMove at h ⊢
  split_ifs at h ⊢
  exact pieceMoveText_data s.board 'R' fromX fromY toX toY isWhite

theorem isValidKnightMove_text (s : ChessBoard) (fromX fromY toX toY : Int) (isWhite : Bool)
    (h : (isValidKnightMove s fromX fromY toX toY isWhite).1 = true) :
    ∃ rest, (isValidKnightMove s fromX fromY toX toY isWhite).2.lastMove.data
      = 'N' :: rest := by
  unfold isValidKnightMove at h ⊢
  split_ifs at h ⊢
  exact pieceMoveText_data s.board 'N' fromX fromY toX toY isWhite

theorem isValidBishopMove_text (s : ChessBoard) (fromX fromY toX toY : Int) (isWhite : Bool)
    (h : (isValidBishopMove s fromX fromY toX toY isWhite).1 = true) :
    ∃ rest, (isValidBishopMove s fromX fromY toX toY isWhite).2.lastMove.data
      = 'B' :: rest := by
  unfold isValidBishopMove at h ⊢
  split_ifs at h ⊢
  exact pieceMoveText_data s.board 'B' fromX fromY toX toY isWhite

theorem isValidQueenMove_text (s : ChessBoard) (fromX fromY toX toY : Int) (isWhite : Bool)
    (h : (isValidQueenMove s fromX fromY toX toY isWhite).1 = true) :
    ∃ rest, (isValidQueenMove s fromX fromY toX toY isWhite).2.lastMove.data
      = 'Q' :: rest := by
  unfold isValidQueenMove at h ⊢
  split_ifs at h ⊢
  exact pieceMoveText_data s.board 'Q' fromX fromY toX toY isWhite

theorem kingCastle_text (s : ChessBoard) (fromX fromY toX : Int) (isWhite : Bool) :
    (kingCastle s fromX fromY toX isWhite).1.valid = true →
      ∃ rest, (kingCastle s fromX fromY toX isWhite).2.lastMove.data = 'O' :: rest := by
  generalize hr : kingCastle s fromX fromY toX isWhite = r
  unfold kingCastle at hr
  dsimp only at hr
  intro h
  repeat' split at hr
  all_goals subst hr
  all_goals first
    | exact ⟨['-', 'O'], rfl⟩
    | exact ⟨['-', 'O', '-', 'O'], rfl⟩
    | exact absurd h (Bool.false_ne_true)

theorem kingStep_text (chk : ChessBoard → Bool → Bool × ChessBoard)
    (s : ChessBoard) (fromX fromY toX toY : Int) (isWhite : Bool) :
    (kingStep chk s fromX fromY toX toY isWhite).1.valid = true →
      ∃ rest, (kingStep chk s fromX fromY toX toY isWhite).2.lastMove.data = 'K' :: rest := by
  unfold kingStep
  dsimp only
  by_cases hcol : isSameColor (s.board fromY fromX) (s.board toY toX) = false
  · rw [if_pos hcol]
    split
    · intro h
      exact Bool.noConfusion h
    · intro _
      dsimp only
      split
      · exact ⟨_, by rw [String.data_append]; rfl⟩
      · exact ⟨_, by rw [String.data_append]; rfl⟩
  · rw [if_neg hcol]
    intro h
    exact Bool.noConfusion h

/-- The text that the king validator writes when it accepts starts with `K` or
with `O`. -/
theorem isValidKingMoveWith_text (chk : ChessBoard → Bool → Bool × ChessBoard)
    (s : ChessBoard) (fromX fromY toX toY : Int) (isWhite : Bool)
    (h : (isValidKingMoveWith chk s fromX fromY toX toY isWhite).1.valid = true) :
    ∃ c rest, (isValidKingMoveWith chk s fromX fromY toX toY isWhite).2.lastMove.data
        = c :: rest ∧ (c = 'K' ∨ c = 'O') := by
  unfold isValidKingMoveWith at h ⊢
  dsimp only at h ⊢
  split at h
  · rename_i hstep
    rw [if_pos hstep]
    obtain ⟨rest, hr⟩ := kingStep_text chk s fromX fromY toX toY isWhite h
    exact ⟨'K', rest, hr, Or.inl rfl⟩
  · rename_i hstep
    rw [if_neg hstep]
    split at h
    · rename_i hcastle
      rw [if_pos hcastle]
      obtain ⟨rest, hr⟩ := kingCastle_text s fromX fromY toX isWhite h
      exact ⟨'O', rest, hr, Or.inr rfl⟩
    · exact Bool.noConfusion h

theorem isKingInCheck_unfold (s : ChessBoard) (c : Bool) :
    isKingInCheck s c = isKingInCheckBody (isKingInCheckFuel 64) s c := rfl

/-- When `isKingInCheck` answers false on a board that holds a piece of the other
colour, it leaves in `backupLastMove` the `lastMove` it was started with. -/
theorem isKingInCheck_backup (s : ChessBoard) (c : Bool)
    (hres : (isKingInCheck s c).1 = false)
    (henemy : ∃ y ∈ coords, ∃ x ∈ coords,
      (s.board y x).isEmpty = false ∧ (s.board y x).isWhite ≠ c) :
    (isKingInCheck s c).2.backupLastMove = s.lastMove := by
  rw [isKingInCheck_unfold] at hres ⊢
  refine isKingInCheckBody_backup _ (isKingInCheckFuel_keeps 64) s c ?_ henemy
  intro hmiss
  unfold isKingInCheckBody at hres
  dsimp only at hres
  rw [if_pos hmiss] at hres
  exact Bool.noConfusion hres

/-- The text of the selected piece validator, when it accepts in commit mode,
names a square (even when extended) only if that square was empty. -/
theorem validatePiece_text (chk : ChessBoard → Bool → Bool × ChessBoard) (s : ChessBoard)
    (piece : Piece) (fromX fromY toX toY : Int) (hto : isValidTile toX toY = true)
    (s1 : ChessBoard)
    (hv : validatePiece chk s piece fromX fromY toX toY false = some (true, s1))
    (X : String) (x y : Int) (hx : 0 ≤ x ∧ x < 8) (hy : 0 ≤ y ∧ y < 8)
    (heq : s1.lastMove ++ X = toAlgebraic x y) : (s.board y x).isEmpty = true := by
  unfold validatePiece at hv
  split at hv
  · have h1 : _ = true := congrArg Prod.fst (Option.some.inj hv)
    have h2 : _ = s1 := congrArg Prod.snd (Option.some.inj hv)
    rw [← h2] at heq
    exact isValidPawnMove_text s fromX fromY toX toY piece.isWhite hto h1 X x y hx hy heq
  split at hv
  · have h1 : _ = true := congrArg Prod.fst (Option.some.inj hv)
    have h2 : _ = s1 := congrArg Prod.snd (Option.some.inj hv)
    obtain ⟨rest, hr⟩ := isValidRookMove_text s fromX fromY toX toY piece.isWhite h1
    rw [h2] at hr
    exact absurd heq (not_square_of_head _ X 'R' rest x y hx hy hr (by decide))
  split at hv
  · have h1 : _ = true := congrArg Prod.fst (Option.some.inj hv)
    have h2 : _ = s1 := congrArg Prod.snd (Option.some.inj hv)
    obtain ⟨rest, hr⟩ := isValidKnightMove_text s fromX fromY toX toY piece.isWhite h1
    rw [h2] at hr
    exact absurd heq (not_square_of_head _ X 'N' rest x y hx hy hr (by decide))
  split at hv
  · have h1 : _ = true := congrArg Prod.fst (Option.some.inj hv)
    have h2 : _ = s1 := congrArg Prod.snd (Option.some.inj hv)
    obtain ⟨rest, hr⟩ := isValidBishopMove_text s fromX fromY toX toY piece.isWhite h1
    rw [h2] at hr
    exact absurd heq (not_square_of_head _ X 'B' rest x y hx hy hr (by decide))
  split at hv
  · have h1 : _ = true := congrArg Prod.fst (Option.some.inj hv)
    have h2 : _ = s1 := congrArg Prod.snd (Option.some.inj hv)
    obtain ⟨rest, hr⟩ := isValidQueenMove_text s fromX fromY toX toY piece.isWhite h1
    rw [h2] at hr
    exact absurd heq (not_square_of_head _ X 'Q' rest x y hx hy hr (by decide))
  split at hv
  · have h1 : _ = true := congrArg Prod.fst (Option.some.inj hv)
    have h2 : _ = s1 := congrArg Prod.snd (Option.some.inj hv)
    obtain ⟨c, rest, hr, hc⟩ := isValidKingMoveWith_text chk s fromX fromY toX toY
      piece.isWhite h1
    rw [h2] at hr
    refine absurd heq (not_square_of_head _ X c rest x y hx hy hr ?_)
    rcases hc with hc | hc <;> rw [hc] <;> decide
  · exact absurd hv (by simp)

/-- The text that `movePiece` leaves in `lastMove` extends the text it found. -/
theorem movePiece_lastMove (t : ChessBoard) (fromX fromY toX toY : Int) (isCastling : Bool)
    (rookFromX rookToX : Int) :
    ∃ X, (movePiece t fromX fromY toX toY isCastling rookFromX rookToX).lastMove
      = t.lastMove ++ X := by
  obtain ⟨_, _, hs⟩ := movePieceSuffix_state
    (movePieceSquares t fromX fromY toX toY isCastling rookFromX rookToX) toX toY
  have hsq : (movePieceSquares t fromX fromY toX toY isCastling rookFromX rookToX).lastMove
      = t.lastMove
      ∨ (movePieceSquares t fromX fromY toX toY isCastling rookFromX rookToX).lastMove
        = t.lastMove ++ "=Q" := by
    unfold movePieceSquares movePiecePromotion
    dsimp only
    split
    · exact Or.inr (by
        show (movePieceFlags _ fromX fromY toX toY).lastMove ++ "=Q" = _
        rw [(movePieceFlags_frame _ fromX fromY toX toY).2])
    · exact Or.inl (movePieceFlags_frame _ fromX fromY toX toY).2
  unfold movePiece
  rcases hsq with h1 | h1 <;> rcases hs with h2 | h2 | h2
  · exact ⟨"", by rw [h2, h1, String.append_empty]⟩
  · exact ⟨"+", by rw [h2, h1]⟩
  · exact ⟨"#", by rw [h2, h1]⟩
  · exact ⟨"=Q", by rw [h2, h1]⟩
  · exact ⟨"=Q" ++ "+", by rw [h2, h1, String.append_assoc]⟩
  · exact ⟨"=Q" ++ "#", by rw [h2, h1, String.append_assoc]⟩

/-- An accepted call of `isValidMove` in commit mode, on a board where the king
of the other colour stands off the destination, leaves in `lastMove` the text of
the piece validator. -/
theorem isValidMove_accepted (s : ChessBoard) (fromX fromY toX toY : Int)
    (hacc : (isValidMove s fromX fromY toX toY).1 = true)
    (hking : ∃ ky ∈ coords, ∃ kx ∈ coords, ¬ (ky = toY ∧ kx = toX)
      ∧ s.board ky kx = ⟨'K', !(s.board fromY fromX).isWhite⟩) :
    isValidTile toX toY = true
      ∧ ∃ s1, validatePiece isKingInCheck
          { s with backupLastMove := s.lastMove, backupBoard := s.board }
          (s.board fromY fromX) fromX fromY toX toY false = some (true, s1)
        ∧ (isValidMove s fromX fromY toX toY).2.lastMove = s1.lastMove := by
  generalize hr : isValidMove s fromX fromY toX toY = r at hacc ⊢
  unfold isValidMove isValidMoveFull isValidMoveWith at hr
  dsimp only at hr
  split at hr
  · rw [← hr] at hacc
    exact Bool.noConfusion hacc
  split at hr
  · rw [← hr] at hacc
    exact Bool.noConfusion hacc
  rename_i htile
  have hto : isValidTile toX toY = true := by
    cases h : isValidTile toX toY
    · rw [h] at htile
      simp at htile
    · rfl
  split at hr
  · rw [← hr] at hacc
    exact Bool.noConfusion hacc
  rename_i valid s1 hv
  split at hr
  · rw [← hr] at hacc
    exact Bool.noConfusion hacc
  rename_i hvalid
  have hvt : valid = true := by
    cases valid
    · exact absurd rfl hvalid
    · rfl
  subst hvt
  refine ⟨hto, s1, hv, ?_⟩
  simp only [Bool.not_false, if_true] at hr
  rw [← hr] at hacc ⊢
  have hres : (isKingInCheck
      { s1 with
        board := ((s1.board.set toY toX (s.board fromY fromX)).set fromY fromX Piece.none) }
      (s.board fromY fromX).isWhite).1 = false := by
    simpa using hacc
  have hval := validatePiece_validated isKingInCheck isKingInCheck_keeps _ _ _ _ _ _ _ _ _ hv
  obtain ⟨ky, hky, kx, hkx, hne, hk⟩ := hking
  have hk1 : s1.board ky kx = ⟨'K', !(s.board fromY fromX).isWhite⟩ := by
    rcases hval.board with h | ⟨h, hp, _⟩
    · rw [h]; exact hk
    · rw [h, Grid.set_apply, if_neg, hk]
      rintro ⟨rfl, rfl⟩
      change (s.board ky kx).type = 'P' at hp
      rw [hk] at hp
      exact absurd hp (by simp)
  have hnf : ¬ (ky = fromY ∧ kx = fromX) := by
    rintro ⟨rfl, rfl⟩
    exact (by decide : ∀ b : Bool, b ≠ (!b)) _ (congrArg Piece.isWhite hk)
  have hsq : ((s1.board.set toY toX (s.board fromY fromX)).set fromY fromX Piece.none) ky kx
      = ⟨'K', !(s.board fromY fromX).isWhite⟩ := by
    rw [Grid.set_apply, if_neg hnf, Grid.set_apply, if_neg hne, hk1]
  exact isKingInCheck_backup _ _ hres ⟨ky, hky, kx, hkx,
    by show (Piece.isEmpty (Grid.set _ fromY fromX _ ky kx)) = false; rw [hsq]; rfl,
    by
      show (Piece.isWhite (Grid.set _ fromY fromX _ ky kx)) ≠ _
      rw [hsq]
      exact (by decide : ∀ b : Bool, (!b) ≠ b) _⟩

/-- A diagonal pawn move onto an empty square is rejected by `isValidPawnMove`,
and nothing is changed, whenever `lastMove` is not the name of the square beside
the mover on the file of the destination. -/
theorem isValidPawnMove_diagonal_rejected (s : ChessBoard) (fromX fromY toX toY : Int)
    (isWhite isDrawingMoves : Bool)
    (hdiag : (toX - fromX).natAbs = 1)
    (hempty : (s.board toY toX).isEmpty = true)
    (hlast : s.lastMove ≠ toAlgebraic toX fromY) :
    isValidPawnMove s fromX fromY toX toY isWhite isDrawingMoves = (false, s) := by
  have hx : ¬ toX = fromX := by
    intro h
    rw [h] at hdiag
    simp at hdiag
  unfold isValidPawnMove
  simp only [hx, false_and, if_false, hempty, Bool.true_eq_false, and_false, hlast]
  split_ifs <;> rfl

/-- C11: let a move be committed, through `isValidMove` and `movePiece` (with the
king of the side that did not move on the board, off the destination) or through
`isValidKingMove` and `movePiece`, from a state `s` in which the in-board square
`(toX, fromY)` is occupied: a pawn that stands there did not arrive by this
move.  Then, in the state reached, `isValidPawnMove` rejects every diagonal pawn
move from `(fromX, fromY)` onto the empty square `(toX, toY)`, and changes
nothing: a pawn on `(toX, fromY)` cannot be captured en passant once its arrival
is no longer the most recent committed move. -/
theorem C11_en_passant_window (s s2 : ChessBoard) (mx my nx ny : Int) (c : Bool)
    (fromX fromY toX toY : Int) (isWhite isDrawingMoves : Bool)
    (hcommit : (commitMove s mx my nx ny = some s2
        ∧ ∃ ky ∈ coords, ∃ kx ∈ coords, ¬ (ky = ny ∧ kx = nx)
          ∧ s.board ky kx = ⟨'K', !(s.board my mx).isWhite⟩)
      ∨ commitKingMove s mx my nx ny c = some s2)
    (hsquare : isValidTile toX fromY = true)
    (hpawn : (s.board fromY toX).isEmpty = false)
    (hdiag : (toX - fromX).natAbs = 1)
    (hempty : (s2.board toY toX).isEmpty = true) :
    isValidPawnMove s2 fromX fromY toX toY isWhite isDrawingMoves = (false, s2) := by
  obtain ⟨hx, hy⟩ := (isValidTile_iff toX fromY).1 hsquare
  refine isValidPawnMove_diagonal_rejected s2 fromX fromY toX toY isWhite isDrawingMoves hdiag
    hempty ?_
  intro hlast
  rcases hcommit with ⟨hcommit, hking⟩ | hcommit
  · unfold commitMove at hcommit
    dsimp only at hcommit
    split at hcommit
    · rename_i hacc
      obtain ⟨hto, s1, hv, hl⟩ := isValidMove_accepted s mx my nx ny hacc hking
      obtain ⟨X, hX⟩ := movePiece_lastMove (isValidMove s mx my nx ny).2 mx my nx ny false
        (-1) (-1)
      rw [← Option.some.inj hcommit, hX, hl] at hlast
      have := validatePiece_text isKingInCheck _ _ mx my nx ny hto s1 hv X toX fromY hx hy hlast
      rw [hpawn] at this
      exact Bool.noConfusion this
    · exact absurd hcommit (by simp)
  · unfold commitKingMove at hcommit
    dsimp only at hcommit
    split at hcommit
    · rename_i hacc
      obtain ⟨c1, rest, hr, hc1⟩ := isValidKingMoveWith_text isKingInCheck s mx my nx ny c hacc
      obtain ⟨X, hX⟩ := movePiece_lastMove (isValidKingMove s mx my nx ny c).2 mx my nx ny
        (isValidKingMove s mx my nx ny c).1.isCastling
        (isValidKingMove s mx my nx ny c).1.rookFromX
        (isValidKingMove s mx my nx ny c).1.rookToX
      rw [← Option.some.inj hcommit, hX] at hlast
      refine absurd hlast (not_square_of_head _ X c1 rest toX fromY hx hy hr ?_)
      rcases hc1 with hc1 | hc1 <;> rw [hc1] <;> decide
    · exact absurd hcommit (by simp)

set_option maxRecDepth 100000 in
/-- C11 in `windowGame`: right after 2... d5 the capture e5xd6 is accepted by
`isValidPawnMove`; after 3. h3 the move h7-h6 is committed from a state in which
the pawn already stands on d5, and in the state reached the same capture is
rejected. -/
theorem C11_en_passant_window_witness :
    (playMoves ChessBoard.new (windowGame.take 4)).map
        (fun s => (s.lastMove, s.board 3 3, (isValidPawnMove s 4 3 3 2 true false).1))
      = some ("d5", ⟨'P', false⟩, true)
    ∧ (commitMove ((playMoves ChessBoard.new (windowGame.take 5)).getD ChessBoard.new) 7 1 7 2
        = some ((commitMove ((playMoves ChessBoard.new (windowGame.take 5)).getD ChessBoard.new)
            7 1 7 2).getD ChessBoard.new)
      ∧ ((playMoves ChessBoard.new (windowGame.take 5)).getD ChessBoard.new).board 7 4
        = ⟨'K', !(((playMoves ChessBoard.new (windowGame.take 5)).getD ChessBoard.new).board
            1 7).isWhite⟩)
    ∧ (isValidTile 3 3 = true
      ∧ (((playMoves ChessBoard.new (windowGame.take 5)).getD ChessBoard.new).board 3 3).isEmpty
        = false
      ∧ ((3 : Int) - 4).natAbs = 1
      ∧ (((commitMove ((playMoves ChessBoard.new (windowGame.take 5)).getD ChessBoard.new)
          7 1 7 2).getD ChessBoard.new).board 2 3).isEmpty = true)
    ∧ isValidPawnMove
        ((commitMove ((playMoves ChessBoard.new (windowGame.take 5)).getD ChessBoard.new)
          7 1 7 2).getD ChessBoard.new) 4 3 3 2 true false
      = (false, (commitMove ((playMoves ChessBoard.new (windowGame.take 5)).getD ChessBoard.new)
          7 1 7 2).getD ChessBoard.new) := by
  have h : (playMoves ChessBoard.new (windowGame.take 4)).map
        (fun s => (s.lastMove, s.board 3 3, (isValidPawnMove s 4 3 3 2 true false).1))
      = some ("d5", ⟨'P', false⟩, true)
    ∧ ((commitMove ((playMoves ChessBoard.new (windowGame.take 5)).getD ChessBoard.new)
        7 1 7 2).isSome = true
      ∧ ((playMoves ChessBoard.new (windowGame.take 5)).getD ChessBoard.new).board 7 4
        = ⟨'K', !(((playMoves ChessBoard.new (windowGame.take 5)).getD ChessBoard.new).board
            1 7).isWhite⟩)
    ∧ (isValidTile 3 3 = true
      ∧ (((playMoves ChessBoard.new (windowGame.take 5)).getD ChessBoard.new).board 3 3).isEmpty
        = false
      ∧ ((3 : Int) - 4).natAbs = 1
      ∧ (((commitMove ((playMoves ChessBoard.new (windowGame.take 5)).getD ChessBoard.new)
          7 1 7 2).getD ChessBoard.new).board 2 3).isEmpty = true) := by
    decide!
  have hsome : ∀ o : Option ChessBoard, o.isSome = true → o = some (o.getD ChessBoard.new) := by
    intro o ho
    cases o
    · exact Bool.noConfusion ho
    · rfl
  have hc := hsome _ h.2.1.1
  exact ⟨h.1, ⟨hc, h.2.1.2⟩, h.2.2,
    C11_en_passant_window _ _ 7 1 7 2 true 4 3 3 2 true false
      (Or.inl ⟨hc, 7, by decide, 4, by decide, by decide, h.2.1.2⟩)
      h.2.2.1 h.2.2.2.1 h.2.2.2.2.1 h.2.2.2.2.2⟩

/-! ## Theorems: `isValidMove` is the piece validator and the king safety test -/

theorem isValidRookMove_result (s t : ChessBoard) (fromX fromY toX toY : Int) (isWhite : Bool)
    (h : s.board = t.board) :
    (isValidRookMove s fromX fromY toX toY isWhite).1
      = (isValidRookMove t fromX fromY toX toY isWhite).1 := by
  unfold isValidRookMove
  rw [h]
  split_ifs <;> rfl

theorem isValidKnightMove_result (s t : ChessBoard) (fromX fromY toX toY : Int)
    (isWhite : Bool) (h : s.board = t.board) :
    (isValidKnightMove s fromX fromY toX toY isWhite).1
      = (isValidKnightMove t fromX fromY toX toY isWhite).1 := by
  unfold isValidKnightMove
  rw [h]
  split_ifs <;> rfl

theorem isValidBishopMove_result (s t : ChessBoard) (fromX fromY toX toY : Int)
    (isWhite : Bool) (h : s.board = t.board) :
    (isValidBishopMove s fromX fromY toX toY isWhite).1
      = (isValidBishopMove t fromX fromY toX toY isWhite).1 := by
  unfold isValidBishopMove
  rw [h]
  split_ifs <;> rfl

theorem isValidQueenMove_result (s t : ChessBoard) (fromX fromY toX toY : Int)
    (isWhite : Bool) (h : s.board = t.board) :
    (isValidQueenMove s fromX fromY toX toY isWhite).1
      = (isValidQueenMove t fromX fromY toX toY isWhite).1 := by
  unfold isValidQueenMove
  rw [h]
  split_ifs <;> rfl

/-- The answer of the pawn validator depends on the grid and on `lastMove`. -/
theorem isValidPawnMove_result (s t : ChessBoard) (fromX fromY toX toY : Int)
    (isWhite d1 d2 : Bool) (h : s.board = t.board) (hl : s.lastMove = t.lastMove) :
    (isValidPawnMove s fromX fromY toX toY isWhite d1).1
      = (isValidPawnMove t fromX fromY toX toY isWhite d2).1 := by
  unfold isValidPawnMove
  rw [h, hl]
  dsimp only
  split_ifs <;> rfl

/-- With an occupied destination the answer of the pawn validator depends on the
grid only. -/
theorem isValidPawnMove_result_occupied (s t : ChessBoard) (fromX fromY toX toY : Int)
    (isWhite d1 d2 : Bool) (h : s.board = t.board)
    (hd : (s.board toY toX).isEmpty = false) :
    (isValidPawnMove s fromX fromY toX toY isWhite d1).1
      = (isValidPawnMove t fromX fromY toX toY isWhite d2).1 := by
  have hd2 : (t.board toY toX).isEmpty = false := by rw [← h]; exact hd
  unfold isValidPawnMove
  simp only [hd, hd2, Bool.false_eq_true, and_false, if_false]
  rw [h]
  split_ifs <;> rfl

theorem kingCastle_result (s t : ChessBoard) (fromX fromY toX : Int) (isWhite : Bool)
    (h : SameView s t) :
    (kingCastle s fromX fromY toX isWhite).1 = (kingCastle t fromX fromY toX isWhite).1 := by
  by_cases hgt : toX > fromX
  · rw [kingCastle_short s fromX fromY toX isWhite hgt,
      kingCastle_short t fromX fromY toX isWhite hgt, h.board, h.whiteKing, h.blackKing,
      h.whiteRook, h.blackRook]
  · rw [kingCastle_long s fromX fromY toX isWhite hgt,
      kingCastle_long t fromX fromY toX isWhite hgt, h.board, h.whiteKing, h.blackKing,
      h.whiteRook, h.blackRook]

theorem kingStep_result (chk : ChessBoard → Bool → Bool × ChessBoard) (hc : Congruent chk)
    (s t : ChessBoard) (fromX fromY toX toY : Int) (isWhite : Bool) (h : SameView s t) :
    (kingStep chk s fromX fromY toX toY isWhite).1
      = (kingStep chk t fromX fromY toX toY isWhite).1 := by
  have hsim : (chk (simulated s fromX fromY toX toY) isWhite).1
      = (chk (simulated t fromX fromY toX toY) isWhite).1 :=
    hc _ _ isWhite ⟨by unfold simulated; rw [h.board], h.whiteKing, h.blackKing, h.whiteRook,
      h.blackRook⟩
  unfold simulated at hsim
  unfold kingStep
  dsimp only
  rw [hsim, h.board]
  split_ifs <;> rfl

theorem isValidKingMoveWith_result (chk : ChessBoard → Bool → Bool × ChessBoard)
    (hc : Congruent chk) (s t : ChessBoard) (fromX fromY toX toY : Int) (isWhite : Bool)
    (h : SameView s t) :
    (isValidKingMoveWith chk s fromX fromY toX toY isWhite).1
      = (isValidKingMoveWith chk t fromX fromY toX toY isWhite).1 := by
  unfold isValidKingMoveWith
  dsimp only
  split
  · exact kingStep_result chk hc s t fromX fromY toX toY isWhite h
  split
  · exact kingCastle_result s t fromX fromY toX isWhite h
  · rfl

/-- With an occupied destination the answer of the selected piece validator
depends on the grid and the castling flags only. -/
theorem validatePiece_result (chk : ChessBoard → Bool → Bool × ChessBoard)
    (hc : Congruent chk) (s t : ChessBoard) (piece : Piece) (fromX fromY toX toY : Int)
    (d1 d2 : Bool) (h : SameView s t) (hd : (s.board toY toX).isEmpty = false) :
    ((validatePiece chk s piece fromX fromY toX toY d1).map Prod.fst).getD false
      = ((validatePiece chk t piece fromX fromY toX toY d2).map Prod.fst).getD false := by
  unfold validatePiece
  split
  · exact isValidPawnMove_result_occupied s t fromX fromY toX toY piece.isWhite d1 d2 h.board hd
  split
  · exact isValidRookMove_result s t fromX fromY toX toY piece.isWhite h.board
  split
  · exact isValidKnightMove_result s t fromX fromY toX toY piece.isWhite h.board
  split
  · exact isValidBishopMove_result s t fromX fromY toX toY piece.isWhite h.board
  split
  · exact isValidQueenMove_result s t fromX fromY toX toY piece.isWhite h.board
  split
  · exact congrArg KingMove.valid
      (isValidKingMoveWith_result chk hc s t fromX fromY toX toY piece.isWhite h)
  · rfl

/-- The answer of `isValidMove` when the king safety check is skipped. -/
theorem isValidMoveWith_skip_fst (chk : ChessBoard → Bool → Bool × ChessBoard)
    (s : ChessBoard) (fromX fromY toX toY : Int) (inSimulation isDrawingMoves : Bool) :
    (isValidMoveWith chk s fromX fromY toX toY inSimulation true isDrawingMoves).1
      = if (s.board fromY fromX).isEmpty = true then false
        else if (!isValidTile fromX fromY || !isValidTile toX toY) = true then false
        else ((validatePiece chk { s with backupLastMove := s.lastMove, backupBoard := s.board }
          (s.board fromY fromX) fromX fromY toX toY isDrawingMoves).map Prod.fst).getD false := by
  unfold isValidMoveWith
  dsimp only
  split
  · rfl
  split
  · rfl
  split
  · rename_i h
    rw [h]
    rfl
  · rename_i valid t h
    rw [h]
    cases valid <;> rfl

theorem isValidMoveWith_attack_result (chk : ChessBoard → Bool → Bool × ChessBoard)
    (hc : Congruent chk) (s t : ChessBoard) (fromX fromY toX toY : Int)
    (inSimulation isDrawingMoves : Bool) (h : SameView s t)
    (hd : (s.board toY toX).isEmpty = false) :
    (isValidMoveWith chk s fromX fromY toX toY inSimulation true isDrawingMoves).1
      = (isValidMoveWith chk t fromX fromY toX toY inSimulation true isDrawingMoves).1 := by
  rw [isValidMoveWith_skip_fst, isValidMoveWith_skip_fst, ← h.board]
  rw [validatePiece_result chk hc
    { s with backupLastMove := s.lastMove, backupBoard := s.board }
    { t with backupLastMove := t.lastMove, backupBoard := t.board }
    (s.board fromY fromX) fromX fromY toX toY isDrawingMoves isDrawingMoves
    ⟨h.board, h.whiteKing, h.blackKing, h.whiteRook, h.blackRook⟩ hd]
  simp only [h.board]

theorem SameView.of_unchanged {s t s1 t1 : ChessBoard} (h : SameView s t)
    (hs : Unchanged s s1) (ht : Unchanged t t1) : SameView s1 t1 :=
  ⟨hs.board.trans (h.board.trans ht.board.symm),
    hs.whiteKing.trans (h.whiteKing.trans ht.whiteKing.symm),
    hs.blackKing.trans (h.blackKing.trans ht.blackKing.symm),
    hs.whiteRook.trans (h.whiteRook.trans ht.whiteRook.symm),
    hs.blackRook.trans (h.blackRook.trans ht.blackRook.symm)⟩

/-- The attacker scan of one row gives the same answer on two objects with the
same grid and castling flags, and leaves them so. -/
theorem attackScanRow_congr (chk : ChessBoard → Bool → Bool × ChessBoard) (hk : Keeps chk)
    (hc : Congruent chk) (kingX kingY : Int) (isWhite : Bool) (y : Int) :
    ∀ (xs : List Int) (s t : ChessBoard), SameView s t →
      (s.board kingY kingX).isEmpty = false →
      (attackScanRow chk kingX kingY isWhite y xs s).1
          = (attackScanRow chk kingX kingY isWhite y xs t).1
        ∧ SameView (attackScanRow chk kingX kingY isWhite y xs s).2
          (attackScanRow chk kingX kingY isWhite y xs t).2
        ∧ (attackScanRow chk kingX kingY isWhite y xs s).2.board = s.board
  | [], _, _, h, _ => ⟨rfl, h, rfl⟩
  | x :: xs, s, t, h, hd => by
    have hbx : t.board y x = s.board y x := by rw [h.board]
    have hdt : (t.board kingY kingX).isEmpty = false := by rw [← h.board]; exact hd
    rw [attackScanRow, attackScanRow, hbx]
    by_cases he : (s.board y x).isEmpty = true
    · rw [if_pos he, if_pos he]
      exact attackScanRow_congr chk hk hc kingX kingY isWhite y xs s t h hd
    · rw [if_neg he, if_neg he]
      by_cases hen : (!(s.board y x).isEmpty && (s.board y x).isWhite != isWhite) = true
      · rw [if_pos hen, if_pos hen]
        dsimp only
        have h1 := isValidMoveWith_attack_result chk hc s t x y kingX kingY true false h hd
        have hus := (isValidMoveWith_attack chk hk s x y kingX kingY true false hd).1
        have hut := (isValidMoveWith_attack chk hk t x y kingX kingY true false hdt).1
        have hv := h.of_unchanged hus hut
        rw [← h1]
        by_cases hr : (isValidMoveWith chk s x y kingX kingY true true false).1 = true
        · rw [if_pos hr, if_pos hr]
          exact ⟨rfl, hv, hus.board⟩
        · rw [if_neg hr, if_neg hr]
          obtain ⟨g1, g2, g3⟩ := attackScanRow_congr chk hk hc kingX kingY isWhite y xs _ _ hv
            (by rw [hus.board]; exact hd)
          exact ⟨g1, g2, g3.trans hus.board⟩
      · rw [if_neg hen, if_neg hen]
        exact attackScanRow_congr chk hk hc kingX kingY isWhite y xs s t h hd

theorem foldl_rel {α β : Type} (R : α → α → Prop) (f : α → β → α)
    (h : ∀ a b x, R a b → R (f a x) (f b x)) :
    ∀ (l : List β) (a b : α), R a b → R (l.foldl f a) (l.foldl f b)
  | [], _, _, hab => hab
  | x :: xs, a, b, hab => foldl_rel R f h xs (f a x) (f b x) (h a b x hab)

theorem isKingInCheckBody_congr (chk : ChessBoard → Bool → Bool × ChessBoard)
    (hk : Keeps chk) (hc : Congruent chk) : Congruent (isKingInCheckBody chk) := by
  intro s t c h
  have hf : findKing t.board c = findKing s.board c := by rw [h.board]
  unfold isKingInCheckBody
  dsimp only
  rw [hf]
  by_cases hking : (findKing s.board c).1 = -1 ∨ (findKing s.board c).2 = -1
  · rw [if_pos hking, if_pos hking]
  · rw [if_neg hking, if_neg hking]
    have hd := findKing_occupied s.board c hking
    have hrel := foldl_rel
      (fun (a b : Bool × ChessBoard) => a.1 = b.1 ∧ SameView a.2 b.2
        ∧ (a.2.board (findKing s.board c).2 (findKing s.board c).1).isEmpty = false)
      (fun (acc : Bool × ChessBoard) y =>
        ((acc.1 || (attackScanRow chk (findKing s.board c).1 (findKing s.board c).2 c y
            coords acc.2).1),
          (attackScanRow chk (findKing s.board c).1 (findKing s.board c).2 c y
            coords acc.2).2))
      (by
        intro a b y hab
        obtain ⟨g1, g2, g3⟩ := attackScanRow_congr chk hk hc (findKing s.board c).1
          (findKing s.board c).2 c y coords a.2 b.2 hab.2.1 hab.2.2
        refine ⟨?_, g2, ?_⟩
        · show (a.1 || _) = (b.1 || _)
          rw [hab.1, g1]
        · show ((attackScanRow chk _ _ c y coords a.2).2.board _ _).isEmpty = false
          rw [g3]
          exact hab.2.2)
      coords (false, { s with backupBoard := s.board }) (false, { t with backupBoard := t.board })
      ⟨rfl, ⟨h.board, h.whiteKing, h.blackKing, h.whiteRook, h.blackRook⟩, hd⟩
    dsimp only
    exact hrel.1

theorem isKingInCheckFuel_congr : ∀ fuel : Nat, Congruent (isKingInCheckFuel fuel)
  | 0 => fun _ _ _ _ => rfl
  | fuel + 1 =>
    isKingInCheckBody_congr _ (isKingInCheckFuel_keeps fuel) (isKingInCheckFuel_congr fuel)

/-- The answer of `isKingInCheck` depends on the grid and the castling flags
only. -/
theorem isKingInCheck_congr : Congruent isKingInCheck :=
  fun s t c h => isKingInCheckFuel_congr 65 s t c h

/-- The answer of the selected piece validator depends on the grid, the castling
flags and `lastMove` only. -/
theorem validatePiece_result_full (chk : ChessBoard → Bool → Bool × ChessBoard)
    (hc : Congruent chk) (s t : ChessBoard) (piece : Piece) (fromX fromY toX toY : Int)
    (d : Bool) (h : SameView s t) (hl : s.lastMove = t.lastMove) :
    ((validatePiece chk s piece fromX fromY toX toY d).map Prod.fst).getD false
      = ((validatePiece chk t piece fromX fromY toX toY d).map Prod.fst).getD false := by
  unfold validatePiece
  split
  · exact isValidPawnMove_result s t fromX fromY toX toY piece.isWhite d d h.board hl
  split
  · exact isValidRookMove_result s t fromX fromY toX toY piece.isWhite h.board
  split
  · exact isValidKnightMove_result s t fromX fromY toX toY piece.isWhite h.board
  split
  · exact isValidBishopMove_result s t fromX fromY toX toY piece.isWhite h.board
  split
  · exact isValidQueenMove_result s t fromX fromY toX toY piece.isWhite h.board
  split
  · exact congrArg KingMove.valid
      (isValidKingMoveWith_result chk hc s t fromX fromY toX toY piece.isWhite h)
  · rfl

/-- The grid left by the pawn validator in commit mode when it accepts: the pawn
beside the mover is removed exactly when the move is diagonal onto an empty
square. -/
theorem isValidPawnMove_board (s : ChessBoard) (fromX fromY toX toY : Int) (isWhite : Bool)
    (h : (isValidPawnMove s fromX fromY toX toY isWhite false).1 = true) :
    (isValidPawnMove s fromX fromY toX toY isWhite false).2.board
      = if toX ≠ fromX ∧ (s.board toY toX).isEmpty = true then
          s.board.set fromY toX Piece.none
        else s.board := by
  unfold isValidPawnMove at h ⊢
  simp only [Bool.not_false, if_true] at h ⊢
  by_cases hx : toX = fromX
  · subst hx
    have hn : ¬ (toX - toX).natAbs = 1 := by simp
    simp only [hn, ne_eq, not_true_eq_false, false_and, if_false, true_and] at h ⊢
    split_ifs at h ⊢ <;> rfl
  · by_cases he : (s.board toY toX).isEmpty = true
    · simp only [hx, he, ne_eq, not_false_eq_true, false_and, if_false, true_and, and_true,
        Bool.true_eq_false, and_false, and_self, if_true] at h ⊢
      split_ifs at h ⊢ <;> rfl
    · simp only [hx, he, ne_eq, not_false_eq_true, false_and, if_false, true_and, and_true,
        Bool.true_eq_false, and_false, and_self, if_true] at h ⊢
      split_ifs at h ⊢ <;> first | rfl | contradiction | simp_all

/-- The answer of `isValidMove` with the king safety check, from the answer and
the state of the piece validator. -/
theorem isValidMoveWith_fst (chk : ChessBoard → Bool → Bool × ChessBoard)
    (s : ChessBoard) (fromX fromY toX toY : Int) (inSimulation isDrawingMoves : Bool)
    (hp : (s.board fromY fromX).isEmpty = false)
    (hfrom : isValidTile fromX fromY = true) (hto : isValidTile toX toY = true)
    (v : Bool) (s1 : ChessBoard)
    (hv : validatePiece chk { s with backupLastMove := s.lastMove, backupBoard := s.board }
      (s.board fromY fromX) fromX fromY toX toY isDrawingMoves = some (v, s1)) :
    (isValidMoveWith chk s fromX fromY toX toY inSimulation false isDrawingMoves).1
      = (v && !(chk
          { s1 with
            board := ((s1.board.set toY toX (s.board fromY fromX)).set fromY fromX Piece.none) }
          (s.board fromY fromX).isWhite).1) := by
  unfold isValidMoveWith
  dsimp only
  rw [if_neg (by rw [hp]; exact Bool.false_ne_true),
    if_neg (by rw [hfrom, hto]; exact Bool.false_ne_true), hv]
  cases v
  · rfl
  · simp only [Bool.not_true, Bool.false_eq_true, if_false, Bool.not_false, if_true,
      Bool.true_and]

/-- The rook, knight, bishop and queen validators leave the grid as it is. -/
theorem validatePiece_board (chk : ChessBoard → Bool → Bool × ChessBoard) (s : ChessBoard)
    (piece : Piece) (fromX fromY toX toY : Int) (d : Bool)
    (hkind : piece.type = 'R' ∨ piece.type = 'N' ∨ piece.type = 'B' ∨ piece.type = 'Q')
    (v : Bool) (s1 : ChessBoard)
    (hv : validatePiece chk s piece fromX fromY toX toY d = some (v, s1)) :
    s1.board = s.board := by
  unfold validatePiece at hv
  rcases hkind with h | h | h | h
  · obtain ⟨l, hl⟩ := isValidRookMove_state s fromX fromY toX toY piece.isWhite
    simp only [h, Char.reduceEq, if_false, if_true, Option.some.injEq] at hv
    rw [hv] at hl
    have hl2 : s1 = { s with lastMove := l } := hl
    rw [hl2]
  · obtain ⟨l, hl⟩ := isValidKnightMove_state s fromX fromY toX toY piece.isWhite
    simp only [h, Char.reduceEq, if_false, if_true, Option.some.injEq] at hv
    rw [hv] at hl
    have hl2 : s1 = { s with lastMove := l } := hl
    rw [hl2]
  · obtain ⟨l, hl⟩ := isValidBishopMove_state s fromX fromY toX toY piece.isWhite
    simp only [h, Char.reduceEq, if_false, if_true, Option.some.injEq] at hv
    rw [hv] at hl
    have hl2 : s1 = { s with lastMove := l } := hl
    rw [hl2]
  · obtain ⟨l, hl⟩ := isValidQueenMove_state s fromX fromY toX toY piece.isWhite
    simp only [h, Char.reduceEq, if_false, if_true, Option.some.injEq] at hv
    rw [hv] at hl
    have hl2 : s1 = { s with lastMove := l } := hl
    rw [hl2]

/-- For a pawn, rook, knight, bishop or queen on an in-board square and an
in-board destination, `isValidMove` returns true exactly when the validator of
the piece accepts the move and `isKingInCheck` for the mover's colour is false on
the board obtained by applying the move (`boardAfter`: the piece on the
destination, the origin empty, and the passed pawn removed in an en passant
capture). -/
theorem isValidMove_iff_validator (s : ChessBoard) (fromX fromY toX toY : Int)
    (hfrom : isValidTile fromX fromY = true) (hto : isValidTile toX toY = true)
    (hkind : (s.board fromY fromX).type = 'P' ∨ (s.board fromY fromX).type = 'R'
      ∨ (s.board fromY fromX).type = 'N' ∨ (s.board fromY fromX).type = 'B'
      ∨ (s.board fromY fromX).type = 'Q') :
    (isValidMove s fromX fromY toX toY).1 = true
      ↔ validatorAccepts s fromX fromY toX toY = true
        ∧ (isKingInCheck { s with board := boardAfter s.board fromX fromY toX toY }
            (s.board fromY fromX).isWhite).1 = false := by
  have hp : (s.board fromY fromX).isEmpty = false := by
    unfold Piece.isEmpty
    rcases hkind with h | h | h | h | h <;> rw [h] <;> decide
  -- the validator's answer and state on the object prepared by `isValidMove`
  obtain ⟨v, s1, hv⟩ : ∃ v s1, validatePiece isKingInCheck
      { s with backupLastMove := s.lastMove, backupBoard := s.board }
      (s.board fromY fromX) fromX fromY toX toY false = some (v, s1) := by
    cases hvp : validatePiece isKingInCheck
      { s with backupLastMove := s.lastMove, backupBoard := s.board }
      (s.board fromY fromX) fromX fromY toX toY false with
    | none =>
      exfalso
      unfold validatePiece at hvp
      rcases hkind with h | h | h | h | h <;> simp [h] at hvp
    | some r => exact ⟨r.1, r.2, rfl⟩
  have hacc : validatorAccepts s fromX fromY toX toY = v := by
    have h1 := validatePiece_result_full isKingInCheck isKingInCheck_congr s
      { s with backupLastMove := s.lastMove, backupBoard := s.board }
      (s.board fromY fromX) fromX fromY toX toY false ⟨rfl, rfl, rfl, rfl, rfl⟩ rfl
    rw [hv] at h1
    unfold validatorAccepts
    cases hvp : validatePiece isKingInCheck s (s.board fromY fromX) fromX fromY toX toY false
    · rw [hvp] at h1
      exact h1
    · rw [hvp] at h1
      exact h1
  have hval := validatePiece_validated isKingInCheck isKingInCheck_keeps _ _ _ _ _ _ _ _ _ hv
  unfold isValidMove isValidMoveFull
  rw [isValidMoveWith_fst isKingInCheck s fromX fromY toX toY false false hp hfrom hto v s1 hv,
    hacc]
  cases v
  · simp
  · -- the board on which the king safety is tested is the board after the move
    have hboard : (s1.board.set toY toX (s.board fromY fromX)).set fromY fromX Piece.none
        = boardAfter s.board fromX fromY toX toY := by
      unfold boardAfter
      dsimp only
      by_cases hpawn : (s.board fromY fromX).type = 'P'
      · have hs1 : s1 = (isValidPawnMove
            { s with backupLastMove := s.lastMove, backupBoard := s.board }
            fromX fromY toX toY (s.board fromY fromX).isWhite false).2 := by
          unfold validatePiece at hv
          rw [if_pos hpawn] at hv
          exact (congrArg Prod.snd (Option.some.inj hv)).symm
        have hv1 : (isValidPawnMove
            { s with backupLastMove := s.lastMove, backupBoard := s.board }
            fromX fromY toX toY (s.board fromY fromX).isWhite false).1 = true := by
          unfold validatePiece at hv
          rw [if_pos hpawn] at hv
          exact congrArg Prod.fst (Option.some.inj hv)
        rw [hs1, isValidPawnMove_board _ _ _ _ _ _ hv1]
        simp only [hpawn, true_and]
      · have hb : s1.board = s.board :=
          validatePiece_board isKingInCheck
            { s with backupLastMove := s.lastMove, backupBoard := s.board }
            (s.board fromY fromX) fromX fromY toX toY false
            (hkind.resolve_left hpawn) true s1 hv
        rw [hb]
        simp only [hpawn, false_and, if_false]
    have hsame : SameView
        { s1 with
          board := ((s1.board.set toY toX (s.board fromY fromX)).set fromY fromX Piece.none) }
        { s with board := boardAfter s.board fromX fromY toX toY } :=
      ⟨hboard, hval.whiteKing, hval.blackKing, hval.whiteRook, hval.blackRook⟩
    rw [isKingInCheck_congr _ _ _ hsame]
    simp

/-! ## Theorems: the validators of queen, rook, bishop, knight and pawn, and the path test -/

/-- C24: the queen validator accepts exactly when the rook validator or the
bishop validator accepts on the same board, squares and colour; the rook
validator accepts exactly on a common file or rank with a clear path and a
destination that does not hold a piece of the mover's colour, the bishop
validator exactly on a diagonal under the same two conditions. -/
theorem C24_queen_is_rook_or_bishop (s : ChessBoard) (fromX fromY toX toY : Int)
    (isWhite : Bool) :
    (isValidQueenMove s fromX fromY toX toY isWhite).1
        = ((isValidRookMove s fromX fromY toX toY isWhite).1
          || (isValidBishopMove s fromX fromY toX toY isWhite).1)
      ∧ ((isValidRookMove s fromX fromY toX toY isWhite).1 = true ↔
          (fromX = toX ∨ fromY = toY) ∧ isPathClear s.board fromX fromY toX toY = true
            ∧ isSameColor (s.board fromY fromX) (s.board toY toX) = false)
      ∧ ((isValidBishopMove s fromX fromY toX toY isWhite).1 = true ↔
          (fromX - toX).natAbs = (fromY - toY).natAbs
            ∧ isPathClear s.board fromX fromY toX toY = true
            ∧ isSameColor (s.board fromY fromX) (s.board toY toX) = false) := by
  unfold isValidQueenMove isValidRookMove isValidBishopMove
  cases hp : isPathClear s.board fromX fromY toX toY <;>
    cases hc : isSameColor (s.board fromY fromX) (s.board toY toX) <;>
    simp only [Bool.not_true, Bool.not_false, if_true, if_false, Bool.false_eq_true] <;>
    split_ifs <;> simp_all <;> omega

/-- C26: for a pawn of colour `isWhite` standing on the origin, with forward
direction `d` (`-1` for White, `+1` for Black), and a `lastMove` that does not
name the square beside the pawn on the destination file (no en passant), the
pawn validator accepts exactly (a) a single step onto an empty square, (b) a
double step from the start row over two empty squares, or (c) a diagonal step
onto a piece of the other colour. -/
theorem C26_pawn_move_iff (s : ChessBoard) (fromX fromY toX toY : Int)
    (isWhite isDrawingMoves : Bool)
    (hcolour : (s.board fromY fromX).isWhite = isWhite)
    (hlast : s.lastMove ≠ toAlgebraic toX fromY) :
    (isValidPawnMove s fromX fromY toX toY isWhite isDrawingMoves).1 = true ↔
      (toX = fromX ∧ toY = fromY + (if isWhite then -1 else 1)
          ∧ (s.board toY toX).isEmpty = true)
      ∨ (toX = fromX ∧ toY = fromY + 2 * (if isWhite then -1 else 1)
          ∧ fromY = (if isWhite then 6 else 1)
          ∧ (s.board toY toX).isEmpty = true
          ∧ (s.board (fromY + (if isWhite then -1 else 1)) toX).isEmpty = true)
      ∨ ((toX - fromX).natAbs = 1 ∧ toY = fromY + (if isWhite then -1 else 1)
          ∧ (s.board toY toX).isEmpty = false
          ∧ (s.board toY toX).isWhite ≠ isWhite) := by
  unfold isValidPawnMove
  dsimp only
  have hsame : isSameColor (s.board fromY fromX) (s.board toY toX) = false ↔
      ((s.board toY toX).isEmpty = true ∨ (s.board toY toX).isWhite ≠ isWhite) := by
    unfold isSameColor
    rw [hcolour]
    cases (s.board toY toX).isEmpty <;> cases (s.board toY toX).isWhite <;>
      cases isWhite <;> simp
  by_cases ha : toX = fromX ∧ toY = fromY + (if isWhite then -1 else 1)
      ∧ (s.board toY toX).isEmpty = true
  · rw [if_pos ha]; exact ⟨fun _ => Or.inl ha, fun _ => rfl⟩
  rw [if_neg ha]
  by_cases hb : toX = fromX ∧ toY = fromY + 2 * (if isWhite then -1 else 1)
      ∧ fromY = (if isWhite then 6 else 1) ∧ (s.board toY toX).isEmpty = true
      ∧ (s.board (fromY + (if isWhite then -1 else 1)) toX).isEmpty = true
  · rw [if_pos hb]; exact ⟨fun _ => Or.inr (Or.inl hb), fun _ => rfl⟩
  rw [if_neg hb]
  by_cases hc : (toX - fromX).natAbs = 1 ∧ toY = fromY + (if isWhite then -1 else 1)
      ∧ (s.board toY toX).isEmpty = false
      ∧ isSameColor (s.board fromY fromX) (s.board toY toX) = false
  · rw [if_pos hc]
    refine ⟨fun _ => Or.inr (Or.inr ⟨hc.1, hc.2.1, hc.2.2.1, ?_⟩), fun _ => rfl⟩
    rcases hsame.1 hc.2.2.2 with h | h
    · rw [hc.2.2.1] at h; exact absurd h Bool.false_ne_true
    · exact h
  rw [if_neg hc]
  have hno : ¬ ((toX = fromX ∧ toY = fromY + (if isWhite then -1 else 1)
          ∧ (s.board toY toX).isEmpty = true)
      ∨ (toX = fromX ∧ toY = fromY + 2 * (if isWhite then -1 else 1)
          ∧ fromY = (if isWhite then 6 else 1)
          ∧ (s.board toY toX).isEmpty = true
          ∧ (s.board (fromY + (if isWhite then -1 else 1)) toX).isEmpty = true)
      ∨ ((toX - fromX).natAbs = 1 ∧ toY = fromY + (if isWhite then -1 else 1)
          ∧ (s.board toY toX).isEmpty = false
          ∧ (s.board toY toX).isWhite ≠ isWhite)) := by
    rintro (h | h | h)
    · exact ha h
    · exact hb h
    · exact hc ⟨h.1, h.2.1, h.2.2.1, hsame.2 (Or.inr h.2.2.2)⟩
  have hfalse : ∀ p : Bool × ChessBoard, p.1 = false → (p.1 = true ↔ _) :=
    fun p hp => ⟨fun h => absurd (hp ▸ h) Bool.false_ne_true, fun h => absurd h hno⟩
  apply hfalse
  by_cases hd : (toX - fromX).natAbs = 1 ∧ toY = fromY + (if isWhite then -1 else 1)
      ∧ (s.board toY toX).isEmpty = true
  · rw [if_pos hd, if_neg (fun h => hlast h.1)]
  · rw [if_neg hd]

set_option maxRecDepth 100000 in
/-- C26 at the initial position: the white pawn e2 may advance to e3. -/
theorem C26_pawn_move_iff_witness :
    (isValidPawnMove (resetBoard ChessBoard.new) 4 6 4 5 true false).1 = true ↔
      ((4 : Int) = 4 ∧ (5 : Int) = 6 + (if true = true then -1 else 1)
          ∧ ((resetBoard ChessBoard.new).board 5 4).isEmpty = true)
      ∨ ((4 : Int) = 4 ∧ (5 : Int) = 6 + 2 * (if true = true then -1 else 1)
          ∧ (6 : Int) = (if true = true then 6 else 1)
          ∧ ((resetBoard ChessBoard.new).board 5 4).isEmpty = true
          ∧ ((resetBoard ChessBoard.new).board (6 + (if true = true then -1 else 1)) 4).isEmpty
              = true)
      ∨ (((4 : Int) - 4).natAbs = 1 ∧ (5 : Int) = 6 + (if true = true then -1 else 1)
          ∧ ((resetBoard ChessBoard.new).board 5 4).isEmpty = false
          ∧ ((resetBoard ChessBoard.new).board 5 4).isWhite ≠ true) :=
  C26_pawn_move_iff (resetBoard ChessBoard.new) 4 6 4 5 true false (by decide!) (by decide!)

/-- The loop of `isPathClear` started `j` steps from the origin towards a target
`n` steps away ends within `n - j + 1` tests, and answers whether the squares
`j, …, n - 1` steps away are all empty. -/
theorem isPathClearLoop_spec (b : Grid) (fromX fromY dx dy : Int) (n : Nat)
    (hd : dx ≠ 0 ∨ dy ≠ 0) :
    ∀ (m fuel j : Nat), j + m = n → m < fuel →
      ∃ r, isPathClearLoop b (fromX + n * dx) (fromY + n * dy) dx dy fuel
            (fromX + j * dx) (fromY + j * dy) = some r
        ∧ (r = true ↔ ∀ i : Nat, j ≤ i → i < n →
            (b (fromY + i * dy) (fromX + i * dx)).isEmpty = true) := by
  intro m
  induction m with
  | zero =>
    intro fuel j hj hf
    obtain ⟨f, rfl⟩ : ∃ f, fuel = f + 1 := ⟨fuel - 1, by omega⟩
    have : j = n := by omega
    subst this
    refine ⟨true, ?_, ?_⟩
    · unfold isPathClearLoop
      rw [if_neg (by simp)]
    · exact ⟨fun _ i h1 h2 => absurd h1 (by omega), fun _ => rfl⟩
  | succ m ih =>
    intro fuel j hj hf
    obtain ⟨f, rfl⟩ : ∃ f, fuel = f + 1 := ⟨fuel - 1, by omega⟩
    have hne : fromX + (j : Int) * dx ≠ fromX + (n : Int) * dx
        ∨ fromY + (j : Int) * dy ≠ fromY + (n : Int) * dy := by
      have hjn : (j : Int) ≠ (n : Int) := by omega
      rcases hd with h | h
      · left
        intro e
        have e2 : (j : Int) * dx = (n : Int) * dx := by linarith
        exact hjn (mul_right_cancel₀ h e2)
      · right
        intro e
        have e2 : (j : Int) * dy = (n : Int) * dy := by linarith
        exact hjn (mul_right_cancel₀ h e2)
    unfold isPathClearLoop
    rw [if_pos hne]
    cases he : (b (fromY + (j : Int) * dy) (fromX + (j : Int) * dx)).isEmpty
    · refine ⟨false, by simp, ?_⟩
      constructor
      · intro h; exact absurd h Bool.false_ne_true
      · intro h
        have := h j (Nat.le_refl j) (by omega)
        rw [he] at this
        exact absurd this Bool.false_ne_true
    · have e1 : fromX + (j : Int) * dx + dx = fromX + ((j + 1 : Nat) : Int) * dx := by
        push_cast; ring
      have e2 : fromY + (j : Int) * dy + dy = fromY + ((j + 1 : Nat) : Int) * dy := by
        push_cast; ring
      obtain ⟨r, hr, hiff⟩ := ih f (j + 1) (by omega) (by omega)
      refine ⟨r, ?_, ?_⟩
      · simp only [Bool.not_true, Bool.false_eq_true, if_false]
        rw [e1, e2]
        exact hr
      · rw [hiff]
        constructor
        · intro h i h1 h2
          rcases Nat.eq_or_lt_of_le h1 with h3 | h3
          · subst h3; exact he
          · exact h i h3 h2
        · intro h i h1 h2
          exact h i (by omega) h2

/-- For two in-board squares on a common rank, file or diagonal the loop
of `isPathClear` ends within eight tests, and the answer is `true` exactly
when every square strictly between the two is empty; hence two grids that
agree strictly between the two squares get the same answer. -/
theorem isPathClear_spec (b : Grid) (fromX fromY toX toY : Int)
    (hfrom : isValidTile fromX fromY = true) (hto : isValidTile toX toY = true)
    (hline : fromX = toX ∨ fromY = toY ∨ (toX - fromX).natAbs = (toY - fromY).natAbs) :
    (isPathClearLoop b toX toY (Int.sign (toX - fromX)) (Int.sign (toY - fromY)) 8
        (fromX + Int.sign (toX - fromX)) (fromY + Int.sign (toY - fromY))).isSome = true
      ∧ (isPathClear b fromX fromY toX toY = true ↔
          ∀ i : Nat, 0 < i → i < max (toX - fromX).natAbs (toY - fromY).natAbs →
            (b (fromY + i * Int.sign (toY - fromY))
               (fromX + i * Int.sign (toX - fromX))).isEmpty = true)
      ∧ ∀ b2 : Grid,
          (∀ i : Nat, 0 < i → i < max (toX - fromX).natAbs (toY - fromY).natAbs →
            b2 (fromY + i * Int.sign (toY - fromY)) (fromX + i * Int.sign (toX - fromX))
              = b (fromY + i * Int.sign (toY - fromY)) (fromX + i * Int.sign (toX - fromX))) →
          isPathClear b2 fromX fromY toX toY = isPathClear b fromX fromY toX toY := by
  have hsx : ((if toX > fromX then 1 else 0) - (if toX < fromX then 1 else 0) : Int)
      = Int.sign (toX - fromX) := by
    rcases lt_trichotomy toX fromX with h | h | h
    · rw [if_neg (by omega), if_pos h, Int.sign_eq_neg_one_of_neg (by omega)]; rfl
    · subst h; simp
    · rw [if_pos h, if_neg (by omega), Int.sign_eq_one_of_pos (by omega)]; rfl
  have hsy : ((if toY > fromY then 1 else 0) - (if toY < fromY then 1 else 0) : Int)
      = Int.sign (toY - fromY) := by
    rcases lt_trichotomy toY fromY with h | h | h
    · rw [if_neg (by omega), if_pos h, Int.sign_eq_neg_one_of_neg (by omega)]; rfl
    · subst h; simp
    · rw [if_pos h, if_neg (by omega), Int.sign_eq_one_of_pos (by omega)]; rfl
  have hclear : ∀ g : Grid, isPathClear g fromX fromY toX toY
      = (isPathClearLoop g toX toY (Int.sign (toX - fromX)) (Int.sign (toY - fromY)) 8
          (fromX + Int.sign (toX - fromX)) (fromY + Int.sign (toY - fromY))).getD false := by
    intro g
    unfold isPathClear
    dsimp only
    rw [hsx, hsy]
  simp only [isValidTile, SIZE, Bool.and_eq_true, decide_eq_true_eq] at hfrom hto
  generalize hn : max (toX - fromX).natAbs (toY - fromY).natAbs = n
  have hn7 : n ≤ 7 := by omega
  have hx : toX = fromX + (n : Int) * Int.sign (toX - fromX) := by
    rcases lt_trichotomy toX fromX with h | h | h
    · rw [Int.sign_eq_neg_one_of_neg (by omega)]; omega
    · subst h; simp
    · rw [Int.sign_eq_one_of_pos (by omega)]; omega
  have hy : toY = fromY + (n : Int) * Int.sign (toY - fromY) := by
    rcases lt_trichotomy toY fromY with h | h | h
    · rw [Int.sign_eq_neg_one_of_neg (by omega)]; omega
    · subst h; simp
    · rw [Int.sign_eq_one_of_pos (by omega)]; omega
  -- the loop on any grid
  have hloop : ∀ g : Grid, ∃ r,
      isPathClearLoop g toX toY (Int.sign (toX - fromX)) (Int.sign (toY - fromY)) 8
          (fromX + Int.sign (toX - fromX)) (fromY + Int.sign (toY - fromY)) = some r
        ∧ (r = true ↔ ∀ i : Nat, 0 < i → i < n →
            (g (fromY + i * Int.sign (toY - fromY))
               (fromX + i * Int.sign (toX - fromX))).isEmpty = true) := by
    intro g
    rcases Nat.eq_zero_or_pos n with h0 | hpos
    · have ex : toX = fromX := by omega
      have ey : toY = fromY := by omega
      subst ex; subst ey
      refine ⟨true, ?_, fun _ => ?_, fun _ => rfl⟩
      · simp [isPathClearLoop]
      · intro i h1 h2; omega
    · have hd : Int.sign (toX - fromX) ≠ 0 ∨ Int.sign (toY - fromY) ≠ 0 := by
        by_contra hc
        push_neg at hc
        have a1 := Int.sign_eq_zero_iff_zero.1 hc.1
        have a2 := Int.sign_eq_zero_iff_zero.1 hc.2
        omega
      obtain ⟨r, hr, hiff⟩ := isPathClearLoop_spec g fromX fromY _ _ n hd (n - 1) 8 1
        (by omega) (by omega)
      refine ⟨r, ?_, ?_⟩
      · rw [← hx, ← hy] at hr
        simpa using hr
      · rw [hiff]
        exact ⟨fun h i h1 h2 => h i h1 h2, fun h i h1 h2 => h i h1 h2⟩
  obtain ⟨r, hr, hiff⟩ := hloop b
  refine ⟨by rw [hr]; rfl, ?_, ?_⟩
  · rw [hclear, hr]
    exact hiff
  · intro b2 hagree
    obtain ⟨r2, hr2, hiff2⟩ := hloop b2
    rw [hclear, hclear, hr, hr2]
    show r2 = r
    have : r2 = true ↔ r = true := by
      rw [hiff, hiff2]
      constructor
      · intro h i h1 h2; rw [← hagree i h1 h2]; exact h i h1 h2
      · intro h i h1 h2; rw [hagree i h1 h2]; exact h i h1 h2
    exact Bool.eq_iff_iff.2 this

/-- C27: for two in-board squares on a common rank, file or diagonal the loop
of `isPathClear` ends within eight tests, and the answer is `true` exactly
when every square strictly between the two is empty; hence two grids that
agree strictly between the two squares get the same answer. -/
theorem C27_isPathClear_iff (b : Grid) (fromX fromY toX toY : Int)
    (hfrom : isValidTile fromX fromY = true) (hto : isValidTile toX toY = true)
    (hline : fromX = toX ∨ fromY = toY ∨ (toX - fromX).natAbs = (toY - fromY).natAbs) :
    (isPathClearLoop b toX toY (Int.sign (toX - fromX)) (Int.sign (toY - fromY)) 8
        (fromX + Int.sign (toX - fromX)) (fromY + Int.sign (toY - fromY))).isSome = true
      ∧ (isPathClear b fromX fromY toX toY = true ↔
          ∀ i : Nat, 0 < i → i < max (toX - fromX).natAbs (toY - fromY).natAbs →
            (b (fromY + i * Int.sign (toY - fromY))
               (fromX + i * Int.sign (toX - fromX))).isEmpty = true)
      ∧ ∀ b2 : Grid,
          (∀ i : Nat, 0 < i → i < max (toX - fromX).natAbs (toY - fromY).natAbs →
            b2 (fromY + i * Int.sign (toY - fromY)) (fromX + i * Int.sign (toX - fromX))
              = b (fromY + i * Int.sign (toY - fromY)) (fromX + i * Int.sign (toX - fromX))) →
          isPathClear b2 fromX fromY toX toY = isPathClear b fromX fromY toX toY :=
  isPathClear_spec b fromX fromY toX toY hfrom hto hline

set_option maxRecDepth 100000 in
/-- C27 on the initial board, from a3 to a6: both squares in between are
empty, so the path is clear. -/
theorem C27_isPathClear_iff_witness :
    isValidTile 0 5 = true ∧ isValidTile 0 2 = true
      ∧ isPathClear (resetBoard ChessBoard.new).board 0 5 0 2 = true := by
  refine ⟨by decide, by decide, ?_⟩
  refine (C27_isPathClear_iff (resetBoard ChessBoard.new).board 0 5 0 2
    (by decide) (by decide) (Or.inl rfl)).2.1.2 ?_
  intro i h1 h2
  have h3 : i < 3 := by simpa using h2
  interval_cases i <;> decide!

/-! ## Theorems: the game-over state -/

theorem unchanged_trans {s t u : ChessBoard} (h1 : Unchanged s t) (h2 : Unchanged t u) :
    Unchanged s u :=
  ⟨h2.board.trans h1.board, h2.lastMove.trans h1.lastMove, h2.whiteKing.trans h1.whiteKing,
    h2.blackKing.trans h1.blackKing, h2.whiteRook.trans h1.whiteRook,
    h2.blackRook.trans h1.blackRook, h2.whiteEnPassant.trans h1.whiteEnPassant,
    h2.blackEnPassant.trans h1.blackEnPassant⟩

theorem isGameOver_of_lastMove (g h : Game)
    (e : h.chessBoard.lastMove = g.chessBoard.lastMove) : h.isGameOver = g.isGameOver := by
  unfold Game.isGameOver
  rw [e]

theorem handleLMB_game_over (a : Session) (leftPressed : Bool) (mouseX mouseY : Int)
    (h : a.game.isGameOver = true) : (handleLMB a leftPressed mouseX mouseY).game = a.game := by
  unfold handleLMB
  dsimp only
  split_ifs <;> first | rfl | simp_all

theorem draw_unchanged (g : Game) :
    Unchanged g.chessBoard g.draw.chessBoard ∧ g.draw.isWhiteTurn = g.isWhiteTurn
      ∧ g.draw.moveHistory = g.moveHistory ∧ g.draw.moveCounter = g.moveCounter := by
  unfold Game.draw
  dsimp only
  refine ⟨?_, rfl, rfl, rfl⟩
  refine foldl_invariant (fun cb => Unchanged g.chessBoard cb) _ ?_ squares g.chessBoard
    (Unchanged.refl _)
  intro cb q hcb
  dsimp only
  split
  · exact unchanged_trans hcb (isKingInCheck_keeps cb _).1
  · exact hcb

/-- C22: once `lastMove` ends in `"#"`, `isGameOver()` is true, and it is still
true after any sequence of `handleLMB` calls and rendered frames, which leave
the grid, `lastMove`, the castling and en passant flags, the side to move and
the move history as they were. -/
theorem C22_game_over_is_final (a : Session) (inputs : List Input) (t : String)
    (hmate : a.game.chessBoard.lastMove = t ++ "#") :
    a.game.isGameOver = true
      ∧ (a.run inputs).game.isGameOver = true
      ∧ Unchanged a.game.chessBoard (a.run inputs).game.chessBoard
      ∧ (a.run inputs).game.isWhiteTurn = a.game.isWhiteTurn
      ∧ (a.run inputs).game.moveHistory = a.game.moveHistory
      ∧ (a.run inputs).game.moveCounter = a.game.moveCounter := by
  have hover : a.game.isGameOver = true := by
    unfold Game.isGameOver
    rw [hmate]
    simp
  refine ⟨hover, ?_⟩
  have hinv : Unchanged a.game.chessBoard (a.run inputs).game.chessBoard
      ∧ (a.run inputs).game.isWhiteTurn = a.game.isWhiteTurn
      ∧ (a.run inputs).game.moveHistory = a.game.moveHistory
      ∧ (a.run inputs).game.moveCounter = a.game.moveCounter := by
    unfold Session.run
    refine foldl_invariant
      (fun b : Session => Unchanged a.game.chessBoard b.game.chessBoard
        ∧ b.game.isWhiteTurn = a.game.isWhiteTurn
        ∧ b.game.moveHistory = a.game.moveHistory
        ∧ b.game.moveCounter = a.game.moveCounter)
      _ ?_ inputs a ⟨Unchanged.refl _, rfl, rfl, rfl⟩
    intro b i hb
    have hbover : b.game.isGameOver = true :=
      (isGameOver_of_lastMove a.game b.game hb.1.lastMove).trans hover
    cases i with
    | mouse leftPressed mouseX mouseY =>
      show _ ∧ _
      unfold Session.step
      rw [handleLMB_game_over b leftPressed mouseX mouseY hbover]
      exact hb
    | frame =>
      obtain ⟨h1, h2, h3, h4⟩ := draw_unchanged b.game
      exact ⟨unchanged_trans hb.1 h1, h2.trans hb.2.1, h3.trans hb.2.2.1, h4.trans hb.2.2.2⟩
  exact ⟨(isGameOver_of_lastMove a.game _ hinv.1.lastMove).trans hover, hinv⟩


set_option maxRecDepth 100000 in
/-- C22 with `lastMove = "Qh4#"`: a press on e2, a release on e4 and a
rendered frame change nothing. -/
theorem C22_game_over_is_final_witness :
    foolsMateSession.game.chessBoard.lastMove = "Qh4" ++ "#"
      ∧ (foolsMateSession.run
          [Input.mouse true 288 416, Input.mouse false 288 288, Input.frame]).game.isGameOver
        = true := by
  have h : foolsMateSession.game.chessBoard.lastMove = "Qh4" ++ "#" := by
    decide!
  exact ⟨h, (C22_game_over_is_final foolsMateSession
    [Input.mouse true 288 416, Input.mouse false 288 288, Input.frame] "Qh4" h).2.1⟩

/-! ## Theorems: further inputs where the code departs from the specification -/

/-- C28: `isValidMove` reads `board[fromY][fromX]` before its bounds test, so
for an origin outside the board (here file `-1` or `8`, or row `-1` or `8`) the
grid is indexed outside its bounds whatever the board and the destination are;
the bounds test only guards the accesses that follow it.  With the grid taken
as a total function, the call itself returns `false` and changes nothing. -/
theorem C28_origin_read_before_bounds_test (s : ChessBoard) (x y toX toY : Int) :
    isValidMoveEntry s (-1) y toX toY = Option.none
      ∧ isValidMoveEntry s 8 y toX toY = Option.none
      ∧ isValidMoveEntry s x (-1) toX toY = Option.none
      ∧ isValidMoveEntry s x 8 toX toY = Option.none
      ∧ isValidMove s (-1) y toX toY = (false, s)
      ∧ isValidMove s 8 y toX toY = (false, s) := by
  have hx1 : ∀ y : Int, isValidTile (-1) y = false := fun y => by simp [isValidTile]
  have hx8 : ∀ y : Int, isValidTile 8 y = false := fun y => by simp [isValidTile, SIZE]
  have hy1 : ∀ x : Int, isValidTile x (-1) = false := fun x => by simp [isValidTile]
  have hy8 : ∀ x : Int, isValidTile x 8 = false := fun x => by simp [isValidTile, SIZE]
  refine ⟨?_, ?_, ?_, ?_, ?_, ?_⟩
  · simp [isValidMoveEntry, Grid.index, hx1]
  · simp [isValidMoveEntry, Grid.index, hx8]
  · simp [isValidMoveEntry, Grid.index, hy1]
  · simp [isValidMoveEntry, Grid.index, hy8]
  · unfold isValidMove isValidMoveFull isValidMoveWith
    dsimp only
    split
    · rfl
    · rw [if_pos (by simp [hx1])]
  · unfold isValidMove isValidMoveFull isValidMoveWith
    dsimp only
    split
    · rfl
    · rw [if_pos (by simp [hx8])]

set_option maxRecDepth 100000 in
/-- C21: in `castlingPosition` with White to move, a press on the king e1
computes the hints d2, e2, f2, d1, f1: g1 is not among them, because
`isValidMove` finds the king attacked there by the rook g8.  The release on g1
nevertheless commits the castling `O-O` through `isValidKingMove`: king on g1,
rook on f1, Black to move. -/
theorem C21_castling_hint_differs_from_commit :
    (({ Game.new with chessBoard := castlingPosition } : Game).onMousePressTile 4 7).validMoves
        = [(3, 6), (4, 6), (5, 6), (3, 7), (5, 7)]
      ∧ ((({ Game.new with chessBoard := castlingPosition } : Game).onMousePressTile 4 7
          ).onMouseReleaseTile 6 7).moveHistory = ["1. O-O"]
      ∧ ((({ Game.new with chessBoard := castlingPosition } : Game).onMousePressTile 4 7
          ).onMouseReleaseTile 6 7).isWhiteTurn = false
      ∧ rowOf ((({ Game.new with chessBoard := castlingPosition } : Game).onMousePressTile 4 7
          ).onMouseReleaseTile 6 7).chessBoard.board 7
        = [Piece.none, Piece.none, Piece.none, Piece.none, Piece.none,
            ⟨'R', true⟩, ⟨'K', true⟩, Piece.none] := by
  decide!

set_option maxRecDepth 100000 in
/-- C23: in `pawnCheckPosition` Black commits d7-d5, which attacks the white
king on e4.  `movePiece` appends `"+"`, but its checkmate search has removed the
pawn from d5: on the board it leaves, d5 is empty and `isKingInCheck(white)` is
false. -/
theorem C23_check_suffix_without_check :
    (commitMove pawnCheckPosition 3 1 3 3).map
        (fun s => (s.lastMove, s.board 3 3, (isKingInCheck s true).1))
      = some ("d5+", Piece.none, false) := by
  decide!

set_option maxRecDepth 100000 in
/-- C29: `noKingPosition` holds no black king, and `isCheckmate(black)` returns
true on it; accordingly the capture of the black king by Qd1xd8 in
`openFilePosition` is committed with the notation `"Qxd8#"`. -/
theorem C29_checkmate_without_king :
    countKings noKingPosition.board false = 0
      ∧ (isCheckmate noKingPosition false).1 = true
      ∧ (commitMove openFilePosition 3 7 3 0).map (fun s => s.lastMove) = some "Qxd8#" := by
  decide!

/-! ## Theorems: a king is captured -/

theorem thinned_step (chk : ChessBoard → Bool → Bool × ChessBoard) (hk : Keeps chk)
    (o s : ChessBoard) (fromX fromY toX toY : Int)
    (inSimulation skipKingSafetyCheck isDrawingMoves : Bool) (h : Thinned o s) :
    Thinned o
      (isValidMoveWith chk s fromX fromY toX toY inSimulation skipKingSafetyCheck
        isDrawingMoves).2 := by
  obtain ⟨hv, hb⟩ := isValidMoveWith_validated chk hk s fromX fromY toX toY inSimulation
    skipKingSafetyCheck isDrawingMoves
  have hboard : ∀ y x,
      (isValidMoveWith chk s fromX fromY toX toY inSimulation skipKingSafetyCheck
        isDrawingMoves).2.board y x = o.board y x
      ∨ (isValidMoveWith chk s fromX fromY toX toY inSimulation skipKingSafetyCheck
        isDrawingMoves).2.board y x = Piece.none := by
    intro y x
    rcases hv.board with hs | ⟨hs, _, _⟩
    · rw [hs]; exact (h y x).1
    · rw [hs, Grid.set_apply]
      by_cases hyx : y = fromY ∧ x = toX
      · rw [if_pos hyx]; exact Or.inr rfl
      · rw [if_neg hyx]; exact (h y x).1
  intro y x
  refine ⟨hboard y x, ?_⟩
  rcases hb with hb | hb | hb
  · rw [hb]; exact (h y x).2
  · rw [hb]; exact (h y x).1
  · rw [hb]; exact hboard y x

theorem destinationScan_thinned (o : ChessBoard) (x y : Int) :
    ∀ (ds : List (Int × Int)) (s : ChessBoard), Thinned o s →
      Thinned o (destinationScan x y ds s).2
  | [], _, h => h
  | d :: ds, s, h => by
    unfold destinationScan
    dsimp only
    split
    · exact thinned_step isKingInCheck isKingInCheck_keeps o s x y d.2 d.1 true false false h
    · exact destinationScan_thinned o x y ds _
        (thinned_step isKingInCheck isKingInCheck_keeps o s x y d.2 d.1 true false false h)

theorem pieceScan_thinned (o : ChessBoard) (isWhite : Bool) :
    ∀ (qs : List (Int × Int)) (s : ChessBoard), Thinned o s →
      Thinned o (pieceScan isWhite qs s).2
  | [], _, h => h
  | q :: qs, s, h => by
    unfold pieceScan
    split
    · exact pieceScan_thinned o isWhite qs s h
    split
    · dsimp only
      split
      · exact destinationScan_thinned o q.2 q.1 squares s h
      · exact pieceScan_thinned o isWhite qs _ (destinationScan_thinned o q.2 q.1 squares s h)
    · exact pieceScan_thinned o isWhite qs s h

/-- Every square holds after `isCheckmate` what it held before, or nothing. -/
theorem isCheckmate_thinned (s : ChessBoard) (c : Bool) (y x : Int) :
    (isCheckmate s c).2.board y x = s.board y x
      ∨ (isCheckmate s c).2.board y x = Piece.none := by
  obtain ⟨hu, _⟩ := isKingInCheck_keeps s c
  unfold isCheckmate
  dsimp only
  split
  · left; rw [hu.board]
  · have h0 : Thinned s { (isKingInCheck s c).2 with backupBoard := (isKingInCheck s c).2.board } :=
      fun y x => ⟨Or.inl (by show (isKingInCheck s c).2.board y x = _; rw [hu.board]),
        Or.inl (by show (isKingInCheck s c).2.board y x = _; rw [hu.board])⟩
    exact ((pieceScan_thinned s c squares _ h0) y x).2

/-- Every square holds after the check detection of `movePiece` what it held
before, or it held a pawn and is empty. -/
theorem movePieceSuffix_thinned (s : ChessBoard) (toX toY y x : Int) :
    (movePieceSuffix s toX toY).board y x = s.board y x
      ∨ ((s.board y x).type = 'P' ∧ (movePieceSuffix s toX toY).board y x = Piece.none) := by
  by_cases hp : (s.board y x).type = 'P'
  · obtain ⟨hu, _⟩ := isKingInCheck_keeps s (!(s.board toY toX).isWhite)
    have hm := isCheckmate_thinned (isKingInCheck s (!(s.board toY toX).isWhite)).2
      (!((isKingInCheck s (!(s.board toY toX).isWhite)).2.board toY toX).isWhite) y x
    have hm2 : (isCheckmate (isKingInCheck s (!(s.board toY toX).isWhite)).2
          (!((isKingInCheck s (!(s.board toY toX).isWhite)).2.board toY toX).isWhite)).2.board y x
          = s.board y x
        ∨ ((s.board y x).type = 'P'
          ∧ (isCheckmate (isKingInCheck s (!(s.board toY toX).isWhite)).2
            (!((isKingInCheck s (!(s.board toY toX).isWhite)).2.board toY toX).isWhite)).2.board
              y x = Piece.none) := by
      rcases hm with h | h
      · exact Or.inl (h.trans (congrFun (congrFun hu.board y) x))
      · exact Or.inr ⟨hp, h⟩
    unfold movePieceSuffix
    dsimp only
    split
    · split
      · exact hm2
      · exact hm2
    · left; rw [hu.board]
  · exact Or.inl ((movePieceSuffix_state s toX toY).2.1 y x hp)

/-- The check detection of `movePiece` neither adds nor removes a king. -/
theorem countKings_movePieceSuffix (s : ChessBoard) (toX toY : Int) (c : Bool) :
    countKings (movePieceSuffix s toX toY).board c = countKings s.board c := by
  have hf : ∀ q ∈ squares,
      (!((movePieceSuffix s toX toY).board q.1 q.2).isEmpty
        && (((movePieceSuffix s toX toY).board q.1 q.2).type == 'K'
          && ((movePieceSuffix s toX toY).board q.1 q.2).isWhite == c))
      = (!(s.board q.1 q.2).isEmpty
        && ((s.board q.1 q.2).type == 'K' && (s.board q.1 q.2).isWhite == c)) := by
    intro q _
    rcases movePieceSuffix_thinned s toX toY q.1 q.2 with h | ⟨hp, h⟩
    · rw [h]
    · rw [h]
      have hk : ((s.board q.1 q.2).type == 'K') = false := by rw [hp]; rfl
      rw [hk]
      simp [Piece.none, Piece.isEmpty]
  exact congrArg List.length (List.filter_congr hf)

/-- A release on an in-board tile while a piece other than a king is dragged,
for a move that `isValidMove` accepts, commits the move with `movePiece` and
passes the turn. -/
theorem onMouseReleaseTile_commit (g : Game) (tileX tileY : Int)
    (hdrag : g.isDragging = true) (htile : isValidTile tileX tileY = true)
    (hking : (g.chessBoard.board g.selectedTileY g.selectedTileX).type ≠ 'K')
    (hvalid : (isValidMove g.chessBoard g.selectedTileX g.selectedTileY tileX tileY).1 = true) :
    (g.onMouseReleaseTile tileX tileY).chessBoard
        = movePiece (isValidMove g.chessBoard g.selectedTileX g.selectedTileY tileX tileY).2
            g.selectedTileX g.selectedTileY tileX tileY false (-1) (-1)
      ∧ (g.onMouseReleaseTile tileX tileY).isWhiteTurn = !g.isWhiteTurn := by
  unfold Game.onMouseReleaseTile
  dsimp only
  rw [if_pos hdrag, htile]
  simp only [Bool.not_true, Bool.false_eq_true, if_false, if_neg hking]
  rw [if_pos hvalid]
  unfold Game.finalizeMove Game.updateMoveHistory Game.resetDraggingState
  dsimp only
  split <;> exact ⟨rfl, rfl⟩

set_option maxRecDepth 100000 in
/-- The game `kingCaptureGame` is committed move by move; then the white king
stands on g1, and `isValidMove` accepts the capture Ne2xg1, after which
`movePiece`, before its check detection, has left no white king. -/
theorem kingCaptureEve_facts :
    (countKings Game.new.chessBoard.board true = 1
        ∧ countKings Game.new.chessBoard.board false = 1)
      ∧ kingCaptureEve.moveHistory = ["1. Nh3 Nc6", "2. e3 Nd4", "3. Ba6 Ne2", "4. O-O"]
      ∧ kingCaptureEve.isWhiteTurn = false
      ∧ kingCaptureEve.chessBoard.board 7 6 = ⟨'K', true⟩
      ∧ kingCaptureEve.isDragging = true
      ∧ (kingCaptureEve.chessBoard.board kingCaptureEve.selectedTileY
          kingCaptureEve.selectedTileX).type ≠ 'K'
      ∧ (isValidMove kingCaptureEve.chessBoard kingCaptureEve.selectedTileX
          kingCaptureEve.selectedTileY 6 7).1 = true
      ∧ countKings (movePieceSquares
          (isValidMove kingCaptureEve.chessBoard kingCaptureEve.selectedTileX
            kingCaptureEve.selectedTileY 6 7).2
          kingCaptureEve.selectedTileX kingCaptureEve.selectedTileY 6 7 false (-1) (-1)).board
          true = 0
      ∧ countKings (movePieceSquares
          (isValidMove kingCaptureEve.chessBoard kingCaptureEve.selectedTileX
            kingCaptureEve.selectedTileY 6 7).2
          kingCaptureEve.selectedTileX kingCaptureEve.selectedTileY 6 7 false (-1) (-1)).board
          false = 1 := by
  decide!

/-- C30: the game 1. Nh3 Nc6 2. e3 Nd4 3. Ba6 Ne2 4. O-O, played with the mouse
from the initial position, is committed move by move (the move history lists
all seven moves); the white king then stands on g1, attacked by the knight e2.
The drag of that knight to g1 is committed as well (the turn passes to White),
and the grid reached holds no white king and one black king. -/
theorem C30_king_captured_from_initial_position :
    (countKings Game.new.chessBoard.board true = 1
        ∧ countKings Game.new.chessBoard.board false = 1)
      ∧ kingCaptureEve.moveHistory = ["1. Nh3 Nc6", "2. e3 Nd4", "3. Ba6 Ne2", "4. O-O"]
      ∧ kingCaptureEve.isWhiteTurn = false
      ∧ kingCaptureEve.chessBoard.board 7 6 = ⟨'K', true⟩
      ∧ (kingCaptureEve.onMouseReleaseTile 6 7).isWhiteTurn = true
      ∧ countKings (kingCaptureEve.onMouseReleaseTile 6 7).chessBoard.board true = 0
      ∧ countKings (kingCaptureEve.onMouseReleaseTile 6 7).chessBoard.board false = 1 := by
  have h := kingCaptureEve_facts
  have htile : isValidTile 6 7 = true := by decide
  have hc := onMouseReleaseTile_commit kingCaptureEve 6 7 h.2.2.2.2.1 htile h.2.2.2.2.2.1
    h.2.2.2.2.2.2.1
  refine ⟨h.1, h.2.1, h.2.2.1, h.2.2.2.1, ?_, ?_, ?_⟩
  · rw [hc.2, h.2.2.1]; rfl
  · rw [hc.1]
    exact (countKings_movePieceSuffix _ 6 7 true).trans h.2.2.2.2.2.2.2.1
  · rw [hc.1]
    exact (countKings_movePieceSuffix _ 6 7 false).trans h.2.2.2.2.2.2.2.2

/-! ## Theorems: turn discipline -/

/-- The hint scan for the piece on `(tileX, tileY)` leaves that square as it is. -/
theorem hintScan_origin (tileX tileY : Int) :
    ∀ (ds : List (Int × Int)) (acc : ChessBoard × List (Int × Int)),
      (hintScan tileX tileY ds acc).1.board tileY tileX = acc.1.board tileY tileX
  | [], _ => rfl
  | d :: ds, acc => by
    unfold hintScan
    dsimp only
    rw [hintScan_origin tileX tileY ds]
    obtain ⟨hv, _⟩ := isValidMoveWith_validated isKingInCheck isKingInCheck_keeps acc.1
      tileX tileY d.2 d.1 false false true
    show (isValidMoveWith isKingInCheck acc.1 tileX tileY d.2 d.1 false false true).2.board
      tileY tileX = _
    rcases hv.board with h | ⟨h, _, hne⟩
    · rw [h]
    · rw [h, Grid.set_apply, if_neg (fun hh => hne hh.2.symm)]

theorem onMousePressTile_turn (g : Game) (tileX tileY : Int) :
    (g.onMousePressTile tileX tileY).isWhiteTurn = g.isWhiteTurn
      ∧ (g.onMousePressTile tileX tileY).moveHistory = g.moveHistory
      ∧ (g.onMousePressTile tileX tileY).moveCounter = g.moveCounter := by
  unfold Game.onMousePressTile
  dsimp only
  split_ifs <;> exact ⟨rfl, rfl, rfl⟩

theorem onMousePressTile_dragOwn (g : Game) (tileX tileY : Int) (h : DragOwn g) :
    DragOwn (g.onMousePressTile tileX tileY) := by
  unfold Game.onMousePressTile
  dsimp only
  split_ifs with h1 h2
  · intro _
    dsimp only
    rw [hintScan_origin]
    simp only [Bool.and_eq_true, Bool.not_eq_true', beq_iff_eq] at h2
    exact h2
  · exact h
  · exact h

/-- A press on an in-board square that is empty or holds a piece of the side
that is not to move computes no hint, starts no drag and leaves the board
object alone. -/
theorem onMousePressTile_other (g : Game) (tileX tileY : Int)
    (htile : isValidTile tileX tileY = true)
    (h : (g.chessBoard.board tileY tileX).isEmpty = true
      ∨ (g.chessBoard.board tileY tileX).isWhite ≠ g.isWhiteTurn) :
    g.onMousePressTile tileX tileY = { g with validMoves := [] } := by
  unfold Game.onMousePressTile
  dsimp only
  rw [if_pos htile]
  have hc : (!(g.chessBoard.board tileY tileX).isEmpty
      && (g.chessBoard.board tileY tileX).isWhite == g.isWhiteTurn) = false := by
    rcases h with h | h
    · rw [h]; rfl
    · simp only [Bool.and_eq_false_imp, Bool.not_eq_true', beq_eq_false_iff_ne]
      exact fun _ => h
  rw [hc]
  rfl

theorem finalizeMove_fields (g : Game) :
    g.finalizeMove.isWhiteTurn = (!g.isWhiteTurn) ∧ g.finalizeMove.isDragging = false
      ∧ g.finalizeMove.moveCounter = (if g.isWhiteTurn then g.moveCounter + 1 else g.moveCounter)
      ∧ g.finalizeMove.chessBoard = g.chessBoard := by
  unfold Game.finalizeMove Game.updateMoveHistory Game.resetDraggingState
  dsimp only
  split <;> exact ⟨rfl, rfl, rfl, rfl⟩

/-- A validator leaves the origin square of the move it tests as it is. -/
theorem validated_origin (s t : ChessBoard) (fromX fromY toX : Int)
    (h : Validated s t fromX fromY toX) : t.board fromY fromX = s.board fromY fromX := by
  rcases h.board with hb | ⟨hb, _, hne⟩
  · rw [hb]
  · rw [hb, Grid.set_apply, if_neg (fun hh => hne hh.2.symm)]

/-- The two exits of `onMouseRelease`: when the release commits, the board
object is the result of `movePiece` for the dragged piece and the tile, and
`finalizeMove` has run; otherwise the side to move, the move history and the
move counter are as before.  In both cases the drag is over. -/
theorem onMouseReleaseTile_exits (g : Game) (tileX tileY : Int) :
    (g.onMouseReleaseTile tileX tileY).isDragging = false
      ∧ (g.releaseCommits tileX tileY = true →
          (g.onMouseReleaseTile tileX tileY).isWhiteTurn = (!g.isWhiteTurn)
            ∧ (g.onMouseReleaseTile tileX tileY).moveCounter
              = (if g.isWhiteTurn then g.moveCounter + 1 else g.moveCounter)
            ∧ g.isDragging = true
            ∧ ∃ s1 isCastling rookFromX rookToX,
              s1.board g.selectedTileY g.selectedTileX
                  = g.chessBoard.board g.selectedTileY g.selectedTileX
                ∧ (g.onMouseReleaseTile tileX tileY).chessBoard
                  = movePiece s1 g.selectedTileX g.selectedTileY tileX tileY isCastling
                      rookFromX rookToX)
      ∧ (g.releaseCommits tileX tileY = false →
          (g.onMouseReleaseTile tileX tileY).isWhiteTurn = g.isWhiteTurn
            ∧ (g.onMouseReleaseTile tileX tileY).moveHistory = g.moveHistory
            ∧ (g.onMouseReleaseTile tileX tileY).moveCounter = g.moveCounter) := by
  have hk0 : ((if (g.chessBoard.board g.selectedTileY g.selectedTileX).type = 'K' then
        isValidKingMove g.chessBoard g.selectedTileX g.selectedTileY tileX tileY
          (g.chessBoard.board g.selectedTileY g.selectedTileX).isWhite
        else (⟨false, false, -1, -1⟩, g.chessBoard) : KingMove × ChessBoard)).2.board
        g.selectedTileY g.selectedTileX
      = g.chessBoard.board g.selectedTileY g.selectedTileX := by
    split
    · exact validated_origin _ _ _ _ tileX
        (isValidKingMoveWith_validated isKingInCheck isKingInCheck_keeps g.chessBoard
          g.selectedTileX g.selectedTileY tileX tileY _)
    · rfl
  unfold Game.onMouseReleaseTile Game.releaseCommits
  dsimp only
  by_cases hd : g.isDragging = true
  · rw [if_pos hd, hd]
    by_cases ht : isValidTile tileX tileY = true
    · rw [ht]
      simp only [Bool.not_true, Bool.false_eq_true, if_false, Bool.true_and]
      generalize (if (g.chessBoard.board g.selectedTileY g.selectedTileX).type = 'K' then
        isValidKingMove g.chessBoard g.selectedTileX g.selectedTileY tileX tileY
          (g.chessBoard.board g.selectedTileY g.selectedTileX).isWhite
        else (⟨false, false, -1, -1⟩, g.chessBoard) : KingMove × ChessBoard) = k at hk0 ⊢
      by_cases hk : k.1.valid = true
      · rw [if_pos hk, hk]
        simp only [Bool.true_or, true_implies, Bool.true_eq_false, false_implies, and_true]
        exact ⟨(finalizeMove_fields _).2.1, (finalizeMove_fields _).1,
          (finalizeMove_fields _).2.2.1, trivial,
          ⟨_, _, _, _, hk0, (finalizeMove_fields _).2.2.2⟩⟩
      · rw [if_neg hk]
        have hk1 : k.1.valid = false := by simpa using hk
        rw [hk1]
        simp only [Bool.false_or]
        have hv0 : (isValidMove k.2 g.selectedTileX g.selectedTileY tileX tileY).2.board
            g.selectedTileY g.selectedTileX
              = g.chessBoard.board g.selectedTileY g.selectedTileX :=
          (validated_origin _ _ _ _ tileX
            (isValidMoveWith_validated isKingInCheck isKingInCheck_keeps k.2
              g.selectedTileX g.selectedTileY tileX tileY false false false).1).trans hk0
        by_cases hv : (isValidMove k.2 g.selectedTileX g.selectedTileY tileX tileY).1 = true
        · rw [if_pos hv, hv]
          simp only [true_implies, Bool.true_eq_false, false_implies, and_true]
          exact ⟨(finalizeMove_fields _).2.1, (finalizeMove_fields _).1,
            (finalizeMove_fields _).2.2.1, trivial,
            ⟨_, _, _, _, hv0, (finalizeMove_fields _).2.2.2⟩⟩
        · rw [if_neg hv]
          have hv1 : (isValidMove k.2 g.selectedTileX g.selectedTileY tileX tileY).1 = false := by
            simpa using hv
          rw [hv1]
          exact ⟨rfl, fun h => absurd h Bool.false_ne_true, fun _ => ⟨rfl, rfl, rfl⟩⟩
    · have ht1 : isValidTile tileX tileY = false := by simpa using ht
      rw [ht1]
      simp only [Bool.not_false, if_true, Bool.true_and, Bool.false_and]
      exact ⟨rfl, fun h => absurd h Bool.false_ne_true, fun _ => ⟨rfl, rfl, rfl⟩⟩
  · rw [if_neg hd]
    have hd1 : g.isDragging = false := by simpa using hd
    rw [hd1]
    simp only [Bool.false_and]
    exact ⟨rfl, fun h => absurd h Bool.false_ne_true, fun _ => ⟨rfl, rfl, rfl⟩⟩

theorem onMouseReleaseTile_turnStep (g : Game) (tileX tileY : Int) (h : DragOwn g) :
    TurnStep g (g.onMouseReleaseTile tileX tileY) (g.releaseCommits tileX tileY) := by
  obtain ⟨h0, h1, h2⟩ := onMouseReleaseTile_exits g tileX tileY
  refine ⟨fun hc => ?_, h2⟩
  obtain ⟨a1, a2, a3, _⟩ := h1 hc
  exact ⟨a1, a2, h0, a3, h a3⟩

theorem draw_drag (g : Game) :
    g.draw.isDragging = g.isDragging ∧ g.draw.selectedTileX = g.selectedTileX
      ∧ g.draw.selectedTileY = g.selectedTileY := by
  unfold Game.draw
  exact ⟨rfl, rfl, rfl⟩

theorem draw_dragOwn (g : Game) (h : DragOwn g) : DragOwn g.draw := by
  obtain ⟨hu, ht, _, _⟩ := draw_unchanged g
  obtain ⟨hf1, hf2, hf3⟩ := draw_drag g
  unfold DragOwn
  rw [hf1, hf2, hf3, hu.board, ht]
  exact h

theorem step_dragOwn (a : Session) (i : Input) (h : DragOwn a.game) :
    DragOwn (a.step i).game := by
  cases i with
  | mouse leftPressed mouseX mouseY =>
    unfold Session.step handleLMB
    dsimp only
    split_ifs
    all_goals try unfold Game.onMousePress
    all_goals try unfold Game.onMouseRelease
    all_goals first
      | exact h
      | exact onMousePressTile_dragOwn a.game _ _ h
      | exact fun hd => absurd ((onMouseReleaseTile_exits a.game _ _).1.symm.trans hd)
          Bool.false_ne_true
  | frame => exact draw_dragOwn a.game h

theorem step_turnStep (a : Session) (i : Input) (h : DragOwn a.game) :
    TurnStep a.game (a.step i).game (a.commits i) := by
  have hsame : ∀ b : Session, b.game = a.game → TurnStep a.game b.game false :=
    fun b hb => by
      rw [hb]
      exact ⟨fun hc => absurd hc Bool.false_ne_true, fun _ => ⟨rfl, rfl, rfl⟩⟩
  have hpress : ∀ x y, TurnStep a.game (a.game.onMousePressTile x y) false := fun x y =>
    ⟨fun hc => absurd hc Bool.false_ne_true, fun _ => onMousePressTile_turn a.game x y⟩
  cases i with
  | mouse leftPressed mouseX mouseY =>
    unfold Session.commits Session.step handleLMB
    dsimp only
    cases leftPressed
    · cases hp : a.isMousePressed
      · simp only [Bool.false_eq_true, if_false, Bool.not_false, Bool.and_false, Bool.false_and]
        exact hsame _ rfl
      · cases hg : a.game.isGameOver
        · simp only [Bool.false_eq_true, if_false, if_true, Bool.not_false, Bool.and_true,
            Bool.true_and]
          exact onMouseReleaseTile_turnStep a.game _ _ h
        · simp only [Bool.false_eq_true, if_false, if_true, Bool.not_false, Bool.not_true,
            Bool.and_false, Bool.false_and, Bool.true_and]
          exact hsame _ rfl
    · simp only [if_true, Bool.not_true, Bool.false_and]
      split_ifs
      all_goals first
        | exact hsame _ rfl
        | exact hpress _ _
  | frame =>
    obtain ⟨_, ht, hh, hc⟩ := draw_unchanged a.game
    exact ⟨fun hc => absurd hc Bool.false_ne_true, fun _ => ⟨ht, hh, hc⟩⟩

/-- C31: a press on an in-board square that is empty or holds a piece of the
side that is not to move computes no hint, starts no drag and changes nothing
else.  A release that commits a move (a drag in progress, the tile on the
board, `isValidKingMove` or `isValidMove` accepting) applies `movePiece` to
the dragged piece and the tile, flips the side to move once and advances the
move counter after a move of White; a release that does not commit (a rejected
move) leaves the side to move, the move history and the move counter
unchanged.  In a session that starts with no foreign drag in progress (as the
constructor leaves it), after every sequence of `handleLMB` calls and rendered
frames the piece being dragged is a piece of the side to move, and the next
step flips the side to move exactly when it commits a move, which is then a
move of a piece of the side to move; every other step leaves the side to move,
the move history and the move counter as they are. -/
theorem C31_turn_discipline (a : Session) (inputs : List Input) (i : Input)
    (hown : DragOwn a.game) :
    (∀ g : Game, ∀ tileX tileY : Int, isValidTile tileX tileY = true →
        ((g.chessBoard.board tileY tileX).isEmpty = true
          ∨ (g.chessBoard.board tileY tileX).isWhite ≠ g.isWhiteTurn) →
        g.onMousePressTile tileX tileY = { g with validMoves := [] })
      ∧ (∀ g : Game, ∀ tileX tileY : Int,
          (g.releaseCommits tileX tileY = true →
            (g.onMouseReleaseTile tileX tileY).isWhiteTurn = (!g.isWhiteTurn)
              ∧ (g.onMouseReleaseTile tileX tileY).moveCounter
                = (if g.isWhiteTurn then g.moveCounter + 1 else g.moveCounter)
              ∧ g.isDragging = true
              ∧ ∃ s1 isCastling rookFromX rookToX,
                s1.board g.selectedTileY g.selectedTileX
                    = g.chessBoard.board g.selectedTileY g.selectedTileX
                  ∧ (g.onMouseReleaseTile tileX tileY).chessBoard
                    = movePiece s1 g.selectedTileX g.selectedTileY tileX tileY isCastling
                        rookFromX rookToX)
          ∧ (g.releaseCommits tileX tileY = false →
            (g.onMouseReleaseTile tileX tileY).isWhiteTurn = g.isWhiteTurn
              ∧ (g.onMouseReleaseTile tileX tileY).moveHistory = g.moveHistory
              ∧ (g.onMouseReleaseTile tileX tileY).moveCounter = g.moveCounter))
      ∧ DragOwn (a.run inputs).game
      ∧ TurnStep (a.run inputs).game ((a.run inputs).step i).game
          ((a.run inputs).commits i) := by
  have hrun : DragOwn (a.run inputs).game := by
    unfold Session.run
    exact foldl_invariant (fun b : Session => DragOwn b.game) _
      (fun b j hb => step_dragOwn b j hb) inputs a hown
  exact ⟨onMousePressTile_other, fun g x y => (onMouseReleaseTile_exits g x y).2, hrun,
    step_turnStep _ i hrun⟩

set_option maxRecDepth 100000 in
theorem pressedSession_facts :
    pressedSession.commits (Input.mouse false 288 288) = true
      ∧ pressedSession.commits (Input.mouse false 288 160) = false
      ∧ pressedSession.game.isWhiteTurn = true := by
  decide!

/-- C31 from the initial session: after a press on e2 and a rendered frame, the
release on e4 commits the move and passes the turn to Black, and the release
on e6, which is rejected, leaves the turn with White. -/
theorem C31_turn_discipline_witness :
    DragOwn newSession.game
      ∧ (pressedSession.step (Input.mouse false 288 288)).game.isWhiteTurn = false
      ∧ (pressedSession.step (Input.mouse false 288 160)).game.isWhiteTurn = true := by
  have h0 : DragOwn newSession.game := fun h => absurd h (by decide)
  have h1 : TurnStep pressedSession.game
      (pressedSession.step (Input.mouse false 288 288)).game
      (pressedSession.commits (Input.mouse false 288 288)) :=
    (C31_turn_discipline newSession [Input.mouse true 288 416, Input.frame]
      (Input.mouse false 288 288) h0).2.2.2
  have h2 : TurnStep pressedSession.game
      (pressedSession.step (Input.mouse false 288 160)).game
      (pressedSession.commits (Input.mouse false 288 160)) :=
    (C31_turn_discipline newSession [Input.mouse true 288 416, Input.frame]
      (Input.mouse false 288 160) h0).2.2.2
  have hf := pressedSession_facts
  have e1 := (h1.1 hf.1).1
  have e2 := (h2.2 hf.2.1).1
  rw [hf.2.2] at e1 e2
  exact ⟨h0, e1, e2⟩

/-! ## Theorems: the nesting of check tests ends -/

theorem filter_length_le {α : Type} (P Q : α → Bool) :
    ∀ l : List α, (∀ q ∈ l, Q q = true → P q = true) →
      (l.filter Q).length ≤ (l.filter P).length
  | [], _ => Nat.le_refl _
  | x :: l, h => by
    have ih := filter_length_le P Q l (fun q hq => h q (List.mem_cons_of_mem x hq))
    have hx := h x (List.mem_cons_self x l)
    rw [List.filter_cons, List.filter_cons]
    cases hQ : Q x
    · cases hP : P x
      · simpa using ih
      · simp only [Bool.false_eq_true, if_false, if_true, List.length_cons]
        omega
    · rw [hx hQ]
      simpa using ih

theorem filter_length_lt {α : Type} (P Q : α → Bool) (a : α) :
    ∀ l : List α, (∀ q ∈ l, Q q = true → P q = true) → a ∈ l → P a = true → Q a = false →
      (l.filter Q).length < (l.filter P).length
  | [], _, ha, _, _ => absurd ha (List.not_mem_nil a)
  | x :: l, h, ha, hP, hQ => by
    have hle := filter_length_le P Q l (fun q hq => h q (List.mem_cons_of_mem x hq))
    have hx := h x (List.mem_cons_self x l)
    rw [List.filter_cons, List.filter_cons]
    rcases List.mem_cons.1 ha with rfl | hal
    · rw [hP, hQ]
      simp only [Bool.false_eq_true, if_false, if_true, List.length_cons]
      omega
    · have ih := filter_length_lt P Q a l (fun q hq => h q (List.mem_cons_of_mem x hq)) hal hP hQ
      cases hQx : Q x
      · cases hPx : P x
        · simpa using ih
        · simp only [Bool.false_eq_true, if_false, if_true, List.length_cons]
          omega
      · rw [hx hQx]
        simpa using ih

theorem countOccupied_le (b : Grid) : countOccupied b ≤ 64 := by
  unfold countOccupied
  exact (List.length_filter_le _ _).trans (by decide)

/-- A capture leaves fewer occupied squares. -/
theorem countOccupied_simulated (b : Grid) (fromX fromY toX toY : Int)
    (hq : (fromY, fromX) ∈ squares) (hfrom : (b fromY fromX).isEmpty = false)
    (hto : (b toY toX).isEmpty = false) :
    countOccupied ((b.set toY toX (b fromY fromX)).set fromY fromX Piece.none)
      < countOccupied b := by
  unfold countOccupied
  refine filter_length_lt _ _ (fromY, fromX) squares ?_ hq ?_ ?_
  · intro q _ hQ
    simp only [Grid.set_apply] at hQ
    by_cases h1 : q.1 = fromY ∧ q.2 = fromX
    · rw [if_pos h1] at hQ
      exact absurd hQ (by decide)
    · rw [if_neg h1] at hQ
      by_cases h2 : q.1 = toY ∧ q.2 = toX
      · rw [h2.1, h2.2, hto]; rfl
      · rw [if_neg h2] at hQ; exact hQ
  · rw [hfrom]; rfl
  · show (!(Grid.set _ fromY fromX Piece.none fromY fromX).isEmpty) = false
    rw [Grid.set_apply, if_pos ⟨rfl, rfl⟩]
    rfl

theorem kingStep_agree (chk1 chk2 : ChessBoard → Bool → Bool × ChessBoard) (s : ChessBoard)
    (fromX fromY toX toY : Int) (isWhite : Bool)
    (h : chk1 (simulated s fromX fromY toX toY) isWhite
      = chk2 (simulated s fromX fromY toX toY) isWhite) :
    kingStep chk1 s fromX fromY toX toY isWhite = kingStep chk2 s fromX fromY toX toY isWhite := by
  unfold simulated at h
  unfold kingStep
  dsimp only
  rw [h]

theorem isValidKingMoveWith_agree (chk1 chk2 : ChessBoard → Bool → Bool × ChessBoard)
    (s : ChessBoard) (fromX fromY toX toY : Int) (isWhite : Bool)
    (h : chk1 (simulated s fromX fromY toX toY) isWhite
      = chk2 (simulated s fromX fromY toX toY) isWhite) :
    isValidKingMoveWith chk1 s fromX fromY toX toY isWhite
      = isValidKingMoveWith chk2 s fromX fromY toX toY isWhite := by
  unfold isValidKingMoveWith
  rw [kingStep_agree chk1 chk2 s fromX fromY toX toY isWhite h]

theorem validatePiece_agree (chk1 chk2 : ChessBoard → Bool → Bool × ChessBoard)
    (s : ChessBoard) (piece : Piece) (fromX fromY toX toY : Int) (isDrawingMoves : Bool)
    (h : chk1 (simulated s fromX fromY toX toY) piece.isWhite
      = chk2 (simulated s fromX fromY toX toY) piece.isWhite) :
    validatePiece chk1 s piece fromX fromY toX toY isDrawingMoves
      = validatePiece chk2 s piece fromX fromY toX toY isDrawingMoves := by
  unfold validatePiece
  rw [isValidKingMoveWith_agree chk1 chk2 s fromX fromY toX toY piece.isWhite h]

/-- With the king safety test skipped, `isValidMove` depends on the check test
only through its answer for the king step it simulates. -/
theorem isValidMoveWith_agree (chk1 chk2 : ChessBoard → Bool → Bool × ChessBoard)
    (s : ChessBoard) (fromX fromY toX toY : Int) (inSimulation isDrawingMoves : Bool)
    (h : chk1 (simulated { s with backupLastMove := s.lastMove, backupBoard := s.board }
          fromX fromY toX toY) (s.board fromY fromX).isWhite
      = chk2 (simulated { s with backupLastMove := s.lastMove, backupBoard := s.board }
          fromX fromY toX toY) (s.board fromY fromX).isWhite) :
    isValidMoveWith chk1 s fromX fromY toX toY inSimulation true isDrawingMoves
      = isValidMoveWith chk2 s fromX fromY toX toY inSimulation true isDrawingMoves := by
  unfold isValidMoveWith
  dsimp only
  rw [validatePiece_agree chk1 chk2 _ (s.board fromY fromX) fromX fromY toX toY isDrawingMoves h]
  rfl

theorem isKingInCheckFrom_keeps (chk0 : ChessBoard → Bool → Bool × ChessBoard)
    (h0 : Keeps chk0) : ∀ n : Nat, Keeps (isKingInCheckFrom chk0 n)
  | 0 => h0
  | n + 1 => isKingInCheckBody_keeps _ (isKingInCheckFrom_keeps chk0 h0 n)

theorem attackScanRow_board (chk : ChessBoard → Bool → Bool × ChessBoard) (hk : Keeps chk)
    (kingX kingY : Int) (isWhite : Bool) (y : Int) :
    ∀ (xs : List Int) (t : ChessBoard), (t.board kingY kingX).isEmpty = false →
      (attackScanRow chk kingX kingY isWhite y xs t).2.board = t.board
  | [], _, _ => rfl
  | x :: xs, t, hd => by
    have hstep : (isValidMoveWith chk t x y kingX kingY true true false).2.board = t.board :=
      (isValidMoveWith_attack chk hk t x y kingX kingY true false hd).1.board
    unfold attackScanRow
    split
    · exact attackScanRow_board chk hk kingX kingY isWhite y xs t hd
    split
    · dsimp only
      split
      · exact hstep
      · exact (attackScanRow_board chk hk kingX kingY isWhite y xs _
          (by rw [hstep]; exact hd)).trans hstep
    · exact attackScanRow_board chk hk kingX kingY isWhite y xs t hd

theorem attackScanRow_agree (chk1 chk2 : ChessBoard → Bool → Bool × ChessBoard)
    (hk : Keeps chk2) (N : Nat)
    (h : ∀ u c, countOccupied u.board < N → chk1 u c = chk2 u c)
    (kingX kingY : Int) (isWhite : Bool) (y : Int) (hy : y ∈ coords) :
    ∀ (xs : List Int) (t : ChessBoard), (∀ x ∈ xs, x ∈ coords) →
      (t.board kingY kingX).isEmpty = false → countOccupied t.board ≤ N →
      attackScanRow chk1 kingX kingY isWhite y xs t
        = attackScanRow chk2 kingX kingY isWhite y xs t
  | [], _, _, _, _ => rfl
  | x :: xs, t, hxs, hd, hN => by
    have hxs2 : ∀ x1 ∈ xs, x1 ∈ coords := fun x1 h1 => hxs x1 (List.mem_cons_of_mem x h1)
    have ih := attackScanRow_agree chk1 chk2 hk N h kingX kingY isWhite y hy xs
    unfold attackScanRow
    by_cases he : (t.board y x).isEmpty = true
    · rw [if_pos he, if_pos he]
      exact ih t hxs2 hd hN
    · rw [if_neg he, if_neg he]
      have he2 : (t.board y x).isEmpty = false := by simpa using he
      have hq : (y, x) ∈ squares := by
        have hx := hxs x (List.mem_cons_self x xs)
        have hv := (isValidTile_iff x y).1 (coords_valid y hy x hx)
        exact (mem_squares (y, x)).2 ⟨⟨hv.2.1, by omega⟩, ⟨hv.1.1, by omega⟩⟩
      have hlt := countOccupied_simulated t.board x y kingX kingY hq he2 hd
      have hagree := isValidMoveWith_agree chk1 chk2 t x y kingX kingY true false
        (h _ _ (Nat.lt_of_lt_of_le hlt hN))
      rw [hagree]
      obtain ⟨hu, _, _⟩ := isValidMoveWith_attack chk2 hk t x y kingX kingY true false hd
      have ih2 := ih (isValidMoveWith chk2 t x y kingX kingY true true false).2 hxs2
        (by rw [hu.board]; exact hd) (by rw [hu.board]; exact hN)
      dsimp only
      rw [ih2, ih t hxs2 hd hN]

/-- One level of `isKingInCheck` on a board with at most `N` occupied squares
consults the next level only on boards with fewer than `N` occupied squares. -/
theorem isKingInCheckBody_agree (chk1 chk2 : ChessBoard → Bool → Bool × ChessBoard)
    (hk : Keeps chk2) (N : Nat)
    (h : ∀ u c, countOccupied u.board < N → chk1 u c = chk2 u c)
    (s : ChessBoard) (c : Bool) (hN : countOccupied s.board ≤ N) :
    isKingInCheckBody chk1 s c = isKingInCheckBody chk2 s c := by
  unfold isKingInCheckBody
  dsimp only
  by_cases hking : (findKing s.board c).1 = -1 ∨ (findKing s.board c).2 = -1
  · rw [if_pos hking, if_pos hking]
  · rw [if_neg hking, if_neg hking]
    have hd := findKing_occupied s.board c hking
    have hfold : ∀ (l : List Int) (acc : Bool × ChessBoard), (∀ y ∈ l, y ∈ coords) →
        acc.2.board = s.board →
        l.foldl (fun (acc : Bool × ChessBoard) y =>
            ((acc.1 || (attackScanRow chk1 (findKing s.board c).1 (findKing s.board c).2 c y
              coords acc.2).1),
              (attackScanRow chk1 (findKing s.board c).1 (findKing s.board c).2 c y
                coords acc.2).2)) acc
          = l.foldl (fun (acc : Bool × ChessBoard) y =>
            ((acc.1 || (attackScanRow chk2 (findKing s.board c).1 (findKing s.board c).2 c y
              coords acc.2).1),
              (attackScanRow chk2 (findKing s.board c).1 (findKing s.board c).2 c y
                coords acc.2).2)) acc := by
      intro l
      induction l with
      | nil => intro acc _ _; rfl
      | cons y l ih =>
        intro acc hl hb
        rw [List.foldl_cons, List.foldl_cons]
        have hrow := attackScanRow_agree chk1 chk2 hk N h (findKing s.board c).1
          (findKing s.board c).2 c y (hl y (List.mem_cons_self y l)) coords acc.2
          (fun x hx => hx) (by rw [hb]; exact hd) (by rw [hb]; exact hN)
        rw [hrow]
        apply ih _ (fun y1 h1 => hl y1 (List.mem_cons_of_mem y h1))
        exact (attackScanRow_board chk2 hk (findKing s.board c).1 (findKing s.board c).2 c y
          coords acc.2 (by rw [hb]; exact hd)).trans hb
    rw [hfold coords _ (fun y hy => hy) rfl]

theorem isKingInCheckFrom_add (chk0 : ChessBoard → Bool → Bool × ChessBoard) (k : Nat) :
    ∀ m : Nat, isKingInCheckFrom chk0 (k + m) = isKingInCheckFrom (isKingInCheckFrom chk0 k) m
  | 0 => rfl
  | m + 1 => by
    show isKingInCheckBody (isKingInCheckFrom chk0 (k + m)) = _
    rw [isKingInCheckFrom_add chk0 k m]
    rfl

/-- On a board with fewer than `n` occupied squares, `n` levels of
`isKingInCheck` never reach the cut-off. -/
theorem isKingInCheckFrom_agree (chk1 chk2 : ChessBoard → Bool → Bool × ChessBoard)
    (hk : Keeps chk2) :
    ∀ (n : Nat) (s : ChessBoard) (c : Bool), countOccupied s.board < n →
      isKingInCheckFrom chk1 n s c = isKingInCheckFrom chk2 n s c
  | 0, _, _, h => absurd h (Nat.not_lt_zero _)
  | n + 1, s, c, h =>
    isKingInCheckBody_agree _ _ (isKingInCheckFrom_keeps chk2 hk n) n
      (fun u c1 hu => isKingInCheckFrom_agree chk1 chk2 hk n u c1 hu) s c (Nat.lt_succ_iff.1 h)

theorem isKingInCheckFuel_eq : ∀ n : Nat,
    isKingInCheckFuel n = isKingInCheckFrom (fun s _ => (true, s)) n
  | 0 => rfl
  | n + 1 => by
    show isKingInCheckBody (isKingInCheckFuel n) = isKingInCheckBody _
    rw [isKingInCheckFuel_eq n]

/-- C32: the nesting of `isKingInCheck` calls ends on every board.  Each nested
call works on a board with one occupied square less, so with a cut-off below 65
or more levels the answer and the state left are those of `isKingInCheck`,
whatever the cut-off level would answer: the cut-off is never reached, and
`isValidMove` over such a cut-off nesting is `isValidMove` itself. -/
theorem C32_isKingInCheck_terminates (chk0 : ChessBoard → Bool → Bool × ChessBoard) (n : Nat) :
    isKingInCheckFrom chk0 (n + 65) = isKingInCheck
      ∧ (∀ s fromX fromY toX toY a b c,
          isValidMoveWith (isKingInCheckFrom chk0 (n + 65)) s fromX fromY toX toY a b c
            = isValidMoveFull s fromX fromY toX toY a b c)
      ∧ ∀ b : Grid, countOccupied b < 65 := by
  have heq : isKingInCheckFrom chk0 (n + 65) = isKingInCheck := by
    funext s c
    rw [isKingInCheckFrom_add chk0 n 65]
    have hlt : countOccupied s.board < 65 := Nat.lt_succ_of_le (countOccupied_le s.board)
    rw [isKingInCheckFrom_agree (isKingInCheckFrom chk0 n) (fun s _ => (true, s))
      (fun s _ => ⟨Unchanged.refl s, Or.inl rfl⟩) 65 s c hlt]
    unfold isKingInCheck
    rw [isKingInCheckFuel_eq 65]
  refine ⟨heq, ?_, fun b => Nat.lt_succ_of_le (countOccupied_le b)⟩
  intro s fromX fromY toX toY a b c
  rw [heq]
  rfl

/-! ## Theorems: checkmate search, castling commit, notation, flags and reset at the inputs where the code departs -/

set_option maxRecDepth 100000 in
/-- C33: in `pawnGivesCheckPosition` the call `isCheckmate(white)` returns false
and restores `lastMove`, but the black pawn that stood on d5 before the call is
gone after it and `didWEnPassant`, false before, is true. -/
theorem C33_isCheckmate_removes_pawn :
    (pawnGivesCheckPosition.board 3 3, pawnGivesCheckPosition.didWEnPassant)
        = (⟨'P', false⟩, false)
      ∧ ((isCheckmate pawnGivesCheckPosition true).1,
          (isCheckmate pawnGivesCheckPosition true).2.lastMove,
          (isCheckmate pawnGivesCheckPosition true).2.board 3 3,
          (isCheckmate pawnGivesCheckPosition true).2.didWEnPassant)
        = (false, "d5", Piece.none, true) := by
  decide!

set_option maxRecDepth 100000 in
/-- C34: in `pinnedPawnCastlePosition` White first tries the en passant capture
e5xd6, which `isValidMove` rejects, leaving `didWEnPassant` set.  In that state
`isValidKingMove` accepts the castling e1-g1 with the rook h1 going to f1, but
`movePiece` moves the king only: the rook is still on h1 and f1 is empty. -/
theorem C34_castling_without_rook_move :
    (isValidMove pinnedPawnCastlePosition 4 3 3 2).1 = false
      ∧ (isValidMove pinnedPawnCastlePosition 4 3 3 2).2.didWEnPassant = true
      ∧ ((isValidKingMove (isValidMove pinnedPawnCastlePosition 4 3 3 2).2 4 7 6 7 true).1.valid,
          (isValidKingMove (isValidMove pinnedPawnCastlePosition 4 3 3 2).2 4 7 6 7
            true).1.isCastling,
          (isValidKingMove (isValidMove pinnedPawnCastlePosition 4 3 3 2).2 4 7 6 7
            true).1.rookFromX,
          (isValidKingMove (isValidMove pinnedPawnCastlePosition 4 3 3 2).2 4 7 6 7
            true).1.rookToX)
        = (true, true, 7, 5)
      ∧ (commitKingMove (isValidMove pinnedPawnCastlePosition 4 3 3 2).2 4 7 6 7 true).map
          (fun s => (rowOf s.board 7, s.lastMove, s.hasWhiteKingMoved))
        = some ([Piece.none, Piece.none, Piece.none, Piece.none, Piece.none, Piece.none,
            ⟨'K', true⟩, ⟨'R', true⟩], "O-O", true) := by
  decide!

set_option maxRecDepth 100000 in
/-- C35: in `threeRooksPosition` the rooks a5 and h3 can reach a3 as well as
the rook a1, and `detectAmbiguity` returns `(true, true)` for Ra1-a3.  The
validator writes `"Ra3a3"`: the fragment after the piece letter is the
destination square a3, not the origin square a1. -/
theorem C35_both_disambiguators_name_the_destination :
    detectAmbiguity threeRooksPosition.board 0 7 0 5 'R' true = (true, true)
      ∧ (isValidRookMove threeRooksPosition 0 7 0 5 true).2.lastMove = "Ra3a3"
      ∧ (commitMove threeRooksPosition 0 7 0 5).map (fun s => s.lastMove) = some "Ra3a3" := by
  decide!

set_option maxRecDepth 100000 in
/-- C36: in `twoRooksPosition` no castling flag is set; White commits Rh5-h6,
and afterwards `hasBlackRookMoved[1]` is true: the move of a white rook, which
did not leave a home corner, has set a flag of Black. -/
theorem C36_white_rook_sets_black_flag :
    twoRooksPosition.hasBlackRookMoved = (false, false)
      ∧ twoRooksPosition.board 3 7 = ⟨'R', true⟩
      ∧ (commitMove twoRooksPosition 7 3 7 2).map
          (fun s => (s.board 2 7, s.hasBlackRookMoved, s.hasWhiteRookMoved))
        = some (⟨'R', true⟩, (false, true), (false, false)) := by
  decide!

set_option maxRecDepth 100000 in
/-- C37: `resetBoard` leaves every square of rows 2 to 5 as it was, since the
`resize` call does not touch an 8 by 8 grid and `initializeBoard` writes rows 0,
1, 6 and 7 only.  After 1. e4 from the initial position the reset board holds
the white pawn on e4 in addition to the 32 pieces of the initial position, where
a freshly constructed board has e4 empty. -/
theorem C37_resetBoard_keeps_middle_rows (s : ChessBoard) (x : Int) :
    ((resetBoard s).board 2 x = s.board 2 x ∧ (resetBoard s).board 3 x = s.board 3 x
        ∧ (resetBoard s).board 4 x = s.board 4 x ∧ (resetBoard s).board 5 x = s.board 5 x)
      ∧ (resetBoard { ChessBoard.new with
            board := boardAfter ChessBoard.new.board 4 6 4 4 }).board 4 4 = ⟨'P', true⟩
      ∧ (resetBoard { ChessBoard.new with
            board := boardAfter ChessBoard.new.board 4 6 4 4 }).board 6 4 = ⟨'P', true⟩
      ∧ ChessBoard.new.board 4 4 = Piece.none := by
  have hfacts : (resetBoard { ChessBoard.new with
            board := boardAfter ChessBoard.new.board 4 6 4 4 }).board 4 4 = ⟨'P', true⟩
      ∧ (resetBoard { ChessBoard.new with
            board := boardAfter ChessBoard.new.board 4 6 4 4 }).board 6 4 = ⟨'P', true⟩
      ∧ ChessBoard.new.board 4 4 = Piece.none := by
    decide!
  refine ⟨?_, hfacts⟩
  have hrow : ∀ (b : Grid) (y : Int), y ≠ 0 → y ≠ 1 → y ≠ 6 → y ≠ 7 →
      initializeBoard b y x = b y x := by
    intro b y h0 h1 h6 h7
    unfold initializeBoard
    have step1 : ∀ (l : List Int) (g : Grid),
        (l.foldl (fun g x => (g.set 1 x ⟨'P', false⟩).set 6 x ⟨'P', true⟩) g) y x = g y x := by
      intro l
      induction l with
      | nil => intro g; rfl
      | cons a l ih =>
        intro g
        rw [List.foldl_cons, ih, Grid.set_apply, Grid.set_apply, if_neg (fun h => h6 h.1),
          if_neg (fun h => h1 h.1)]
    have step2 : ∀ (l : List Int) (g : Grid),
        (l.foldl (fun g x => (g.set 0 x ⟨order.getD x.toNat ' ', false⟩).set 7 x
          ⟨order.getD x.toNat ' ', true⟩) g) y x = g y x := by
      intro l
      induction l with
      | nil => intro g; rfl
      | cons a l ih =>
        intro g
        rw [List.foldl_cons, ih, Grid.set_apply, Grid.set_apply, if_neg (fun h => h7 h.1),
          if_neg (fun h => h0 h.1)]
    rw [step2, step1]
  exact ⟨hrow s.board 2 (by decide) (by decide) (by decide) (by decide),
    hrow s.board 3 (by decide) (by decide) (by decide) (by decide),
    hrow s.board 4 (by decide) (by decide) (by decide) (by decide),
    hrow s.board 5 (by decide) (by decide) (by decide) (by decide)⟩

/-! ## Theorems: no move lands on a piece of its own colour -/

theorem kingStep_accepts (chk : ChessBoard → Bool → Bool × ChessBoard) (s : ChessBoard)
    (fromX fromY toX toY : Int) (isWhite : Bool)
    (h : (kingStep chk s fromX fromY toX toY isWhite).1.valid = true) :
    isSameColor (s.board fromY fromX) (s.board toY toX) = false := by
  by_cases hc : isSameColor (s.board fromY fromX) (s.board toY toX) = false
  · exact hc
  · unfold kingStep at h
    rw [if_neg hc] at h
    exact absurd h Bool.false_ne_true

/-- A castling that `kingCastle` accepts for a king on file e lands on an empty
square. -/
theorem kingCastle_accepts (s : ChessBoard) (fromY toX : Int) (isWhite : Bool)
    (hd : (toX - 4).natAbs = 2)
    (h : (kingCastle s 4 fromY toX isWhite).1.valid = true) :
    (s.board fromY toX).isEmpty = true
      ∧ (if isWhite then s.hasWhiteKingMoved else s.hasBlackKingMoved) = false := by
  by_cases hgt : toX > 4
  · rw [kingCastle_short s 4 fromY toX isWhite hgt] at h
    have hloop := castlingPathLoop_short s.board fromY 8 (4 + 1) (by omega) (by decide)
    simp only [Bool.and_eq_true, Bool.not_eq_true', decide_eq_true_eq, hloop] at h
    exact ⟨h.1.2 toX (by omega) (by omega), h.1.1.1⟩
  · rw [kingCastle_long s 4 fromY toX isWhite hgt] at h
    have hloop := castlingPathLoop_long s.board fromY 8 (4 + -1) (by omega) (by decide)
    simp only [Bool.and_eq_true, Bool.not_eq_true', decide_eq_true_eq, hloop] at h
    exact ⟨h.1.2 toX (by omega) (by omega), h.1.1.1⟩

/-- The flag test of `kingCastle`: an accepted castling means the king-moved flag
of the colour is false. -/
theorem kingCastle_flag (s : ChessBoard) (fromX fromY toX : Int) (isWhite : Bool)
    (h : (kingCastle s fromX fromY toX isWhite).1.valid = true) :
    (if isWhite then s.hasWhiteKingMoved else s.hasBlackKingMoved) = false := by
  by_cases hgt : toX > fromX
  · rw [kingCastle_short s fromX fromY toX isWhite hgt] at h
    simp only [Bool.and_eq_true, Bool.not_eq_true'] at h
    exact h.1.1.1
  · rw [kingCastle_long s fromX fromY toX isWhite hgt] at h
    simp only [Bool.and_eq_true, Bool.not_eq_true'] at h
    exact h.1.1.1

theorem isSameColor_empty (p q : Piece) (h : q.isEmpty = true) : isSameColor p q = false := by
  unfold isSameColor
  rw [if_pos h]

/-- The king validator never accepts a move onto a piece of the king's colour,
when every unmoved king of the board stands on its home square. -/
theorem isValidKingMoveWith_accepts (chk : ChessBoard → Bool → Bool × ChessBoard)
    (s : ChessBoard) (fromX fromY toX toY : Int)
    (hhome : ∀ y ∈ coords, ∀ x ∈ coords, (s.board y x).type = 'K' →
      (if (s.board y x).isWhite then s.hasWhiteKingMoved else s.hasBlackKingMoved) = false →
      x = 4 ∧ y = (if (s.board y x).isWhite then 7 else 0))
    (hfrom : isValidTile fromX fromY = true)
    (hking : (s.board fromY fromX).type = 'K')
    (h : (isValidKingMoveWith chk s fromX fromY toX toY (s.board fromY fromX).isWhite).1.valid
      = true) :
    isSameColor (s.board fromY fromX) (s.board toY toX) = false := by
  unfold isValidKingMoveWith at h
  dsimp only at h
  by_cases h1 : (toX - fromX).natAbs ≤ 1 ∧ (toY - fromY).natAbs ≤ 1
  · rw [if_pos h1] at h
    exact kingStep_accepts chk s fromX fromY toX toY _ h
  · rw [if_neg h1] at h
    by_cases h2 : (toY - fromY).natAbs = 0 ∧ (toX - fromX).natAbs = 2
    · rw [if_pos h2] at h
      have hflag := kingCastle_flag s fromX fromY toX _ h
      have hv := (isValidTile_iff fromX fromY).1 hfrom
      have hmem : ∀ z : Int, 0 ≤ z ∧ z < 8 → z ∈ coords := by
        intro z hz
        have : z = 0 ∨ z = 1 ∨ z = 2 ∨ z = 3 ∨ z = 4 ∨ z = 5 ∨ z = 6 ∨ z = 7 := by omega
        rcases this with h | h | h | h | h | h | h | h <;> subst h <;> simp [coords]
      have hx := (hhome fromY (hmem fromY hv.2) fromX (hmem fromX hv.1) hking hflag).1
      subst hx
      have hy : toY = fromY := by omega
      subst hy
      exact isSameColor_empty _ _ (kingCastle_accepts s toY toX _ h2.2 h).1
    · rw [if_neg h2] at h
      exact absurd h Bool.false_ne_true

theorem isValidPawnMove_accepts (s : ChessBoard) (fromX fromY toX toY : Int)
    (isWhite isDrawingMoves : Bool)
    (h : (isValidPawnMove s fromX fromY toX toY isWhite isDrawingMoves).1 = true) :
    isSameColor (s.board fromY fromX) (s.board toY toX) = false := by
  unfold isValidPawnMove at h
  cases isWhite <;> cases isDrawingMoves <;>
    simp only [Bool.not_false, Bool.not_true, if_true, if_false, Bool.false_eq_true] at h <;>
    split_ifs at h with h1 h2 h3 h4 h5 <;>
    first
    | exact isSameColor_empty _ _ h1.2.2
    | exact isSameColor_empty _ _ h2.2.2.2.1
    | exact h3.2.2.2
    | exact isSameColor_empty _ _ h4.2.2

theorem lineValidator_accepts (s : ChessBoard) (fromX fromY toX toY : Int) (isWhite : Bool) :
    ((isValidRookMove s fromX fromY toX toY isWhite).1 = true →
        isSameColor (s.board fromY fromX) (s.board toY toX) = false)
      ∧ ((isValidKnightMove s fromX fromY toX toY isWhite).1 = true →
        isSameColor (s.board fromY fromX) (s.board toY toX) = false)
      ∧ ((isValidBishopMove s fromX fromY toX toY isWhite).1 = true →
        isSameColor (s.board fromY fromX) (s.board toY toX) = false)
      ∧ ((isValidQueenMove s fromX fromY toX toY isWhite).1 = true →
        isSameColor (s.board fromY fromX) (s.board toY toX) = false) := by
  unfold isValidRookMove isValidKnightMove isValidBishopMove isValidQueenMove
  cases hc : isSameColor (s.board fromY fromX) (s.board toY toX)
  · exact ⟨fun _ => rfl, fun _ => rfl, fun _ => rfl, fun _ => rfl⟩
  · refine ⟨?_, ?_, ?_, ?_⟩ <;> intro h <;> split_ifs at h <;>
      first | exact absurd h Bool.false_ne_true | simp_all

/-- An accepting `isValidMove` had a non-empty origin, two in-board squares and
an accepting piece validator. -/
theorem isValidMoveWith_accepts (chk : ChessBoard → Bool → Bool × ChessBoard) (s : ChessBoard)
    (fromX fromY toX toY : Int) (inSimulation skipKingSafetyCheck isDrawingMoves : Bool)
    (h : (isValidMoveWith chk s fromX fromY toX toY inSimulation skipKingSafetyCheck
      isDrawingMoves).1 = true) :
    (s.board fromY fromX).isEmpty = false
      ∧ (isValidTile fromX fromY = true ∧ isValidTile toX toY = true)
      ∧ ∃ s1, validatePiece chk { s with backupLastMove := s.lastMove, backupBoard := s.board }
          (s.board fromY fromX) fromX fromY toX toY isDrawingMoves = some (true, s1) := by
  unfold isValidMoveWith at h
  dsimp only at h
  by_cases he : (s.board fromY fromX).isEmpty = true
  · rw [if_pos he] at h; exact absurd h Bool.false_ne_true
  rw [if_neg he] at h
  by_cases ht : (!isValidTile fromX fromY || !isValidTile toX toY) = true
  · rw [if_pos ht] at h; exact absurd h Bool.false_ne_true
  rw [if_neg ht] at h
  refine ⟨by simpa using he, by simpa using ht, ?_⟩
  generalize hv : validatePiece chk
    { s with backupLastMove := s.lastMove, backupBoard := s.board }
    (s.board fromY fromX) fromX fromY toX toY isDrawingMoves = v at h
  match v, h with
  | Option.none, h => exact absurd h Bool.false_ne_true
  | some (true, s1), _ => exact ⟨s1, rfl⟩
  | some (false, s1), h => exact absurd h Bool.false_ne_true

/-- C38: on a board where every king whose moved-flag is false stands on its
home square (e1 for White, e8 for Black), a move from an in-board square that
`isValidMove` accepts, or that `isValidKingMove` accepts for a king, has an
origin different from its destination, and its destination is empty or holds a
piece of the other colour. -/
theorem C38_no_landing_on_own_piece (s : ChessBoard) (fromX fromY toX toY : Int)
    (hhome : ∀ y ∈ coords, ∀ x ∈ coords, (s.board y x).type = 'K' →
      (if (s.board y x).isWhite then s.hasWhiteKingMoved else s.hasBlackKingMoved) = false →
      x = 4 ∧ y = (if (s.board y x).isWhite then 7 else 0))
    (hfrom : isValidTile fromX fromY = true)
    (hacc : (isValidMove s fromX fromY toX toY).1 = true
      ∨ ((s.board fromY fromX).type = 'K'
        ∧ (isValidKingMove s fromX fromY toX toY (s.board fromY fromX).isWhite).1.valid = true)) :
    ¬ (toX = fromX ∧ toY = fromY)
      ∧ ((s.board toY toX).isEmpty = true
        ∨ (s.board toY toX).isWhite ≠ (s.board fromY fromX).isWhite) := by
  have key : (s.board fromY fromX).isEmpty = false
      ∧ isSameColor (s.board fromY fromX) (s.board toY toX) = false := by
    rcases hacc with hacc | ⟨hk, hacc⟩
    · obtain ⟨he, _, s1, hv⟩ := isValidMoveWith_accepts isKingInCheck s fromX fromY toX toY
        false false false hacc
      refine ⟨he, ?_⟩
      unfold validatePiece at hv
      split_ifs at hv with h1 h2 h3 h4 h5 h6
      all_goals have hv1 : _ = true := congrArg Prod.fst (Option.some.inj hv)
      · exact isValidPawnMove_accepts
          { s with backupLastMove := s.lastMove, backupBoard := s.board }
          fromX fromY toX toY _ false hv1
      · exact (lineValidator_accepts
          { s with backupLastMove := s.lastMove, backupBoard := s.board }
          fromX fromY toX toY _).1 hv1
      · exact (lineValidator_accepts
          { s with backupLastMove := s.lastMove, backupBoard := s.board }
          fromX fromY toX toY _).2.1 hv1
      · exact (lineValidator_accepts
          { s with backupLastMove := s.lastMove, backupBoard := s.board }
          fromX fromY toX toY _).2.2.1 hv1
      · exact (lineValidator_accepts
          { s with backupLastMove := s.lastMove, backupBoard := s.board }
          fromX fromY toX toY _).2.2.2 hv1
      · exact isValidKingMoveWith_accepts isKingInCheck
          { s with backupLastMove := s.lastMove, backupBoard := s.board }
          fromX fromY toX toY hhome hfrom h6 hv1
    · refine ⟨?_, isValidKingMoveWith_accepts isKingInCheck s fromX fromY toX toY hhome hfrom
        hk hacc⟩
      unfold Piece.isEmpty
      rw [hk]
      rfl
  obtain ⟨he, hc⟩ := key
  constructor
  · rintro ⟨rfl, rfl⟩
    unfold isSameColor at hc
    rw [if_neg (by rw [he]; exact Bool.false_ne_true)] at hc
    simp at hc
  · unfold isSameColor at hc
    by_cases hd : (s.board toY toX).isEmpty = true
    · exact Or.inl hd
    · rw [if_neg hd] at hc
      right
      intro heq
      rw [heq] at hc
      simp at hc

set_option maxRecDepth 100000 in
/-- C38 in `twoRooksPosition`, where both kings stand on their home squares:
the accepted move Ra1-a3 goes to another square, which is empty. -/
theorem C38_no_landing_on_own_piece_witness :
    (isValidMove twoRooksPosition 0 7 0 5).1 = true
      ∧ ¬ ((0 : Int) = 0 ∧ (5 : Int) = 7)
      ∧ ((twoRooksPosition.board 5 0).isEmpty = true
        ∨ (twoRooksPosition.board 5 0).isWhite ≠ (twoRooksPosition.board 7 0).isWhite) := by
  have hacc : (isValidMove twoRooksPosition 0 7 0 5).1 = true := by decide!
  exact ⟨hacc, C38_no_landing_on_own_piece twoRooksPosition 0 7 0 5 (by decide!) (by decide)
    (Or.inl hacc)⟩

/-! ## Theorems: a board without a king -/

theorem noKing_of_countKings (b : Grid) (c : Bool) (h : countKings b c = 0) : NoKing b c := by
  unfold countKings at h
  have hnil := List.length_eq_zero.1 h
  intro q hq hk
  have := (List.filter_eq_nil_iff.1 hnil) q hq
  apply this
  simp only [Bool.and_eq_true, Bool.not_eq_true', beq_iff_eq]
  exact ⟨hk.1, hk.2.1, hk.2.2⟩

theorem findKing_none (b : Grid) (c : Bool) (h : NoKing b c) : findKing b c = (-1, -1) := by
  unfold findKing
  refine foldl_invariant_mem (fun k => k = (-1, -1)) _ coords ?_ (-1, -1) rfl
  intro k y hy hk
  dsimp only
  have hnone : coords.find?
      (fun x => !(b y x).isEmpty && ((b y x).type == 'K' && (b y x).isWhite == c))
      = Option.none := by
    rw [List.find?_eq_none]
    intro x hx hp
    have hv := (isValidTile_iff x y).1 (coords_valid y hy x hx)
    have hq : (y, x) ∈ squares := (mem_squares (y, x)).2 ⟨⟨hv.2.1, by omega⟩, ⟨hv.1.1, by omega⟩⟩
    simp only [Bool.and_eq_true, Bool.not_eq_true', beq_iff_eq] at hp
    exact h (y, x) hq ⟨hp.1, hp.2.1, hp.2.2⟩
  rw [hnone]
  exact hk

/-- With no king of the colour on the board, `isKingInCheck` answers true at
once and leaves the object untouched. -/
theorem isKingInCheck_noKing (s : ChessBoard) (c : Bool) (h : NoKing s.board c) :
    isKingInCheck s c = (true, s) := by
  rw [isKingInCheck_unfold]
  unfold isKingInCheckBody
  dsimp only
  rw [findKing_none s.board c h]
  rfl

theorem noKing_thinned (o t : ChessBoard) (c : Bool) (h : NoKing o.board c)
    (ht : Thinned o t) : NoKing t.board c := by
  intro q hq hk
  rcases (ht q.1 q.2).1 with he | he
  · rw [he] at hk; exact h q hq hk
  · rw [he] at hk
    exact absurd hk.1 (by decide)

/-- With no king of colour `c` on the board, `isValidMove` rejects every move
of a piece of colour `c`. -/
theorem isValidMoveWith_noKing (s : ChessBoard) (fromX fromY toX toY : Int)
    (inSimulation isDrawingMoves : Bool) (c : Bool) (h : NoKing s.board c)
    (hc : (s.board fromY fromX).isWhite = c) :
    (isValidMoveWith isKingInCheck s fromX fromY toX toY inSimulation false isDrawingMoves).1
      = false := by
  unfold isValidMoveWith
  dsimp only
  by_cases he : (s.board fromY fromX).isEmpty = true
  · rw [if_pos he]
  rw [if_neg he]
  by_cases ht : (!isValidTile fromX fromY || !isValidTile toX toY) = true
  · rw [if_pos ht]
  rw [if_neg ht]
  have hfrom : isValidTile fromX fromY = true := by
    cases hv : isValidTile fromX fromY
    · rw [hv] at ht; simp at ht
    · rfl
  have hvf := (isValidTile_iff fromX fromY).1 hfrom
  have hqf : (fromY, fromX) ∈ squares :=
    (mem_squares (fromY, fromX)).2 ⟨⟨hvf.2.1, by omega⟩, ⟨hvf.1.1, by omega⟩⟩
  have hnk : (s.board fromY fromX).type ≠ 'K' := fun hk =>
    h (fromY, fromX) hqf ⟨by simpa using he, hk, hc⟩
  generalize hv : validatePiece isKingInCheck
    { s with backupLastMove := s.lastMove, backupBoard := s.board }
    (s.board fromY fromX) fromX fromY toX toY isDrawingMoves = v
  match v, hv with
  | Option.none, _ => rfl
  | some (false, s1), _ => rfl
  | some (true, s1), hv =>
    have hval := validatePiece_validated isKingInCheck isKingInCheck_keeps _ _ fromX fromY
      toX toY isDrawingMoves true s1 hv
    have hs1 : ∀ y x, s1.board y x = s.board y x ∨ s1.board y x = Piece.none := by
      intro y x
      rcases hval.board with hb | ⟨hb, _, _⟩
      · rw [hb]; exact Or.inl rfl
      · rw [hb, Grid.set_apply]
        by_cases hyx : y = fromY ∧ x = toX
        · rw [if_pos hyx]; exact Or.inr rfl
        · rw [if_neg hyx]; exact Or.inl rfl
    have hno : NoKing ((s1.board.set toY toX (s.board fromY fromX)).set fromY fromX
        Piece.none) c := by
      intro q hq hk
      simp only [Grid.set_apply] at hk
      by_cases h1 : q.1 = fromY ∧ q.2 = fromX
      · rw [if_pos h1] at hk
        exact absurd hk.1 (by decide)
      · rw [if_neg h1] at hk
        by_cases h2 : q.1 = toY ∧ q.2 = toX
        · rw [if_pos h2] at hk
          exact hnk hk.2.1
        · rw [if_neg h2] at hk
          rcases hs1 q.1 q.2 with he1 | he1
          · rw [he1] at hk; exact h q hq hk
          · rw [he1] at hk; exact absurd hk.1 (by decide)
    show (!(isKingInCheck
      { s1 with board := ((s1.board.set toY toX (s.board fromY fromX)).set fromY fromX
          Piece.none) } (s.board fromY fromX).isWhite).1) = false
    rw [hc, isKingInCheck_noKing _ c hno]
    rfl

theorem destinationScan_noKing (o : ChessBoard) (c : Bool) (h : NoKing o.board c) (x y : Int) :
    ∀ (ds : List (Int × Int)) (s : ChessBoard), Thinned o s →
      (s.board y x).isWhite = c → (destinationScan x y ds s).1 = false
  | [], _, _, _ => rfl
  | d :: ds, s, ht, hc => by
    have hstep := isValidMoveWith_noKing s x y d.2 d.1 true false c (noKing_thinned o s c h ht) hc
    have hth := thinned_step isKingInCheck isKingInCheck_keeps o s x y d.2 d.1 true false false ht
    obtain ⟨hv, _⟩ := isValidMoveWith_validated isKingInCheck isKingInCheck_keeps s x y d.2 d.1
      true false false
    have hsq : (isValidMoveWith isKingInCheck s x y d.2 d.1 true false false).2.board y x
        = s.board y x := by
      rcases hv.board with hb | ⟨hb, _, hne⟩
      · rw [hb]
      · rw [hb, Grid.set_apply, if_neg (fun hh => hne hh.2.symm)]
    unfold destinationScan
    dsimp only
    unfold isValidMoveFull
    rw [hstep]
    simp only [Bool.false_eq_true, if_false]
    exact destinationScan_noKing o c h x y ds _ hth (by rw [hsq]; exact hc)

theorem pieceScan_noKing (o : ChessBoard) (c : Bool) (h : NoKing o.board c) :
    ∀ (qs : List (Int × Int)) (s : ChessBoard), Thinned o s → (pieceScan c qs s).1 = false
  | [], _, _ => rfl
  | q :: qs, s, ht => by
    unfold pieceScan
    by_cases he : (s.board q.1 q.2).isEmpty = true
    · rw [if_pos he]
      exact pieceScan_noKing o c h qs s ht
    · rw [if_neg he]
      by_cases hc : (!(s.board q.1 q.2).isEmpty && (s.board q.1 q.2).isWhite == c) = true
      · rw [if_pos hc]
        have hcol : (s.board q.1 q.2).isWhite = c := by
          simp only [Bool.and_eq_true, beq_iff_eq] at hc
          exact hc.2
        dsimp only
        rw [destinationScan_noKing o c h q.2 q.1 squares s ht hcol]
        simp only [Bool.false_eq_true, if_false]
        exact pieceScan_noKing o c h qs _ (destinationScan_thinned o q.2 q.1 squares s ht)
      · rw [if_neg hc]
        exact pieceScan_noKing o c h qs s ht

theorem isCheckmate_noKing (s : ChessBoard) (c : Bool) (h : NoKing s.board c) :
    (isCheckmate s c).1 = true := by
  unfold isCheckmate
  dsimp only
  rw [isKingInCheck_noKing s c h]
  simp only [Bool.not_true, Bool.false_eq_true, if_false]
  have h0 : Thinned s { s with backupBoard := s.board } := fun y x => ⟨Or.inl rfl, Or.inl rfl⟩
  show (!(pieceScan c squares { s with backupBoard := s.board }).1) = true
  rw [pieceScan_noKing s c h squares _ h0]
  rfl

/-- C29: on every board that holds no king of colour `c`,
`isKingInCheck(c)` answers true without looking further ("assume check if king
is missing"), `isCheckmate(c)` returns true because every candidate move is
rejected for the same reason, and the check detection at the end of
`movePiece` appends `"#"` when the side that did not move has no king. -/
theorem C29_missing_king_is_checkmate (s : ChessBoard) (c : Bool)
    (hnone : countKings s.board c = 0) :
    isKingInCheck s c = (true, s)
      ∧ (isCheckmate s c).1 = true
      ∧ ∀ toX toY : Int, c = (!(s.board toY toX).isWhite) →
          (movePieceSuffix s toX toY).lastMove = s.lastMove ++ "#" := by
  have h := noKing_of_countKings s.board c hnone
  refine ⟨isKingInCheck_noKing s c h, isCheckmate_noKing s c h, ?_⟩
  intro toX toY hc
  subst hc
  have hm := isCheckmate_noKing s _ h
  have hl := (isCheckmate_state s (!(s.board toY toX).isWhite)).2.2.2.2.1
  unfold movePieceSuffix
  dsimp only
  rw [isKingInCheck_noKing s _ h]
  simp only [if_true]
  rw [if_pos hm]
  show _ ++ "#" = _
  rw [hl]

set_option maxRecDepth 100000 in
/-- C29 on `noKingPosition`, which holds no black king. -/
theorem C29_missing_king_is_checkmate_witness :
    countKings noKingPosition.board false = 0
      ∧ (isCheckmate noKingPosition false).1 = true :=
  ⟨by decide!, (C29_missing_king_is_checkmate noKingPosition false (by decide!)).2.1⟩

/-! ## Theorems: a piece pinned to its king -/

theorem mem_coords (x y : Int) (h : isValidTile x y = true) : x ∈ coords ∧ y ∈ coords := by
  have hv := (isValidTile_iff x y).1 h
  unfold coords
  simp only [List.mem_cons, List.mem_singleton, List.not_mem_nil, or_false]
  omega

/-- When the grid holds exactly one king of a colour, `findKing` reports its
square. -/
theorem findKing_unique (b : Grid) (c : Bool) (kingX kingY : Int)
    (hk : isValidTile kingX kingY = true)
    (hking : (b kingY kingX).type = 'K' ∧ (b kingY kingX).isWhite = c)
    (honly : ∀ y x : Int, isValidTile x y = true → (b y x).type = 'K' →
      (b y x).isWhite = c → x = kingX ∧ y = kingY) :
    findKing b c = (kingX, kingY) := by
  have hmem := mem_coords kingX kingY hk
  have hp : ∀ y x, (!(b y x).isEmpty && ((b y x).type == 'K' && (b y x).isWhite == c)) = true →
      (b y x).type = 'K' ∧ (b y x).isWhite = c := by
    intro y x h
    simp only [Bool.and_eq_true, Bool.not_eq_true', beq_iff_eq] at h
    exact h.2
  have hrow : ∀ y ∈ coords,
      coords.find?
          (fun x => !(b y x).isEmpty && ((b y x).type == 'K' && (b y x).isWhite == c))
        = if y = kingY then some kingX else Option.none := by
    intro y hy
    cases hf : coords.find?
        (fun x => !(b y x).isEmpty && ((b y x).type == 'K' && (b y x).isWhite == c)) with
    | none =>
      by_cases hyk : y = kingY
      · exfalso
        rw [List.find?_eq_none] at hf
        apply hf kingX hmem.1
        subst hyk
        have he : (b y kingX).isEmpty = false := by
          unfold Piece.isEmpty
          rw [hking.1]
          rfl
        simp only [he, hking.1, hking.2, Bool.not_false, beq_self_eq_true, Bool.and_self]
      · rw [if_neg hyk]
    | some x =>
      have hx := List.mem_of_find?_eq_some hf
      have hfs := List.find?_some hf
      have hpx := hp y x hfs
      have := honly y x (coords_valid y hy x hx) hpx.1 hpx.2
      rw [if_pos this.2, this.1]
  have key : ∀ (ys : List Int), (∀ y ∈ ys, y ∈ coords) → ∀ k : Int × Int,
      (k = (kingX, kingY) ∨ kingY ∈ ys) →
      ys.foldl
        (fun k y =>
          match coords.find?
            (fun x => !(b y x).isEmpty && ((b y x).type == 'K' && (b y x).isWhite == c)) with
          | some x => (x, y)
          | Option.none => k) k = (kingX, kingY) := by
    intro ys
    induction ys with
    | nil =>
      intro _ k hk
      rcases hk with hk | hk
      · exact hk
      · exact absurd hk (List.not_mem_nil _)
    | cons y ys ih =>
      intro hys k hk
      rw [List.foldl_cons, hrow y (hys y (List.mem_cons_self y ys))]
      by_cases hyk : y = kingY
      · rw [if_pos hyk]
        exact ih (fun z hz => hys z (List.mem_cons_of_mem y hz)) _ (Or.inl (by rw [hyk]))
      · rw [if_neg hyk]
        refine ih (fun z hz => hys z (List.mem_cons_of_mem y hz)) _ ?_
        rcases hk with hk | hk
        · exact Or.inl hk
        · rcases List.mem_cons.1 hk with h1 | h1
          · exact absurd h1.symm hyk
          · exact Or.inr h1
  unfold findKing
  exact key coords (fun _ h => h) (-1, -1) (Or.inr hmem.2)

theorem linePoint_zero (fromX fromY toX toY : Int) :
    linePoint fromX fromY toX toY 0 = (fromX, fromY) := by
  unfold linePoint
  simp

/-- On a common rank, file or diagonal the last step reaches the target. -/
theorem linePoint_length (fromX fromY toX toY : Int)
    (hline : fromX = toX ∨ fromY = toY ∨ (toX - fromX).natAbs = (toY - fromY).natAbs) :
    linePoint fromX fromY toX toY (lineLength fromX fromY toX toY) = (toX, toY) := by
  unfold linePoint lineLength
  generalize hn : max (toX - fromX).natAbs (toY - fromY).natAbs = n
  have hx : toX = fromX + (n : Int) * Int.sign (toX - fromX) := by
    rcases lt_trichotomy toX fromX with h | h | h
    · rw [Int.sign_eq_neg_one_of_neg (by omega)]; omega
    · subst h; simp
    · rw [Int.sign_eq_one_of_pos (by omega)]; omega
  have hy : toY = fromY + (n : Int) * Int.sign (toY - fromY) := by
    rcases lt_trichotomy toY fromY with h | h | h
    · rw [Int.sign_eq_neg_one_of_neg (by omega)]; omega
    · subst h; simp
    · rw [Int.sign_eq_one_of_pos (by omega)]; omega
  rw [← hx, ← hy]

theorem linePiece_aligned {p : Piece} {attX attY kingX kingY : Int}
    (h : LinePiece p attX attY kingX kingY) :
    attX = kingX ∨ attY = kingY ∨ (kingX - attX).natAbs = (kingY - attY).natAbs := by
  rcases h with ⟨_, h | h⟩ | ⟨_, h⟩
  · exact Or.inl h
  · exact Or.inr (Or.inl h)
  · exact Or.inr (Or.inr h)

theorem linePiece_occupied {p : Piece} {attX attY kingX kingY : Int}
    (h : LinePiece p attX attY kingX kingY) : p.isEmpty = false ∧ p.type ≠ 'P' := by
  unfold Piece.isEmpty
  rcases h with ⟨h | h, _⟩ | ⟨h | h, _⟩ <;> rw [h] <;> decide

/-- On its line, with nothing in between, a rook, bishop or queen is accepted
by its validator for the move onto a piece of the other colour. -/
theorem isValidMoveWith_line (chk : ChessBoard → Bool → Bool × ChessBoard) (t : ChessBoard)
    (attX attY kingX kingY : Int) (c : Bool)
    (ha : isValidTile attX attY = true) (hk : isValidTile kingX kingY = true)
    (hking : (t.board kingY kingX).isEmpty = false ∧ (t.board kingY kingX).isWhite = c)
    (hatt : (t.board attY attX).isWhite ≠ c)
    (hline : LinePiece (t.board attY attX) attX attY kingX kingY)
    (hclear : ∀ i : Nat, 0 < i → i < lineLength attX attY kingX kingY →
      (t.board (linePoint attX attY kingX kingY i).2
        (linePoint attX attY kingX kingY i).1).isEmpty = true) :
    (isValidMoveWith chk t attX attY kingX kingY true true false).1 = true := by
  have hpath : isPathClear t.board attX attY kingX kingY = true :=
    (isPathClear_spec t.board attX attY kingX kingY ha hk (linePiece_aligned hline)).2.1.2 hclear
  have hcol : isSameColor (t.board attY attX) (t.board kingY kingX) = false := by
    unfold isSameColor
    rw [hking.1, hking.2]
    simp only [Bool.false_eq_true, if_false, beq_eq_false_iff_ne]
    exact hatt
  rw [isValidMoveWith_skip_fst, if_neg (by rw [(linePiece_occupied hline).1]; exact Bool.false_ne_true),
    if_neg (by rw [ha, hk]; decide)]
  unfold validatePiece
  rcases hline with ⟨h | h, hl⟩ | ⟨h | h, hl⟩
  · rw [if_neg (by rw [h]; decide), if_pos h]
    show (isValidRookMove _ attX attY kingX kingY _).1 = true
    unfold isValidRookMove
    rw [if_neg (by omega), hpath, hcol]
    rfl
  · rw [if_neg (by rw [h]; decide), if_neg (by rw [h]; decide), if_neg (by rw [h]; decide),
      if_neg (by rw [h]; decide), if_pos h]
    show (isValidQueenMove _ attX attY kingX kingY _).1 = true
    unfold isValidQueenMove
    rw [if_neg (by omega), hpath, hcol]
    rfl
  · rw [if_neg (by rw [h]; decide), if_neg (by rw [h]; decide), if_neg (by rw [h]; decide),
      if_pos h]
    show (isValidBishopMove _ attX attY kingX kingY _).1 = true
    unfold isValidBishopMove
    rw [if_neg (by omega), hpath, hcol]
    rfl
  · rw [if_neg (by rw [h]; decide), if_neg (by rw [h]; decide), if_neg (by rw [h]; decide),
      if_neg (by rw [h]; decide), if_pos h]
    show (isValidQueenMove _ attX attY kingX kingY _).1 = true
    unfold isValidQueenMove
    rw [if_neg (by omega), hpath, hcol]
    rfl

/-- The attacker scan of the row of an attacking rook, bishop or queen takes
its `break`. -/
theorem attackScanRow_line (chk : ChessBoard → Bool → Bool × ChessBoard) (hkeeps : Keeps chk)
    (b : Grid) (attX attY kingX kingY : Int) (c : Bool)
    (ha : isValidTile attX attY = true) (hk : isValidTile kingX kingY = true)
    (hking : (b kingY kingX).isEmpty = false ∧ (b kingY kingX).isWhite = c)
    (hatt : (b attY attX).isWhite ≠ c)
    (hline : LinePiece (b attY attX) attX attY kingX kingY)
    (hclear : ∀ i : Nat, 0 < i → i < lineLength attX attY kingX kingY →
      (b (linePoint attX attY kingX kingY i).2 (linePoint attX attY kingX kingY i).1).isEmpty
        = true) :
    ∀ (xs : List Int) (t : ChessBoard), t.board = b → attX ∈ xs →
      (attackScanRow chk kingX kingY c attY xs t).1 = true
  | [], _, _, hx => absurd hx (List.not_mem_nil _)
  | x :: xs, t, hb, hx => by
    have hprobe : x = attX → (isValidMoveWith chk t x attY kingX kingY true true false).1
        = true := by
      intro hxa
      subst hxa
      exact isValidMoveWith_line chk t x attY kingX kingY c ha hk (by rw [hb]; exact hking)
        (by rw [hb]; exact hatt) (by rw [hb]; exact hline) (by rw [hb]; exact hclear)
    have hrest : x ≠ attX → attX ∈ xs := fun hne => by
      rcases List.mem_cons.1 hx with h | h
      · exact absurd h.symm hne
      · exact h
    have hocc : x = attX → (t.board attY x).isEmpty = false ∧ (t.board attY x).isWhite ≠ c :=
      fun hxa => by
        subst hxa
        rw [hb]
        exact ⟨(linePiece_occupied hline).1, hatt⟩
    unfold attackScanRow
    by_cases he : (t.board attY x).isEmpty = true
    · rw [if_pos he]
      refine attackScanRow_line chk hkeeps b attX attY kingX kingY c ha hk hking hatt hline
        hclear xs t hb (hrest ?_)
      intro hxa
      rw [(hocc hxa).1] at he
      exact Bool.false_ne_true he
    · rw [if_neg he]
      by_cases hen : (!(t.board attY x).isEmpty && (t.board attY x).isWhite != c) = true
      · rw [if_pos hen]
        dsimp only
        by_cases hr : (isValidMoveWith chk t x attY kingX kingY true true false).1 = true
        · rw [if_pos hr]
        · rw [if_neg hr]
          refine attackScanRow_line chk hkeeps b attX attY kingX kingY c ha hk hking hatt hline
            hclear xs _ ?_ (hrest (fun hxa => hr (hprobe hxa)))
          rw [(isValidMoveWith_attack chk hkeeps t x attY kingX kingY true false
            (by rw [hb]; exact hking.1)).1.board]
          exact hb
      · rw [if_neg hen]
        refine attackScanRow_line chk hkeeps b attX attY kingX kingY c ha hk hking hatt hline
          hclear xs t hb (hrest ?_)
        intro hxa
        apply hen
        rw [(hocc hxa).1]
        simp only [Bool.not_false, Bool.true_and, bne_iff_ne, ne_eq]
        exact (hocc hxa).2

/-- With exactly one king of colour `c` on the board, and a rook, bishop or
queen of the other colour on a line to it with nothing in between,
`isKingInCheck(c)` answers true. -/
theorem isKingInCheck_line (t : ChessBoard) (c : Bool) (attX attY kingX kingY : Int)
    (ha : isValidTile attX attY = true) (hk : isValidTile kingX kingY = true)
    (hking : (t.board kingY kingX).type = 'K' ∧ (t.board kingY kingX).isWhite = c)
    (honly : ∀ y x : Int, isValidTile x y = true → (t.board y x).type = 'K' →
      (t.board y x).isWhite = c → x = kingX ∧ y = kingY)
    (hatt : (t.board attY attX).isWhite ≠ c)
    (hline : LinePiece (t.board attY attX) attX attY kingX kingY)
    (hclear : ∀ i : Nat, 0 < i → i < lineLength attX attY kingX kingY →
      (t.board (linePoint attX attY kingX kingY i).2
        (linePoint attX attY kingX kingY i).1).isEmpty = true) :
    (isKingInCheck t c).1 = true := by
  have hocc : (t.board kingY kingX).isEmpty = false := by
    unfold Piece.isEmpty
    rw [hking.1]
    rfl
  have hkv := (isValidTile_iff kingX kingY).1 hk
  have hrows : ∀ (ys : List Int) (acc : Bool × ChessBoard), acc.2.board = t.board →
      (acc.1 = true ∨ attY ∈ ys) →
      (ys.foldl
        (fun (acc : Bool × ChessBoard) y =>
          ((acc.1 || (attackScanRow (isKingInCheckFuel 64) kingX kingY c y coords acc.2).1),
            (attackScanRow (isKingInCheckFuel 64) kingX kingY c y coords acc.2).2)) acc).1
        = true := by
    intro ys
    induction ys with
    | nil =>
      intro acc _ h
      rcases h with h | h
      · exact h
      · exact absurd h (List.not_mem_nil _)
    | cons y ys ih =>
      intro acc hb h
      rw [List.foldl_cons]
      refine ih _ ?_ ?_
      · show (attackScanRow (isKingInCheckFuel 64) kingX kingY c y coords acc.2).2.board = _
        rw [attackScanRow_board _ (isKingInCheckFuel_keeps 64) kingX kingY c y coords acc.2
          (by rw [hb]; exact hocc)]
        exact hb
      · show (acc.1 || (attackScanRow (isKingInCheckFuel 64) kingX kingY c y coords acc.2).1)
          = true ∨ _
        rcases h with h | h
        · left
          rw [h]
          rfl
        · rcases List.mem_cons.1 h with h1 | h1
          · left
            rw [← h1, attackScanRow_line _ (isKingInCheckFuel_keeps 64) t.board attX attY
              kingX kingY c ha hk ⟨hocc, hking.2⟩ hatt hline hclear coords acc.2 hb
              (mem_coords attX attY ha).1]
            exact Bool.or_true _
          · exact Or.inr h1
  rw [isKingInCheck_unfold]
  unfold isKingInCheckBody
  dsimp only
  rw [findKing_unique t.board c kingX kingY hk hking honly]
  dsimp only
  rw [if_neg (by omega)]
  exact hrows coords (false, { t with backupBoard := t.board }) rfl
    (Or.inr (mem_coords attX attY ha).2)

/-- A pinned piece other than a king is rejected by `isValidMove` for every
destination that is not a square of the line from the pinning piece to the
king. -/
theorem isValidMoveWith_pinned (s : ChessBoard) (fromX fromY toX toY : Int)
    (inSimulation isDrawingMoves : Bool) (attX attY kingX kingY : Int)
    (hkind : (s.board fromY fromX).type ≠ 'K')
    (hpin : Pinned s.board fromX fromY attX attY kingX kingY)
    (hoff : ∀ i : Nat, i ≤ lineLength attX attY kingX kingY →
      linePoint attX attY kingX kingY i ≠ (toX, toY)) :
    (isValidMoveWith isKingInCheck s fromX fromY toX toY inSimulation false isDrawingMoves).1
      = false := by
  unfold isValidMoveWith
  dsimp only
  by_cases he : (s.board fromY fromX).isEmpty = true
  · rw [if_pos he]
  rw [if_neg he]
  by_cases ht : (!isValidTile fromX fromY || !isValidTile toX toY) = true
  · rw [if_pos ht]
  rw [if_neg ht]
  generalize hv : validatePiece isKingInCheck
    { s with backupLastMove := s.lastMove, backupBoard := s.board }
    (s.board fromY fromX) fromX fromY toX toY isDrawingMoves = v
  match v, hv with
  | Option.none, _ => rfl
  | some (false, s1), _ => rfl
  | some (true, s1), hv =>
    have hval := validatePiece_validated isKingInCheck isKingInCheck_keeps _ _ fromX fromY
      toX toY isDrawingMoves true s1 hv
    have hs1 : ∀ y x, s1.board y x = s.board y x
        ∨ (s1.board y x = Piece.none ∧ (s.board y x).type = 'P') := by
      intro y x
      rcases hval.board with hb | ⟨hb, hP, _⟩
      · rw [hb]; exact Or.inl rfl
      · rw [hb, Grid.set_apply]
        by_cases hyx : y = fromY ∧ x = toX
        · rw [if_pos hyx, hyx.1, hyx.2]; exact Or.inr ⟨rfl, hP⟩
        · rw [if_neg hyx]; exact Or.inl rfl
    have hkeep : ∀ y x, (s.board y x).type ≠ 'P' → ¬ (y = fromY ∧ x = fromX) →
        ¬ (y = toY ∧ x = toX) →
        ((s1.board.set toY toX (s.board fromY fromX)).set fromY fromX Piece.none) y x
          = s.board y x := by
      intro y x hP h1 h2
      rw [Grid.set_apply, if_neg h1, Grid.set_apply, if_neg h2]
      rcases hs1 y x with h | h
      · exact h
      · exact absurd h.2 hP
    have haligned := (linePiece_aligned hpin.line)
    have hend := linePoint_length attX attY kingX kingY haligned
    have hstart := linePoint_zero attX attY kingX kingY
    -- the king and the pinning piece stay where they are
    have hkfrom : ¬ (kingY = fromY ∧ kingX = fromX) := fun h => by
      apply hkind
      rw [← h.1, ← h.2]
      exact hpin.king.1
    have hkto : ¬ (kingY = toY ∧ kingX = toX) := fun h =>
      hoff _ (Nat.le_refl _) (by rw [hend, h.1, h.2])
    have hafrom : ¬ (attY = fromY ∧ attX = fromX) := fun h => by
      apply hpin.attacker
      rw [h.1, h.2]
    have hato : ¬ (attY = toY ∧ attX = toX) := fun h =>
      hoff 0 (Nat.zero_le _) (by rw [hstart, h.1, h.2])
    have hkB := hkeep kingY kingX (by rw [hpin.king.1]; decide) hkfrom hkto
    have haB := hkeep attY attX (linePiece_occupied hpin.line).2 hafrom hato
    show (!(isKingInCheck
      { s1 with board := ((s1.board.set toY toX (s.board fromY fromX)).set fromY fromX
          Piece.none) } (s.board fromY fromX).isWhite).1) = false
    rw [isKingInCheck_line _ (s.board fromY fromX).isWhite attX attY kingX kingY
      hpin.attackerOnBoard hpin.kingOnBoard]
    · rfl
    · dsimp only
      rw [hkB]
      exact hpin.king
    · intro y x hvalid hK hc
      change (((s1.board.set toY toX (s.board fromY fromX)).set fromY fromX Piece.none) y x).type
        = 'K' at hK
      change (((s1.board.set toY toX (s.board fromY fromX)).set fromY fromX Piece.none)
        y x).isWhite = _ at hc
      rw [Grid.set_apply] at hK hc
      by_cases h1 : y = fromY ∧ x = fromX
      · rw [if_pos h1] at hK
        exact absurd hK (by decide)
      · rw [if_neg h1, Grid.set_apply] at hK hc
        by_cases h2 : y = toY ∧ x = toX
        · rw [if_pos h2] at hK
          exact absurd hK hkind
        · rw [if_neg h2] at hK hc
          rcases hs1 y x with h | h
          · rw [h] at hK hc
            exact hpin.onlyKing y x hvalid hK hc
          · rw [h.1] at hK
            exact absurd hK (by decide)
    · dsimp only
      rw [haB]
      exact hpin.attacker
    · dsimp only
      rw [haB]
      exact hpin.line
    · intro i hi1 hi2
      show (((s1.board.set toY toX (s.board fromY fromX)).set fromY fromX Piece.none)
        (linePoint attX attY kingX kingY i).2 (linePoint attX attY kingX kingY i).1).isEmpty
          = true
      obtain ⟨j, _, _, hj, hothers⟩ := hpin.between
      rw [Grid.set_apply]
      by_cases h1 : (linePoint attX attY kingX kingY i).2 = fromY
          ∧ (linePoint attX attY kingX kingY i).1 = fromX
      · rw [if_pos h1]
        rfl
      · rw [if_neg h1, Grid.set_apply]
        have h2 : ¬ ((linePoint attX attY kingX kingY i).2 = toY
            ∧ (linePoint attX attY kingX kingY i).1 = toX) := fun h =>
          hoff i (Nat.le_of_lt hi2) (Prod.ext h.2 h.1)
        rw [if_neg h2]
        have hij : i ≠ j := fun hij => by
          apply h1
          rw [hij, hj]
          exact ⟨rfl, rfl⟩
        rcases hs1 (linePoint attX attY kingX kingY i).2 (linePoint attX attY kingX kingY i).1
          with h | h
        · rw [h]
          exact hothers i hi1 hi2 hij
        · rw [h.1]
          rfl

/-- C5: for a pawn, rook, knight, bishop or queen on an in-board square and an
in-board destination, `isValidMove` returns true exactly when the validator of
the piece accepts the move and `isKingInCheck` for the mover's colour is false on
the board obtained by applying the move (`boardAfter`: the piece on the
destination, the origin empty, and the passed pawn removed in an en passant
capture).  In particular a pin is detected: when the piece is the only piece
strictly between its king, the only king of its colour, and a rook, bishop or
queen of the other colour that stands on a rank, file or diagonal (as that
piece moves) with the king, `isValidMove` rejects every destination that is
not a square of the line from the pinning piece to the king, the two ends
included. -/
theorem C5_isValidMove_iff (s : ChessBoard) (fromX fromY toX toY : Int)
    (hfrom : isValidTile fromX fromY = true) (hto : isValidTile toX toY = true)
    (hkind : (s.board fromY fromX).type = 'P' ∨ (s.board fromY fromX).type = 'R'
      ∨ (s.board fromY fromX).type = 'N' ∨ (s.board fromY fromX).type = 'B'
      ∨ (s.board fromY fromX).type = 'Q') :
    ((isValidMove s fromX fromY toX toY).1 = true
      ↔ validatorAccepts s fromX fromY toX toY = true
        ∧ (isKingInCheck { s with board := boardAfter s.board fromX fromY toX toY }
            (s.board fromY fromX).isWhite).1 = false)
      ∧ ∀ attX attY kingX kingY : Int,
          Pinned s.board fromX fromY attX attY kingX kingY →
          (∀ i : Nat, i ≤ lineLength attX attY kingX kingY →
            linePoint attX attY kingX kingY i ≠ (toX, toY)) →
          (isValidMove s fromX fromY toX toY).1 = false := by
  refine ⟨isValidMove_iff_validator s fromX fromY toX toY hfrom hto hkind, ?_⟩
  intro attX attY kingX kingY hpin hoff
  have hk : (s.board fromY fromX).type ≠ 'K' := by
    rcases hkind with h | h | h | h | h <;> rw [h] <;> decide
  exact isValidMoveWith_pinned s fromX fromY toX toY false false attX attY kingX kingY hk
    hpin hoff

set_option maxRecDepth 100000 in
theorem pinnedKnightPosition_facts :
    (pinnedKnightPosition.board 6 4 = ⟨'N', true⟩
        ∧ pinnedKnightPosition.board 7 4 = ⟨'K', true⟩
        ∧ pinnedKnightPosition.board 0 4 = ⟨'R', false⟩)
      ∧ (∀ q ∈ squares, (pinnedKnightPosition.board q.1 q.2).type = 'K' →
          (pinnedKnightPosition.board q.1 q.2).isWhite = true → q = (7, 4))
      ∧ (∀ i ∈ [1, 2, 3, 4, 5], (pinnedKnightPosition.board i 4).isEmpty = true)
      ∧ validatorAccepts pinnedKnightPosition 4 6 2 5 = true
      ∧ (isKingInCheck
          { pinnedKnightPosition with
            board := boardAfter pinnedKnightPosition.board 4 6 2 5 } true).1 = true := by
  decide!

/-- The knight of `pinnedKnightPosition` is pinned on the e-file by the rook
on e8. -/
theorem pinnedKnightPosition_pinned : Pinned pinnedKnightPosition.board 4 6 4 0 4 7 := by
  obtain ⟨⟨hn, hk, hr⟩, honly, hbetween, _, _⟩ := pinnedKnightPosition_facts
  have hlen : lineLength 4 0 4 7 = 7 := by decide
  have hpt : ∀ i : Nat, linePoint 4 0 4 7 i = (4, (i : Int)) := by
    intro i
    unfold linePoint
    rw [show Int.sign (4 - 4) = 0 from rfl, show Int.sign (7 - 0) = 1 from rfl]
    simp
  refine ⟨by decide, by decide, ?_, ?_, ?_, ?_, ⟨6, by decide, by decide, ?_, ?_⟩⟩
  · rw [hk, hn]
    exact ⟨rfl, rfl⟩
  · intro y x hv hK hc
    have hb := (isValidTile_iff x y).1 hv
    have hq : (y, x) ∈ squares := (mem_squares (y, x)).2 ⟨⟨hb.2.1, by omega⟩, ⟨hb.1.1, by omega⟩⟩
    rw [hn] at hc
    have := honly (y, x) hq hK hc
    exact ⟨(congrArg Prod.snd this), (congrArg Prod.fst this)⟩
  · rw [hr, hn]
    decide
  · rw [hr]
    exact Or.inl ⟨Or.inl rfl, Or.inl rfl⟩
  · rw [hpt]
    rfl
  · intro i h1 h2 h3
    rw [hlen] at h2
    rw [hpt]
    apply hbetween
    simp only [List.mem_cons, List.mem_singleton, List.not_mem_nil, or_false]
    omega

/-- C5 at `pinnedKnightPosition`: the knight validator accepts e2-c3, the white
king is in check on the board after the move, and `isValidMove` rejects it; the
knight is pinned on the e-file, and c3 is not on that file. -/
theorem C5_isValidMove_iff_witness :
    (isValidTile 4 6 = true ∧ isValidTile 2 5 = true
      ∧ (pinnedKnightPosition.board 6 4).type = 'N')
    ∧ validatorAccepts pinnedKnightPosition 4 6 2 5 = true
    ∧ (isKingInCheck
        { pinnedKnightPosition with board := boardAfter pinnedKnightPosition.board 4 6 2 5 }
        (pinnedKnightPosition.board 6 4).isWhite).1 = true
    ∧ Pinned pinnedKnightPosition.board 4 6 4 0 4 7
    ∧ (isValidMove pinnedKnightPosition 4 6 2 5).1 = false := by
  have hf := pinnedKnightPosition_facts
  have hk : (pinnedKnightPosition.board 6 4).type = 'N' := by rw [hf.1.1]
  have h := C5_isValidMove_iff pinnedKnightPosition 4 6 2 5 (by decide) (by decide)
    (Or.inr (Or.inr (Or.inl hk)))
  have hoff : ∀ i : Nat, i ≤ lineLength 4 0 4 7 → linePoint 4 0 4 7 i ≠ (2, 5) := by
    intro i _ hi
    have hx := congrArg Prod.fst hi
    unfold linePoint at hx
    rw [show Int.sign (4 - 4) = 0 from rfl] at hx
    simp at hx
  refine ⟨⟨by decide, by decide, hk⟩, hf.2.2.2.1, ?_, pinnedKnightPosition_pinned,
    h.2 4 0 4 7 pinnedKnightPosition_pinned hoff⟩
  rw [hf.1.1]
  exact hf.2.2.2.2

/-! ## Theorems: the fool's mate -/

theorem toAlgebraic_rank (x y : Int) (hx : 0 ≤ x ∧ x < 8) (hy : 0 ≤ y ∧ y < 8) :
    (toAlgebraic x y).get ⟨1⟩ = Char.ofNat (56 - y.toNat) := by
  obtain ⟨hx1, hx2⟩ := hx
  obtain ⟨hy1, hy2⟩ := hy
  interval_cases x <;> interval_cases y <;> rfl

/-- A pawn that does not stand on the rank from which its colour captures en
passant: the validator leaves the grid alone, and its answer depends on the
grid only. -/
theorem isValidPawnMove_noPassing (s : ChessBoard) (fromX fromY toX toY : Int)
    (isWhite d : Bool)
    (hfrom : isValidTile fromX fromY = true) (hto : isValidTile toX toY = true)
    (hrow : fromY ≠ (if isWhite then 3 else 4)) :
    (isValidPawnMove s fromX fromY toX toY isWhite d).2.board = s.board
      ∧ ∀ t : ChessBoard, t.board = s.board →
        (isValidPawnMove t fromX fromY toX toY isWhite d).1
          = (isValidPawnMove s fromX fromY toX toY isWhite d).1 := by
  have hf := (isValidTile_iff fromX fromY).1 hfrom
  have ht := (isValidTile_iff toX toY).1 hto
  have hrank := toAlgebraic_rank toX fromY ht.1 hf.2
  have hne : ¬ (if isWhite = true then (toAlgebraic toX fromY).get ⟨1⟩ = '5'
      else (toAlgebraic toX fromY).get ⟨1⟩ = '4') := by
    rw [hrank]
    obtain ⟨h1, h2⟩ := hf.2
    cases isWhite
    · simp only [Bool.false_eq_true, if_false] at hrow ⊢
      interval_cases fromY <;> first | exact absurd rfl hrow | decide
    · simp only [if_true] at hrow ⊢
      interval_cases fromY <;> first | exact absurd rfl hrow | decide
  constructor
  · unfold isValidPawnMove
    dsimp only
    simp only [hne, and_false, if_false]
    split_ifs <;> rfl
  · intro t hb
    unfold isValidPawnMove
    dsimp only
    rw [hb]
    simp only [hne, and_false, if_false]
    split_ifs <;> rfl

/-- The king validator leaves the grid as it is. -/
theorem isValidKingMoveWith_board (chk : ChessBoard → Bool → Bool × ChessBoard)
    (hk : Keeps chk) (s : ChessBoard) (fromX fromY toX toY : Int) (isWhite : Bool) :
    (isValidKingMoveWith chk s fromX fromY toX toY isWhite).2.board = s.board := by
  rcases isValidKingMoveWith_state chk s fromX fromY toX toY isWhite with ⟨l, hl⟩ | ⟨_, l, hl⟩
  · rw [hl]
  · rw [hl]
    obtain ⟨hu, _⟩ := hk (simulated s fromX fromY toX toY) isWhite
    show ((_ : Grid).set fromY fromX _).set toY toX _ = s.board
    rw [hu.board]
    exact Grid.revert_simulate_step s.board fromY fromX toY toX Piece.none

/-- For a piece that is not a pawn on the rank from which its colour captures
en passant, the selected validator leaves the grid alone, and its answer
depends on the grid and the castling flags only. -/
theorem validatePiece_noPassing (chk : ChessBoard → Bool → Bool × ChessBoard)
    (hk : Keeps chk) (hc : Congruent chk) (s t : ChessBoard) (piece : Piece)
    (fromX fromY toX toY : Int) (d : Bool)
    (hfrom : isValidTile fromX fromY = true) (hto : isValidTile toX toY = true)
    (hrow : piece.type = 'P' → fromY ≠ (if piece.isWhite then 3 else 4))
    (h : SameView s t) :
    ((validatePiece chk s piece fromX fromY toX toY d).map Prod.fst).getD false
        = ((validatePiece chk t piece fromX fromY toX toY d).map Prod.fst).getD false
      ∧ ∀ v s1, validatePiece chk s piece fromX fromY toX toY d = some (v, s1) →
          s1.board = s.board := by
  constructor
  · unfold validatePiece
    split
    · rename_i hp
      exact (isValidPawnMove_noPassing t fromX fromY toX toY piece.isWhite d hfrom hto
        (hrow hp)).2 s h.board
    split
    · exact isValidRookMove_result s t fromX fromY toX toY piece.isWhite h.board
    split
    · exact isValidKnightMove_result s t fromX fromY toX toY piece.isWhite h.board
    split
    · exact isValidBishopMove_result s t fromX fromY toX toY piece.isWhite h.board
    split
    · exact isValidQueenMove_result s t fromX fromY toX toY piece.isWhite h.board
    split
    · exact congrArg KingMove.valid
        (isValidKingMoveWith_result chk hc s t fromX fromY toX toY piece.isWhite h)
    · rfl
  · intro v s1 hv
    by_cases hp : piece.type = 'P'
    · unfold validatePiece at hv
      rw [if_pos hp] at hv
      have e := congrArg Prod.snd (Option.some.inj hv)
      rw [← show _ = s1 from e]
      exact (isValidPawnMove_noPassing s fromX fromY toX toY piece.isWhite d hfrom hto
        (hrow hp)).1
    · by_cases hkind : piece.type = 'R' ∨ piece.type = 'N' ∨ piece.type = 'B'
          ∨ piece.type = 'Q'
      · exact validatePiece_board chk s piece fromX fromY toX toY d hkind v s1 hv
      · have h1 : piece.type ≠ 'R' := fun e => hkind (Or.inl e)
        have h2 : piece.type ≠ 'N' := fun e => hkind (Or.inr (Or.inl e))
        have h3 : piece.type ≠ 'B' := fun e => hkind (Or.inr (Or.inr (Or.inl e)))
        have h4 : piece.type ≠ 'Q' := fun e => hkind (Or.inr (Or.inr (Or.inr e)))
        unfold validatePiece at hv
        rw [if_neg hp, if_neg h1, if_neg h2, if_neg h3, if_neg h4] at hv
        by_cases h5 : piece.type = 'K'
        · rw [if_pos h5] at hv
          have e := congrArg Prod.snd (Option.some.inj hv)
          rw [← show _ = s1 from e]
          exact isValidKingMoveWith_board chk hk s fromX fromY toX toY piece.isWhite
        · rw [if_neg h5] at hv
          exact absurd hv (by simp)

theorem isValidMoveWith_unvalidated (chk : ChessBoard → Bool → Bool × ChessBoard)
    (s : ChessBoard) (fromX fromY toX toY : Int) (inSimulation skip isDrawingMoves : Bool)
    (hv : validatePiece chk { s with backupLastMove := s.lastMove, backupBoard := s.board }
      (s.board fromY fromX) fromX fromY toX toY isDrawingMoves = Option.none) :
    (isValidMoveWith chk s fromX fromY toX toY inSimulation skip isDrawingMoves).1
      = false := by
  unfold isValidMoveWith
  dsimp only
  split
  · rfl
  split
  · rfl
  rw [hv]

/-- One call of `isValidMove` for a piece that is not a pawn on the rank from
which its colour captures en passant: the answer depends on the grid and the
castling flags only, and the grid is left as it is. -/
theorem isValidMoveWith_noPassing (s t : ChessBoard) (fromX fromY toX toY : Int)
    (i1 i2 d : Bool)
    (hrow : (s.board fromY fromX).type = 'P' →
      fromY ≠ (if (s.board fromY fromX).isWhite then 3 else 4))
    (h : SameView s t) :
    (isValidMoveWith isKingInCheck s fromX fromY toX toY i1 false d).1
        = (isValidMoveWith isKingInCheck t fromX fromY toX toY i2 false d).1
      ∧ (isValidMoveWith isKingInCheck s fromX fromY toX toY i1 false d).2.board = s.board := by
  have hbt : t.board = s.board := h.board.symm
  have hpt : t.board fromY fromX = s.board fromY fromX := by rw [hbt]
  by_cases he : (s.board fromY fromX).isEmpty = true
  · unfold isValidMoveWith
    dsimp only
    rw [hbt, if_pos he, if_pos he]
    exact ⟨rfl, rfl⟩
  by_cases ht : (!isValidTile fromX fromY || !isValidTile toX toY) = true
  · unfold isValidMoveWith
    dsimp only
    rw [hbt, if_neg he, if_neg he, if_pos ht, if_pos ht]
    exact ⟨rfl, rfl⟩
  have hp : (s.board fromY fromX).isEmpty = false := by simpa using he
  have hfrom : isValidTile fromX fromY = true := by
    cases hv : isValidTile fromX fromY
    · rw [hv] at ht; simp at ht
    · rfl
  have hto : isValidTile toX toY = true := by
    cases hv : isValidTile toX toY
    · rw [hv, hfrom] at ht; simp at ht
    · rfl
  have hview : SameView { s with backupLastMove := s.lastMove, backupBoard := s.board }
      { t with backupLastMove := t.lastMove, backupBoard := t.board } :=
    ⟨h.board, h.whiteKing, h.blackKing, h.whiteRook, h.blackRook⟩
  obtain ⟨hans, hboard⟩ := validatePiece_noPassing isKingInCheck isKingInCheck_keeps
    isKingInCheck_congr { s with backupLastMove := s.lastMove, backupBoard := s.board }
    { t with backupLastMove := t.lastMove, backupBoard := t.board }
    (s.board fromY fromX) fromX fromY toX toY d hfrom hto hrow hview
  have hboardt := (validatePiece_noPassing isKingInCheck isKingInCheck_keeps
    isKingInCheck_congr { t with backupLastMove := t.lastMove, backupBoard := t.board }
    { s with backupLastMove := s.lastMove, backupBoard := s.board }
    (s.board fromY fromX) fromX fromY toX toY d hfrom hto hrow
    ⟨hbt, h.whiteKing.symm, h.blackKing.symm, h.whiteRook.symm, h.blackRook.symm⟩).2
  constructor
  · -- the answers
    cases hvs : validatePiece isKingInCheck
        { s with backupLastMove := s.lastMove, backupBoard := s.board }
        (s.board fromY fromX) fromX fromY toX toY d with
    | none =>
      rw [isValidMoveWith_unvalidated isKingInCheck s fromX fromY toX toY i1 false d hvs]
      cases hvt : validatePiece isKingInCheck
          { t with backupLastMove := t.lastMove, backupBoard := t.board }
          (t.board fromY fromX) fromX fromY toX toY d with
      | none =>
        rw [isValidMoveWith_unvalidated isKingInCheck t fromX fromY toX toY i2 false d hvt]
      | some r =>
        rw [isValidMoveWith_fst isKingInCheck t fromX fromY toX toY i2 d (by rw [hpt]; exact hp)
          hfrom hto r.1 r.2 hvt]
        rw [hpt] at hvt
        rw [hvs, hvt] at hans
        have : r.1 = false := hans.symm
        rw [this]
        rfl
    | some r =>
      rw [isValidMoveWith_fst isKingInCheck s fromX fromY toX toY i1 d hp hfrom hto r.1 r.2 hvs]
      cases hvt : validatePiece isKingInCheck
          { t with backupLastMove := t.lastMove, backupBoard := t.board }
          (t.board fromY fromX) fromX fromY toX toY d with
      | none =>
        rw [isValidMoveWith_unvalidated isKingInCheck t fromX fromY toX toY i2 false d hvt]
        rw [hpt] at hvt
        rw [hvs, hvt] at hans
        have : r.1 = false := hans
        rw [this]
        rfl
      | some r2 =>
        rw [isValidMoveWith_fst isKingInCheck t fromX fromY toX toY i2 d (by rw [hpt]; exact hp)
          hfrom hto r2.1 r2.2 hvt]
        have hv1 := validatePiece_validated isKingInCheck isKingInCheck_keeps _ _ _ _ _ _ _ _ _
          hvs
        have hv2 := validatePiece_validated isKingInCheck isKingInCheck_keeps _ _ _ _ _ _ _ _ _
          hvt
        have hb1 := hboard r.1 r.2 hvs
        rw [hpt] at hvt
        have hb2 := hboardt r2.1 r2.2 hvt
        rw [hvs, hvt] at hans
        have e : r.1 = r2.1 := hans
        rw [e, hpt]
        have hsame : SameView
            { r.2 with
              board := ((r.2.board.set toY toX (s.board fromY fromX)).set fromY fromX
                Piece.none) }
            { r2.2 with
              board := ((r2.2.board.set toY toX (s.board fromY fromX)).set fromY fromX
                Piece.none) } := by
          refine ⟨?_, ?_, ?_, ?_, ?_⟩
          · show (r.2.board.set toY toX _).set fromY fromX _
              = (r2.2.board.set toY toX _).set fromY fromX _
            rw [hb1, hb2]
            show (s.board.set toY toX _).set fromY fromX _
              = (t.board.set toY toX _).set fromY fromX _
            rw [hbt]
          · exact hv1.whiteKing.trans (h.whiteKing.trans hv2.whiteKing.symm)
          · exact hv1.blackKing.trans (h.blackKing.trans hv2.blackKing.symm)
          · exact hv1.whiteRook.trans (h.whiteRook.trans hv2.whiteRook.symm)
          · exact hv1.blackRook.trans (h.blackRook.trans hv2.blackRook.symm)
        rw [isKingInCheck_congr _ _ _ hsame]
  · -- the grid
    unfold isValidMoveWith
    dsimp only
    rw [if_neg he, if_neg ht]
    generalize hv : validatePiece isKingInCheck
      { s with backupLastMove := s.lastMove, backupBoard := s.board }
      (s.board fromY fromX) fromX fromY toX toY d = v
    match v, hv with
    | Option.none, _ => rfl
    | some (false, s1), hv => exact hboard false s1 hv
    | some (true, s1), hv =>
      have hb1 : s1.board = s.board := hboard true s1 hv
      obtain ⟨hu, _⟩ := isKingInCheck_keeps
        { s1 with board := ((s1.board.set toY toX (s.board fromY fromX)).set fromY fromX
            Piece.none) } (s.board fromY fromX).isWhite
      show (((isKingInCheck
        { s1 with board := ((s1.board.set toY toX (s.board fromY fromX)).set fromY fromX
            Piece.none) } (s.board fromY fromX).isWhite).2.board.set
        fromY fromX (s.board fromY fromX)).set toY toX (s1.board toY toX)) = s.board
      rw [hu.board]
      show (((s1.board.set toY toX (s.board fromY fromX)).set fromY fromX Piece.none).set
        fromY fromX (s.board fromY fromX)).set toY toX (s1.board toY toX) = s.board
      rw [hb1]
      exact Grid.revert_simulate s.board fromY fromX toY toX _ _

theorem noPawnOnPassingRank_row (b : Grid) (c : Bool) (h : noPawnOnPassingRank b c = true)
    (x y : Int) (hv : isValidTile x y = true) (hc : (b y x).isWhite = c) :
    (b y x).type = 'P' → y ≠ (if (b y x).isWhite then 3 else 4) := by
  intro hP hy
  unfold noPawnOnPassingRank at h
  have hx := List.all_eq_true.1 h x (mem_coords x y hv).1
  rw [hc] at hy
  rw [← hy, hP, hc] at hx
  simp at hx

/-- The destination loops of `isCheckmate` for a piece that is not a pawn on
the rank from which its colour captures en passant: the answer is that of the
independent calls of `isValidMove` on any object with the same grid and
castling flags, and the grid is left as it is. -/
theorem destinationScan_noPassing (o : ChessBoard) (x y : Int)
    (hrow : (o.board y x).type = 'P' → y ≠ (if (o.board y x).isWhite then 3 else 4)) :
    ∀ (ds : List (Int × Int)) (s : ChessBoard), SameView s o → s.backupBoard = s.board →
      (destinationScan x y ds s).1 = ds.any (fun d => (isValidMove o x y d.2 d.1).1)
        ∧ SameView (destinationScan x y ds s).2 o
        ∧ (destinationScan x y ds s).2.backupBoard = (destinationScan x y ds s).2.board
  | [], _, h, hb => ⟨rfl, h, hb⟩
  | d :: ds, s, h, hb => by
    have hrows : (s.board y x).type = 'P' → y ≠ (if (s.board y x).isWhite then 3 else 4) := by
      rw [h.board]
      exact hrow
    obtain ⟨hans, hboard⟩ := isValidMoveWith_noPassing s o x y d.2 d.1 true false false hrows h
    obtain ⟨hval, hbk⟩ := isValidMoveWith_validated isKingInCheck isKingInCheck_keeps s x y
      d.2 d.1 true false false
    have hview : SameView (isValidMoveWith isKingInCheck s x y d.2 d.1 true false false).2 o :=
      ⟨hboard.trans h.board, hval.whiteKing.trans h.whiteKing,
        hval.blackKing.trans h.blackKing, hval.whiteRook.trans h.whiteRook,
        hval.blackRook.trans h.blackRook⟩
    have hbk2 : (isValidMoveWith isKingInCheck s x y d.2 d.1 true false false).2.backupBoard
        = (isValidMoveWith isKingInCheck s x y d.2 d.1 true false false).2.board := by
      rcases hbk with e | e | e
      · rw [e, hb, hboard]
      · rw [e, hboard]
      · exact e
    unfold destinationScan
    dsimp only
    unfold isValidMoveFull
    rw [List.any_cons]
    have hans2 : (isValidMove o x y d.2 d.1).1
        = (isValidMoveWith isKingInCheck s x y d.2 d.1 true false false).1 := hans.symm
    rw [hans2]
    by_cases hr : (isValidMoveWith isKingInCheck s x y d.2 d.1 true false false).1 = true
    · rw [if_pos hr, hr]
      exact ⟨rfl, hview, hbk2⟩
    · rw [if_neg hr]
      have hr2 : (isValidMoveWith isKingInCheck s x y d.2 d.1 true false false).1 = false := by
        simpa using hr
      rw [hr2, Bool.false_or]
      exact destinationScan_noPassing o x y hrow ds _ hview hbk2

/-- The loops of `isCheckmate` over the pieces, on a grid where no pawn of the
colour stands on the rank from which it captures en passant. -/
theorem pieceScan_noPassing (o : ChessBoard) (c : Bool)
    (hnp : noPawnOnPassingRank o.board c = true) :
    ∀ (qs : List (Int × Int)) (s : ChessBoard), (∀ q ∈ qs, q ∈ squares) → SameView s o →
      s.backupBoard = s.board →
      (pieceScan c qs s).1
          = qs.any (fun q => !(o.board q.1 q.2).isEmpty && (o.board q.1 q.2).isWhite == c
              && squares.any (fun d => (isValidMove o q.2 q.1 d.2 d.1).1))
        ∧ SameView (pieceScan c qs s).2 o
        ∧ (pieceScan c qs s).2.backupBoard = (pieceScan c qs s).2.board
  | [], _, _, h, hb => ⟨rfl, h, hb⟩
  | q :: qs, s, hq, h, hb => by
    have hqs : ∀ p ∈ qs, p ∈ squares := fun p hp => hq p (List.mem_cons_of_mem q hp)
    have hbq : s.board q.1 q.2 = o.board q.1 q.2 := by rw [h.board]
    unfold pieceScan
    rw [List.any_cons, hbq]
    by_cases he : (o.board q.1 q.2).isEmpty = true
    · rw [if_pos he, he]
      exact pieceScan_noPassing o c hnp qs s hqs h hb
    · rw [if_neg he]
      have he2 : (o.board q.1 q.2).isEmpty = false := by simpa using he
      by_cases hc : (!(o.board q.1 q.2).isEmpty && (o.board q.1 q.2).isWhite == c) = true
      · rw [if_pos hc, hc]
        dsimp only
        have hcol : (o.board q.1 q.2).isWhite = c := by
          simp only [Bool.and_eq_true, beq_iff_eq] at hc
          exact hc.2
        have hm := (mem_squares q).1 (hq q (List.mem_cons_self q qs))
        have hv : isValidTile q.2 q.1 = true :=
          (isValidTile_iff q.2 q.1).2 ⟨⟨hm.2.1, by omega⟩, ⟨hm.1.1, by omega⟩⟩
        obtain ⟨g1, g2, g3⟩ := destinationScan_noPassing o q.2 q.1
          (noPawnOnPassingRank_row o.board c hnp q.2 q.1 hv hcol) squares s h hb
        rw [g1]
        by_cases hr : squares.any (fun d => (isValidMove o q.2 q.1 d.2 d.1).1) = true
        · rw [if_pos hr, hr]
          rw [← g1] at hr
          exact ⟨rfl, g2, g3⟩
        · rw [if_neg hr]
          have hr2 : squares.any (fun d => (isValidMove o q.2 q.1 d.2 d.1).1) = false := by
            simpa using hr
          rw [hr2]
          exact pieceScan_noPassing o c hnp qs _ hqs g2 g3
      · rw [if_neg hc]
        have hc2 : (!(o.board q.1 q.2).isEmpty && (o.board q.1 q.2).isWhite == c) = false := by
          simpa using hc
        rw [hc2]
        exact pieceScan_noPassing o c hnp qs s hqs h hb

theorem noAcceptedMove_eq (s : ChessBoard) (c : Bool) :
    noAcceptedMove s c
      = !(squares.any (fun q => !(s.board q.1 q.2).isEmpty && (s.board q.1 q.2).isWhite == c
          && squares.any (fun d => (isValidMove s q.2 q.1 d.2 d.1).1))) := by
  unfold noAcceptedMove
  rw [List.not_any_eq_all_not]
  congr 1
  funext q
  rw [← List.not_any_eq_all_not]
  cases (s.board q.1 q.2).isEmpty <;> cases hw : ((s.board q.1 q.2).isWhite == c) <;>
    simp [bne, hw]

/-- When `noAcceptedMove` holds, `isValidMove` rejects every move of every
piece of that colour, for all coordinates. -/
theorem noAcceptedMove_spec (s : ChessBoard) (c : Bool) (h : noAcceptedMove s c = true)
    (fromX fromY toX toY : Int) (hp : (s.board fromY fromX).isEmpty = false)
    (hc : (s.board fromY fromX).isWhite = c) :
    (isValidMove s fromX fromY toX toY).1 = false := by
  by_cases ht : (!isValidTile fromX fromY || !isValidTile toX toY) = true
  · unfold isValidMove isValidMoveFull isValidMoveWith
    dsimp only
    rw [if_neg (by rw [hp]; exact Bool.false_ne_true), if_pos ht]
  · have hfrom : isValidTile fromX fromY = true := by
      cases hv : isValidTile fromX fromY
      · rw [hv] at ht; simp at ht
      · rfl
    have hto : isValidTile toX toY = true := by
      cases hv : isValidTile toX toY
      · rw [hv, hfrom] at ht; simp at ht
      · rfl
    have hf := (isValidTile_iff fromX fromY).1 hfrom
    have hd := (isValidTile_iff toX toY).1 hto
    have hq : (fromY, fromX) ∈ squares :=
      (mem_squares (fromY, fromX)).2 ⟨⟨hf.2.1, by omega⟩, ⟨hf.1.1, by omega⟩⟩
    have hdq : (toY, toX) ∈ squares :=
      (mem_squares (toY, toX)).2 ⟨⟨hd.2.1, by omega⟩, ⟨hd.1.1, by omega⟩⟩
    unfold noAcceptedMove at h
    have h1 := List.all_eq_true.1 h (fromY, fromX) hq
    dsimp only at h1
    rw [hp, hc] at h1
    simp only [Bool.false_or, bne_self_eq_false] at h1
    have h2 := List.all_eq_true.1 h1 (toY, toX) hdq
    simpa using h2

/-- On a grid where no pawn of the colour stands on the rank from which it
captures en passant, `isCheckmate` answers true exactly when `isKingInCheck`
does and `isValidMove` rejects every move of the colour; it leaves the grid,
the castling flags and `lastMove` as they are. -/
theorem isCheckmate_noPassing (s o : ChessBoard) (c : Bool) (h : SameView s o)
    (hnp : noPawnOnPassingRank o.board c = true) :
    (isCheckmate s c).1 = ((isKingInCheck o c).1 && noAcceptedMove o c)
      ∧ SameView (isCheckmate s c).2 o
      ∧ (isCheckmate s c).2.lastMove = s.lastMove := by
  obtain ⟨hu, _⟩ := isKingInCheck_keeps s c
  have hchk : (isKingInCheck s c).1 = (isKingInCheck o c).1 := isKingInCheck_congr s o c h
  have hview0 : SameView (isKingInCheck s c).2 o :=
    ⟨hu.board.trans h.board, hu.whiteKing.trans h.whiteKing, hu.blackKing.trans h.blackKing,
      hu.whiteRook.trans h.whiteRook, hu.blackRook.trans h.blackRook⟩
  refine ⟨?_, ?_, (isCheckmate_state s c).2.2.2.2.1⟩
  · unfold isCheckmate
    dsimp only
    rw [hchk]
    by_cases hk : (isKingInCheck o c).1 = true
    · rw [hk]
      simp only [Bool.not_true, Bool.false_eq_true, if_false, Bool.true_and]
      rw [(pieceScan_noPassing o c hnp squares
        { (isKingInCheck s c).2 with backupBoard := (isKingInCheck s c).2.board }
        (fun _ hq => hq)
        ⟨hview0.board, hview0.whiteKing, hview0.blackKing, hview0.whiteRook, hview0.blackRook⟩
        rfl).1, noAcceptedMove_eq]
    · have hk2 : (isKingInCheck o c).1 = false := by simpa using hk
      rw [hk2]
      rfl
  · unfold isCheckmate
    dsimp only
    by_cases hk : (isKingInCheck s c).1 = true
    · rw [hk]
      simp only [Bool.not_true, Bool.false_eq_true, if_false]
      obtain ⟨_, g2, g3⟩ := pieceScan_noPassing o c hnp squares
        { (isKingInCheck s c).2 with backupBoard := (isKingInCheck s c).2.board }
        (fun _ hq => hq)
        ⟨hview0.board, hview0.whiteKing, hview0.blackKing, hview0.whiteRook, hview0.blackRook⟩
        rfl
      exact ⟨g3.trans g2.board, g2.whiteKing, g2.blackKing, g2.whiteRook, g2.blackRook⟩
    · have hk2 : (isKingInCheck s c).1 = false := by simpa using hk
      rw [hk2]
      exact hview0

theorem isValidMoveWith_offBoard (chk : ChessBoard → Bool → Bool × ChessBoard)
    (s : ChessBoard) (fromX fromY toX toY : Int) (inSimulation skip isDrawingMoves : Bool)
    (hv : isValidTile fromX fromY = false) :
    (isValidMoveWith chk s fromX fromY toX toY inSimulation skip isDrawingMoves).1
      = false := by
  unfold isValidMoveWith
  dsimp only
  split
  · rfl
  · rw [hv]
    rfl

/-- For a piece of a colour none of whose pawns stands on the rank from which
it captures en passant, the answer of `isValidMove` depends on the grid and the
castling flags only. -/
theorem isValidMove_sameView (s t : ChessBoard) (fromX fromY toX toY : Int) (c : Bool)
    (h : SameView s t) (hnp : noPawnOnPassingRank t.board c = true)
    (hc : (s.board fromY fromX).isWhite = c) :
    (isValidMove s fromX fromY toX toY).1 = (isValidMove t fromX fromY toX toY).1 := by
  by_cases hv : isValidTile fromX fromY = true
  · refine (isValidMoveWith_noPassing s t fromX fromY toX toY false false false ?_ h).1
    rw [← h.board] at hnp
    exact noPawnOnPassingRank_row s.board c hnp fromX fromY hv hc
  · have hv2 : isValidTile fromX fromY = false := by simpa using hv
    unfold isValidMove isValidMoveFull
    rw [isValidMoveWith_offBoard isKingInCheck s fromX fromY toX toY false false false hv2,
      isValidMoveWith_offBoard isKingInCheck t fromX fromY toX toY false false false hv2]

/-- The check detection at the end of `movePiece` when the other side is in
check and has no accepted move, and none of its pawns stands on the rank from
which it captures en passant: `"#"` is appended, and the grid and the castling
flags are left as they are. -/
theorem movePieceSuffix_mate (s : ChessBoard) (toX toY : Int) (c : Bool)
    (hc : (!(s.board toY toX).isWhite) = c)
    (hcheck : (isKingInCheck s c).1 = true) (hnone : noAcceptedMove s c = true)
    (hnp : noPawnOnPassingRank s.board c = true) :
    SameView (movePieceSuffix s toX toY) s
      ∧ (movePieceSuffix s toX toY).lastMove = s.lastMove ++ "#" := by
  obtain ⟨hu, _⟩ := isKingInCheck_keeps s c
  have hview0 : SameView (isKingInCheck s c).2 s :=
    ⟨hu.board, hu.whiteKing, hu.blackKing, hu.whiteRook, hu.blackRook⟩
  obtain ⟨g1, g2, g3⟩ := isCheckmate_noPassing (isKingInCheck s c).2 s c hview0 hnp
  rw [hcheck, hnone] at g1
  have g0 : (isCheckmate (isKingInCheck s c).2 c).1 = true := g1
  unfold movePieceSuffix
  dsimp only
  rw [hc, hcheck, if_pos rfl, hu.board, hc, if_pos g0]
  refine ⟨⟨g2.board, g2.whiteKing, g2.blackKing, g2.whiteRook, g2.blackRook⟩, ?_⟩
  show _ ++ "#" = _
  rw [g3, hu.lastMove]

/-- The last of a list of committed moves: `isValidMove`, the first part of
`movePiece`, and the check detection on what they leave. -/
theorem playMoves_last (fromX fromY toX toY : Int) :
    ∀ (l : List (Int × Int × Int × Int)) (s : ChessBoard),
      playMoves s (l ++ [(fromX, fromY, toX, toY)])
        = ((playMoves s l).bind (fun t =>
            if (isValidMove t fromX fromY toX toY).1 then
              some (movePieceSquares (isValidMove t fromX fromY toX toY).2 fromX fromY toX toY
                false (-1) (-1))
            else Option.none)).map (fun t => movePieceSuffix t toX toY)
  | [], s => by
    show playMoves s [(fromX, fromY, toX, toY)] = _
    unfold playMoves commitMove movePiece
    dsimp only
    by_cases hv : (isValidMove s fromX fromY toX toY).1 = true
    · simp only [playMoves, hv, if_true, Option.some_bind, Option.map_some']
    · simp only [playMoves, hv, if_false, Option.some_bind, Option.map_none', Bool.false_eq_true]
  | m :: l, s => by
    show playMoves s (m :: (l ++ [(fromX, fromY, toX, toY)])) = _
    rw [playMoves, playMoves]
    cases commitMove s m.1 m.2.1 m.2.2.1 m.2.2.2 with
    | none => rfl
    | some s1 => exact playMoves_last fromX fromY toX toY l s1

set_option maxRecDepth 100000 in
/-- The fool's mate on the eve of its last check detection: the queen stands
on h4, White is in check, `isValidMove` rejects every move of a white piece, and
no white pawn stands on the fifth rank. -/
theorem foolsMateEve_facts :
    foolsMateEve.map
        (fun s => (s.lastMove, (s.board 4 7).isWhite, (isKingInCheck s true).1,
          noAcceptedMove s true, noPawnOnPassingRank s.board true))
      = some ("Qh4", false, true, true, true) := by
  decide!

/-- C2: from the initial position the moves f2-f3, e7-e5, g2-g4 and Qd8-h4 are
all accepted by the commit path (`isValidMove`, then `movePiece`); on the
object they leave, `lastMove` is `"Qh4#"`, `isCheckmate(white)` is true and
`isGameOver()` is true, and `isValidMove` rejects every destination of every
white piece. -/
theorem C2_fools_mate :
    (playMoves ChessBoard.new [(5, 6, 5, 5), (4, 1, 4, 3), (6, 6, 6, 4), (3, 0, 7, 4)]).map
        (fun s => (s.lastMove, (isCheckmate s true).1,
          Game.isGameOver { Game.new with chessBoard := s }))
      = some ("Qh4#", true, true)
    ∧ ∀ s : ChessBoard,
        playMoves ChessBoard.new [(5, 6, 5, 5), (4, 1, 4, 3), (6, 6, 6, 4), (3, 0, 7, 4)]
          = some s →
        ∀ fromX fromY toX toY : Int, (s.board fromY fromX).isEmpty = false →
          (s.board fromY fromX).isWhite = true →
          (isValidMove s fromX fromY toX toY).1 = false := by
  have e : playMoves ChessBoard.new [(5, 6, 5, 5), (4, 1, 4, 3), (6, 6, 6, 4), (3, 0, 7, 4)]
      = foolsMateEve.map (fun t => movePieceSuffix t 7 4) :=
    playMoves_last 3 0 7 4 [(5, 6, 5, 5), (4, 1, 4, 3), (6, 6, 6, 4)] ChessBoard.new
  rw [e]
  have hf := foolsMateEve_facts
  cases hX : foolsMateEve with
  | none =>
    rw [hX] at hf
    exact absurd hf (by simp)
  | some X =>
    rw [hX] at hf
    have hf2 := Option.some.inj hf
    simp only [Prod.mk.injEq] at hf2
    obtain ⟨hl, hq, hcheck, hnone, hnp⟩ := hf2
    obtain ⟨hview, hlast⟩ := movePieceSuffix_mate X 7 4 true (by rw [hq]; rfl) hcheck hnone hnp
    obtain ⟨hmate, _, _⟩ := isCheckmate_noPassing (movePieceSuffix X 7 4) X true hview hnp
    rw [hcheck, hnone] at hmate
    rw [hl] at hlast
    constructor
    · show some ((movePieceSuffix X 7 4).lastMove, (isCheckmate (movePieceSuffix X 7 4) true).1,
        (movePieceSuffix X 7 4).lastMove.data.contains '#') = _
      rw [hmate, hlast]
      rfl
    · intro s hs fromX fromY toX toY hp hc
      have hs2 : s = movePieceSuffix X 7 4 := (Option.some.inj hs).symm
      subst hs2
      have hbX : (movePieceSuffix X 7 4).board fromY fromX = X.board fromY fromX := by
        rw [hview.board]
      rw [isValidMove_sameView (movePieceSuffix X 7 4) X fromX fromY toX toY true hview hnp hc]
      rw [hbX] at hp hc
      exact noAcceptedMove_spec X true hnone fromX fromY toX toY hp hc

end Chess
